import Mathlib

set_option autoImplicit false

/-!
# A closed sum-type container (`variant`) and its visitation engine

Shallow embedding of `variant.h`, `vutils.h` and `vdefines.h`.

* The alternative types of a container are codes `T : Ty`; `val T` is the type of the values of
  `T`.  A parameter pack `Types...` is a `List Ty`.
* A template parameter `size_t Index` is a `Nat`; `size_t(-1)` is `2 ^ 64 - 1`, written as the
  numeral 18446744073709551615.
* Member functions take the object (`self`) as an argument and return its new state next to
  their result.  An exception that leaves a function is an `Except.error` result; the state
  returned with it is the state the exception leaves behind.
* What C++ leaves undefined (a dispatch-table lookup outside the table, reading an alternative
  that is not within its lifetime) is the separate result `Fault.undefined_behaviour`.
-/

namespace Variant

/-- The constant `inline constexpr size_t variant_npos = -1;` of `variant.h`: the largest
`size_t`, `2 ^ 64 - 1`. -/
def variant_npos : Nat := 18446744073709551615

/-- How a call can fail to return: `bad_variant_access` thrown by the library, an exception `e`
thrown by an operation of an alternative type, no defined behaviour at all, `std::terminate`
called because an exception reached the boundary of a function whose exception specification
is `noexcept(true)`, or a call that is ill-formed (the program is not built). -/
inductive Fault (E : Type) where
  | bad_variant_access
  | alternative (e : E)
  | undefined_behaviour
  | terminate
  | ill_formed
  deriving DecidableEq, Repr

section Model

variable {Ty : Type} {E : Type} {val : Ty → Type}

/-- The operations and compile-time traits of the alternative types that the container uses.
`move_construct T x` gives the outcome and the state the source is left in; `copy_assign T a b`
(`a = b`) gives the outcome and `a` afterwards; `move_assign T a b` (`a = std::move(b)`) gives
the outcome, `a` afterwards and `b` afterwards. -/
structure alt_traits (Ty : Type) (E : Type) (val : Ty → Type) where
  copy_construct : (T : Ty) → val T → Except E (val T)
  move_construct : (T : Ty) → val T → Except E (val T) × val T
  copy_assign : (T : Ty) → val T → val T → Except E Unit × val T
  move_assign : (T : Ty) → val T → val T → Except E Unit × val T × val T
  is_nothrow_copy_constructible : Ty → Bool
  is_nothrow_move_constructible : Ty → Bool
  is_trivially_destructible : Ty → Bool

/-- The trait `details::get_type<Index, Types...>::type`; `none` is `void` (the index is past the
end of the pack). -/
def get_type : Nat → List Ty → Option Ty
  | _, [] => none
  | 0, First :: _ => some First
  | Index + 1, _ :: Tail => get_type Index Tail

/-- The values of a type computed by `get_type`: `void` has none. -/
@[reducible] def alt_val (val : Ty → Type) : Option Ty → Type
  | some T => val T
  | none => Empty

/-- The trait `details::count_of<T, Types...>::count`. -/
def count_of [DecidableEq Ty] (T : Ty) : List Ty → Nat
  | [] => 0
  | [Last] => if T = Last then 1 else 0
  | Head :: Types => (if T = Head then 1 else 0) + count_of T Types

/-- The trait `details::find_first<Searching, Index, Types...>::index`; `-1` is `size_t(-1)`. -/
def find_first [DecidableEq Ty] (Searching : Ty) : Nat → List Ty → Nat
  | _, [] => 18446744073709551615
  | Index, [Last] => if Searching = Last then Index else 18446744073709551615
  | Index, Head :: Types => if Searching = Head then Index else find_first Searching (Index + 1) Types

/-- The variable template `details::find_first_v<T, Types...>`. -/
def find_first_v [DecidableEq Ty] (T : Ty) (Types : List Ty) : Nat :=
  find_first T 0 Types

/-- The concept `details::is_trivially_destructible<Types...>`: a fold of `&&` over the pack. -/
def is_trivially_destructible (tr : alt_traits Ty E val) (Types : List Ty) : Bool :=
  Types.all tr.is_trivially_destructible

/-! ## AlternativeStorage: `variadic_union` -/

/-- The anonymous `union { Head head; wrapper<Tail...> tail; }` of `variadic_union_base`: which
member is within its lifetime, if any. -/
inductive union_members (Head Tail : Type) where
  | dead
  | head (h : Head)
  | tail (t : Tail)

/-- The class template `details::variadic_union<Types...>`: empty for the empty pack, else the
union of the head alternative and the storage of the tail. -/
def variadic_union (val : Ty → Type) : List Ty → Type
  | [] => Unit
  | Head :: Tail => union_members (val Head) (variadic_union val Tail)

/-- The constructor `variadic_union(undefined_t)`: `tail(u)` at every level, no alternative live. -/
def variadic_union.undefined : (Types : List Ty) → variadic_union val Types
  | [] => ()
  | _ :: Tail => union_members.tail (variadic_union.undefined Tail)

/-- The member `tail` of the union as an object to call a member function on: the tail storage
when `tail` is the live member, storage without a live alternative otherwise. -/
def variadic_union.tail_member {Head : Ty} {Tail : List Ty} :
    variadic_union val (Head :: Tail) → variadic_union val Tail
  | union_members.tail t => t
  | _ => variadic_union.undefined Tail

/-- The member function `variadic_union::get(in_place_index_t<Index>)`: `Index` steps into the
tail, then the head.  `none`: the alternative asked for is not live (a precondition the C++
does not check). -/
def variadic_union.get : (Types : List Ty) → (Index : Nat) → variadic_union val Types →
    Option (alt_val val (get_type Index Types))
  | [], _, _ => none
  | _ :: _, 0, union_members.head h => some h
  | _ :: _, 0, _ => none
  | _ :: Tail, Index + 1, union_members.tail t => variadic_union.get Tail Index t
  | _ :: _, _ + 1, _ => none

/-- The member function `variadic_union::set(in_place_index_t<Index>, args...)`: `Index` steps
into the tail, then `std::construct_at` on the head.  `construct` is the constructor of the
alternative selected for `args`; it gives the outcome and the state it leaves `args` in.  When
it throws nothing is written at the head. -/
def variadic_union.set {Args : Type} : (Types : List Ty) → (Index : Nat) →
    (Args → Except E (alt_val val (get_type Index Types)) × Args) → Args →
    variadic_union val Types →
    (Except E (alt_val val (get_type Index Types)) × Args) × variadic_union val Types
  | [], _, construct, args, u => (construct args, u)
  | _ :: _, 0, construct, args, u =>
    match construct args with
    | (Except.ok x, args1) => ((Except.ok x, args1), union_members.head x)
    | (Except.error e, args1) => ((Except.error e, args1), u)
  | _ :: Tail, Index + 1, construct, args, u =>
    match variadic_union.set Tail Index construct args (variadic_union.tail_member u) with
    | (r, t) => (r, union_members.tail t)

/-- The member function `variadic_union_base::reset(in_place_index_t<Index>)`.  The
specialisation for a trivially destructible pack does nothing; the other one takes `Index` steps
into the tail and runs `head.~Head()`. -/
def variadic_union.reset (tr : alt_traits Ty E val) : (Types : List Ty) → (Index : Nat) →
    variadic_union val Types → variadic_union val Types
  | [], _, u => u
  | Head :: Tail, 0, u =>
    if is_trivially_destructible tr (Head :: Tail) then u else union_members.dead
  | Head :: Tail, Index + 1, u =>
    if is_trivially_destructible tr (Head :: Tail) then u
    else union_members.tail (variadic_union.reset tr Tail Index (variadic_union.tail_member u))

/-- Assignment through the reference that `variadic_union::get(in_place_index_t<Index>)`
returned: the alternative at `Index` now has the value `x`. -/
def variadic_union.store : (Types : List Ty) → (Index : Nat) →
    alt_val val (get_type Index Types) → variadic_union val Types → variadic_union val Types
  | [], _, _, u => u
  | _ :: _, 0, x, _ => union_members.head x
  | _ :: Tail, Index + 1, x, union_members.tail t =>
    union_members.tail (variadic_union.store Tail Index x t)
  | _ :: _, _ + 1, _, u => u

/-! ## TaggedStorage and the container: `vstorage`, `variant` -/

/-- The class template `variant<Types...>` with its private base `details::vstorage<Types...>`:
the data members `index_` and `storage` of `vstorage_base`. -/
structure variant (val : Ty → Type) (Types : List Ty) where
  index_ : Nat
  storage : variadic_union val Types

/-- A container of any alternative set: one element of a heterogeneous pack `Types&&... vars`. -/
def any_variant (val : Ty → Type) : Type := (Types : List Ty) × variant val Types

/-- One argument handed to a visitor: a value together with its alternative type. -/
def visit_arg (val : Ty → Type) : Type := (o : Option Ty) × alt_val val o

variable {Types : List Ty}

/-- The constructor `vstorage_base(undefined_t)`: `index_(variant_npos), storage(u)`. -/
def vstorage.undefined (val : Ty → Type) (Types : List Ty) : variant val Types :=
  { index_ := variant_npos, storage := variadic_union.undefined Types }

/-- The member functions `vstorage::index()` and `variant::index()`. -/
def variant.index (self : variant val Types) : Nat := self.index_

/-- The member function `variant::valueless_by_exception()`. -/
def variant.valueless_by_exception (self : variant val Types) : Bool :=
  self.index == variant_npos

/-- The variable template `variant_size_v<variant<Types...>>`. -/
def variant_size_v (_v : variant val Types) : Nat := Types.length

/-- The class invariant of the container: the marker is the sentinel, or it is the position of
an alternative of the pack and that alternative is live in the storage. -/
def variant.wf (self : variant val Types) : Prop :=
  self.index_ = variant_npos ∨
    (self.index_ < Types.length ∧ (variadic_union.get Types self.index_ self.storage).isSome = true)

/-! ## Accessors -/

/-- The function template `holds_alternative<T>(v)`; its constraint `count_of_v<T, Types...> == 1`
is a hypothesis of the theorems about it. -/
def holds_alternative [DecidableEq Ty] (T : Ty) (v : variant val Types) : Bool :=
  find_first_v T Types == v.index

/-- The function template `get<Index>(v)`, for `variant&` and `const variant&`. -/
def get (Index : Nat) (v : variant val Types) :
    Except (Fault E) (alt_val val (get_type Index Types)) :=
  if Index = v.index then
    match variadic_union.get Types Index v.storage with
    | some x => Except.ok x
    | none => Except.error Fault.undefined_behaviour
  else Except.error Fault.bad_variant_access

/-- The function template `get<T>(v)`, with `Index = find_first_v<T, Types...>`; the declared
return type `T&` is the type of the alternative at `Index`. -/
def get_by_type [DecidableEq Ty] (T : Ty) (v : variant val Types) :
    Except (Fault E) (alt_val val (get_type (find_first_v T Types) Types)) :=
  if holds_alternative T v then
    match variadic_union.get Types (find_first_v T Types) v.storage with
    | some x => Except.ok x
    | none => Except.error Fault.undefined_behaviour
  else Except.error Fault.bad_variant_access

/-- The function template `get_if<Index>(v)`: the argument is a pointer (`none` is `nullptr`)
and so is the result. -/
def get_if (Index : Nat) (v : Option (variant val Types)) :
    Except (Fault E) (Option (alt_val val (get_type Index Types))) :=
  match v with
  | none => Except.ok none
  | some v =>
    if Index = v.index then
      match (get Index v : Except (Fault E) _) with
      | Except.ok x => Except.ok (some x)
      | Except.error f => Except.error f
    else Except.ok none

/-- The function template `get_if<T>(v)`: `get_if<Index>(v)` with `Index = find_first_v<T, Types...>`. -/
def get_if_by_type [DecidableEq Ty] (T : Ty) (v : Option (variant val Types)) :
    Except (Fault E) (Option (alt_val val (get_type (find_first_v T Types) Types))) :=
  get_if (find_first_v T Types) v

/-! ## DispatchEngine -/

/-- The type of a dispatch table: `K` nested `std::array`s around the cells. -/
def matrix (α : Type) : Nat → Type
  | 0 => α
  | K + 1 => List (matrix α K)

/-- The function template `details::in_impl(m, indexes...)`: one `m[index]` per index, without a
bounds check.  `none`: an index is outside its array (or the number of indexes is not the depth
of the table, which C++ rejects at build time). -/
def in_impl {α : Type} : (K : Nat) → matrix α K → List Nat → Option α
  | 0, m, [] => some m
  | 0, _, _ :: _ => none
  | _ + 1, _, [] => none
  | K + 1, m, index :: indexes =>
    match List.get? (m : List (matrix α K)) index with
    | some row => in_impl K row indexes
    | none => none

/-- The C++ types of the objects that `array_ctor` is called on while a dispatch table is built,
as far as `std::common_type_t` tells them apart: the closure type of the lambda built for the
tags `Vars` (every lambda expression has a type of its own), the pointer to function that a
captureless lambda converts to, and `std::array<element, extent>`. -/
inductive table_type where
  | closure (Vars : List Nat)
  | function_pointer
  | array (element : table_type) (extent : Nat)
  deriving DecidableEq, Repr

/-- A closure type of a captureless lambda or the pointer to function it converts to. -/
def table_type.is_callable : table_type → Bool
  | table_type.closure _ => true
  | table_type.function_pointer => true
  | table_type.array _ _ => false

/-- The trait `std::common_type_t<Types...>` on the types above.  No types: no member `type`.
One type: the type itself.  More: the type itself when they are all the same; the pointer to
function when all are closure types or that pointer (the conditional operator converts both
operands to it); none for different `std::array` specialisations, which no conversion
relates.  `none`: the trait has no member `type`. -/
def common_type : List table_type → Option table_type
  | [] => none
  | [t] => some t
  | t :: ts =>
    if ts.all (fun u => decide (u = t)) then some t
    else if (t :: ts).all table_type.is_callable then some table_type.function_pointer
    else none

/-- The function template `details::array_ctor(args...)`, which returns
`std::array<std::common_type_t<Types...>, sizeof...(Types)>{args...}`: the type of the array
and its elements.  `none`: the return type does not exist, the call is ill-formed. -/
def array_ctor {α : Type} (args : List (table_type × α)) : Option (table_type × List α) :=
  match common_type (args.map Prod.fst) with
  | some t => some (table_type.array t args.length, args.map Prod.snd)
  | none => none

/-- A pack expansion `f<Vars>(...)...` as the arguments of a call: ill-formed (`none`) when one
of its instantiations is. -/
def pack_expansion {β : Type} : List (Option β) → Option (List β)
  | [] => some []
  | none :: _ => none
  | some x :: rest =>
    match pack_expansion rest with
    | some xs => some (x :: xs)
    | none => none

/-- The function template `details::create_func_matrix_base_in<T>`: with one index sequence the
closure that invokes `func` on the tags `Vars...`; with more, `array_ctor` of one sub-table per
element `Vars2` of the second sequence, built for `Vars1..., Vars2`.  The result is the C++ type
of the table and the table; `none`: the instantiation is ill-formed.  A visitor that cannot be
invoked on the tags gives `none` in the cell. -/
def create_func_matrix_base_in {R : Type} (Vars1 : List Nat) : (tail : List (List Nat)) →
    Option (table_type × matrix ((List Nat → Option R) → Option R) tail.length)
  | [] => some (table_type.closure Vars1, fun func => func Vars1)
  | Vars2 :: tail =>
    (pack_expansion
      (Vars2.map (fun v => create_func_matrix_base_in (Vars1 ++ [v]) tail))).bind array_ctor

/-- The function template `details::create_matrix_by_index<T, Types...>` (and the variable
template `matrix_by_index_v`): `sizes` are the `variant_size_v` of the containers and
`std::make_index_sequence<n>` is `List.range n`. -/
def create_matrix_by_index {R : Type} (sizes : List Nat) :
    Option (table_type × matrix ((List Nat → Option R) → Option R) (sizes.map List.range).length) :=
  create_func_matrix_base_in [] (sizes.map List.range)

/-- The function template `details::visit_by_index(visitor, vars...)`.  `none`: the table
cannot be built (the call is ill-formed), the lookup is outside the table, or the visitor cannot
be invoked on the tags. -/
def visit_by_index {R : Type} (visitor : List Nat → Option R) (vars : List (any_variant val)) :
    Option R :=
  match create_matrix_by_index (vars.map (fun v => v.1.length)) with
  | none => none
  | some m =>
    match in_impl _ m.2 (vars.map (fun v => v.2.index)) with
    | some cell => cell visitor
    | none => none

/-- The pack expansion `get<Vars>(std::forward<Types>(tp))...` in a cell of the value table. -/
def get_pack : List Nat → List (any_variant val) → Except (Fault E) (List (visit_arg val))
  | [], [] => Except.ok []
  | Index :: Vars, tp :: tps =>
    match (get Index tp.2 : Except (Fault E) _) with
    | Except.error f => Except.error f
    | Except.ok x =>
      match get_pack Vars tps with
      | Except.error f => Except.error f
      | Except.ok xs => Except.ok (⟨get_type Index tp.1, x⟩ :: xs)
  | _, _ => Except.error Fault.undefined_behaviour

/-- The function template `details::create_func_matrix_base<T, Types...>`: as
`create_func_matrix_base_in`, with cells that invoke `func` on `get<Vars>(tp)...`. -/
def create_func_matrix_base {R : Type} (Vars1 : List Nat) : (tail : List (List Nat)) →
    Option (table_type ×
      matrix ((List (visit_arg val) → R) → List (any_variant val) → Except (Fault E) R)
        tail.length)
  | [] => some (table_type.closure Vars1, fun func tp =>
    match (get_pack Vars1 tp : Except (Fault E) _) with
    | Except.error f => Except.error f
    | Except.ok xs => Except.ok (func xs))
  | Vars2 :: tail =>
    (pack_expansion
      (Vars2.map (fun v => create_func_matrix_base (Vars1 ++ [v]) tail))).bind array_ctor

/-- The function template `details::create_matrix<T, Types...>` (and the variable template
`matrix_v`). -/
def create_matrix {R : Type} (sizes : List Nat) :
    Option (table_type ×
      matrix ((List (visit_arg val) → R) → List (any_variant val) → Except (Fault E) R)
        (sizes.map List.range).length) :=
  create_func_matrix_base [] (sizes.map List.range)

/-- The function template `visit(visitor, vars...)`.  When `matrix_v` cannot be built the call
is ill-formed, whatever the containers hold. -/
def visit {R : Type} (visitor : List (visit_arg val) → R) (vars : List (any_variant val)) :
    Except (Fault E) R :=
  match (create_matrix (vars.map (fun v => v.1.length)) :
      Option (table_type ×
        matrix ((List (visit_arg val) → R) → List (any_variant val) → Except (Fault E) R) _)) with
  | none => Except.error Fault.ill_formed
  | some m =>
    if vars.any (fun v => v.2.valueless_by_exception) then Except.error Fault.bad_variant_access
    else
      match in_impl _ m.2 (vars.map (fun v => v.2.index)) with
      | some cell => cell visitor vars
      | none => Except.error Fault.undefined_behaviour

/-! ## Container: emplace, copy and move -/

/-- The copy constructor of the alternative `get_type_t<Index, Types...>` as the constructor
chosen for an argument `const T&`: the argument is left as it was. -/
def copy_construct_at (tr : alt_traits Ty E val) :
    (o : Option Ty) → alt_val val o → Except E (alt_val val o) × alt_val val o
  | some T, x => (tr.copy_construct T x, x)
  | none, x => nomatch x

/-- The move constructor of the alternative `get_type_t<Index, Types...>` as the constructor
chosen for an argument `T&&`. -/
def move_construct_at (tr : alt_traits Ty E val) :
    (o : Option Ty) → alt_val val o → Except E (alt_val val o) × alt_val val o
  | some T, x => tr.move_construct T x
  | none, x => nomatch x

/-- The copy assignment `a = b` of the alternative `get_type_t<Index, Types...>`. -/
def copy_assign_at (tr : alt_traits Ty E val) :
    (o : Option Ty) → alt_val val o → alt_val val o → Except E Unit × alt_val val o
  | some T, a, b => tr.copy_assign T a b
  | none, a, _ => nomatch a

/-- The move assignment `a = std::move(b)` of the alternative `get_type_t<Index, Types...>`. -/
def move_assign_at (tr : alt_traits Ty E val) :
    (o : Option Ty) → alt_val val o → alt_val val o → Except E Unit × alt_val val o × alt_val val o
  | some T, a, b => tr.move_assign T a b
  | none, a, _ => nomatch a

/-- The trait `std::is_nothrow_copy_constructible_v<details::get_type_t<ind, Types...>>`. -/
def is_nothrow_copy_constructible_v (tr : alt_traits Ty E val) : Option Ty → Bool
  | some T => tr.is_nothrow_copy_constructible T
  | none => false

/-- The trait `std::is_nothrow_move_constructible_v<details::get_type_t<ind, Types...>>`. -/
def is_nothrow_move_constructible_v (tr : alt_traits Ty E val) : Option Ty → Bool
  | some T => tr.is_nothrow_move_constructible T
  | none => false

/-- An exception of an alternative's operation as it leaves a member function of the container. -/
def rethrow {α : Type} : Except E α → Except (Fault E) Unit
  | Except.ok _ => Except.ok ()
  | Except.error e => Except.error (Fault.alternative e)

/-- Assignment through the reference that `get<Index>(v)` returned. -/
def variant.store (Index : Nat) (x : alt_val val (get_type Index Types))
    (self : variant val Types) : variant val Types :=
  { self with storage := variadic_union.store Types Index x self.storage }

/-- The member function `vstorage_base::reset()`.  The specialisation for a trivially
destructible pack does nothing; the other one returns at once for the sentinel and else
dispatches on `index_` to `storage.reset(in_place_index<index>)`.  `none`: no defined
behaviour. -/
def vstorage.reset (tr : alt_traits Ty E val) (self : variant val Types) :
    Option (variant val Types) :=
  if is_trivially_destructible tr Types then some self
  else if self.index_ = variant_npos then some self
  else
    visit_by_index
      (fun tags =>
        match tags with
        | [index] => some { self with storage := variadic_union.reset tr Types index self.storage }
        | _ => none)
      [⟨Types, self⟩]

/-- The member function `variant::make_valueless()`.  `none`: no defined behaviour. -/
def variant.make_valueless (tr : alt_traits Ty E val) (self : variant val Types) :
    Option (variant val Types) :=
  if self.index_ ≠ variant_npos then
    match vstorage.reset tr self with
    | some s => some { s with index_ := variant_npos }
    | none => none
  else some self

/-- The member function `vstorage::set(in_place_index_t<Index>, args...)`: `storage.set`, then
`index_ = Index` (not reached when the construction throws).  The result is the outcome, the
object and `args` afterwards. -/
def vstorage.set {Args : Type} (Index : Nat)
    (construct : Args → Except E (alt_val val (get_type Index Types)) × Args) (args : Args)
    (self : variant val Types) :
    Except (Fault E) (alt_val val (get_type Index Types)) × variant val Types × Args :=
  match variadic_union.set Types Index construct args self.storage with
  | ((Except.ok x, args1), st) => (Except.ok x, { index_ := Index, storage := st }, args1)
  | ((Except.error e, args1), st) =>
    (Except.error (Fault.alternative e), { self with storage := st }, args1)

/-- The member function `variant::emplace<Index>(args...)`: `make_valueless()`, then
`parent_t::set(in_place_index<Index>, args...)`.  (`static_assert(Index < sizeof...(Types))`
rejects other instantiations at build time.) -/
def variant.emplace {Args : Type} (tr : alt_traits Ty E val) (Index : Nat)
    (construct : Args → Except E (alt_val val (get_type Index Types)) × Args) (args : Args)
    (self : variant val Types) :
    Except (Fault E) (alt_val val (get_type Index Types)) × variant val Types × Args :=
  match self.make_valueless tr with
  | none => (Except.error Fault.undefined_behaviour, self, args)
  | some self1 => vstorage.set Index construct args self1

/-- The member function `variant::emplace<T>(args...)`: `emplace<Index, T>(args...)` with
`Index = find_first_v<T, Types...>`. -/
def variant.emplace_by_type [DecidableEq Ty] {Args : Type} (tr : alt_traits Ty E val) (T : Ty)
    (construct : Args → Except E (alt_val val (get_type (find_first_v T Types) Types)) × Args)
    (args : Args) (self : variant val Types) :
    Except (Fault E) (alt_val val (get_type (find_first_v T Types) Types)) × variant val Types × Args :=
  self.emplace tr (find_first_v T Types) construct args

/-- The closure `[&other, this](auto index) { this->emplace<index>(get<index>(other)); }` of the
copy constructor. -/
def copy_ctor_visitor (tr : alt_traits Ty E val) (self other : variant val Types) :
    List Nat → Option (Except (Fault E) Unit × variant val Types)
  | [index] =>
    match (get index other : Except (Fault E) _) with
    | Except.error f => some (Except.error f, self)
    | Except.ok x =>
      match self.emplace tr index (copy_construct_at tr (get_type index Types)) x with
      | (Except.ok _, self1, _) => some (Except.ok (), self1)
      | (Except.error f, self1, _) => some (Except.error f, self1)
  | _ => none

/-- The constructor `variant(const variant& other)` (the user-provided one): the new object
starts as `parent_t(details::undefined)`.  The result is the outcome and the new object (which
does not come into existence when the outcome is an exception). -/
def variant.copy_ctor (tr : alt_traits Ty E val) (other : variant val Types) :
    Except (Fault E) Unit × variant val Types :=
  if !other.valueless_by_exception then
    match visit_by_index (copy_ctor_visitor tr (vstorage.undefined val Types) other)
        [⟨Types, other⟩] with
    | some r => r
    | none => (Except.error Fault.undefined_behaviour, vstorage.undefined val Types)
  else (Except.ok (), vstorage.undefined val Types)

/-- The closure `[&other, this](auto index) { emplace<index>(get<index>(std::move(other))); }`
of the move constructor.  The result is the outcome, the new object and `other` afterwards. -/
def move_ctor_visitor (tr : alt_traits Ty E val) (self other : variant val Types) :
    List Nat → Option (Except (Fault E) Unit × variant val Types × variant val Types)
  | [index] =>
    match (get index other : Except (Fault E) _) with
    | Except.error f => some (Except.error f, self, other)
    | Except.ok x =>
      match self.emplace tr index (move_construct_at tr (get_type index Types)) x with
      | (Except.ok _, self1, x1) => some (Except.ok (), self1, other.store index x1)
      | (Except.error f, self1, x1) => some (Except.error f, self1, other.store index x1)
  | _ => none

/-- The constructor `variant(variant&& other)` (the user-provided one).  The result is the
outcome, the new object and `other` afterwards. -/
def variant.move_ctor (tr : alt_traits Ty E val) (other : variant val Types) :
    Except (Fault E) Unit × variant val Types × variant val Types :=
  if !other.valueless_by_exception then
    match visit_by_index (move_ctor_visitor tr (vstorage.undefined val Types) other)
        [⟨Types, other⟩] with
    | some r => r
    | none => (Except.error Fault.undefined_behaviour, vstorage.undefined val Types, other)
  else (Except.ok (), vstorage.undefined val Types, other)

/-- The closure of the move assignment operator:
`if (ind != index()) emplace<ind>(get<ind>(std::move(other)));`
`else get<ind>(*this) = get<ind>(std::move(other));`. -/
def move_assign_visitor (tr : alt_traits Ty E val) (self other : variant val Types) :
    List Nat → Option (Except (Fault E) Unit × variant val Types × variant val Types)
  | [ind] =>
    if ind ≠ self.index then
      match (get ind other : Except (Fault E) _) with
      | Except.error f => some (Except.error f, self, other)
      | Except.ok x =>
        match self.emplace tr ind (move_construct_at tr (get_type ind Types)) x with
        | (Except.ok _, self1, x1) => some (Except.ok (), self1, other.store ind x1)
        | (Except.error f, self1, x1) => some (Except.error f, self1, other.store ind x1)
    else
      match (get ind other : Except (Fault E) _) with
      | Except.error f => some (Except.error f, self, other)
      | Except.ok b =>
        match (get ind self : Except (Fault E) _) with
        | Except.error f => some (Except.error f, self, other)
        | Except.ok a =>
          match move_assign_at tr (get_type ind Types) a b with
          | (r, a1, b1) => some (rethrow r, self.store ind a1, other.store ind b1)
  | _ => none

/-- The operator `variant::operator=(variant&& other)` (the user-provided one).  The result is
the outcome, `*this` afterwards and `other` afterwards. -/
def variant.move_assign (tr : alt_traits Ty E val) (self other : variant val Types) :
    Except (Fault E) Unit × variant val Types × variant val Types :=
  if other.valueless_by_exception then
    if !self.valueless_by_exception then
      match self.make_valueless tr with
      | some self1 => (Except.ok (), self1, other)
      | none => (Except.error Fault.undefined_behaviour, self, other)
    else (Except.ok (), self, other)
  else
    match visit_by_index (move_assign_visitor tr self other) [⟨Types, other⟩] with
    | some r => r
    | none => (Except.error Fault.undefined_behaviour, self, other)

/-- The closure of the copy assignment operator.  In `(*this) = variant(other)` the temporary is
copy-constructed first, then move-assigned from, then destroyed. -/
def copy_assign_visitor (tr : alt_traits Ty E val) (self other : variant val Types) :
    List Nat → Option (Except (Fault E) Unit × variant val Types)
  | [ind] =>
    if ind ≠ self.index then
      if !is_nothrow_copy_constructible_v tr (get_type ind Types) &&
          is_nothrow_move_constructible_v tr (get_type ind Types) then
        match variant.copy_ctor tr other with
        | (Except.error f, _) => some (Except.error f, self)
        | (Except.ok _, temporary) =>
          match self.move_assign tr temporary with
          | (r, self1, _) => some (r, self1)
      else
        match (get ind other : Except (Fault E) _) with
        | Except.error f => some (Except.error f, self)
        | Except.ok x =>
          match self.emplace tr ind (copy_construct_at tr (get_type ind Types)) x with
          | (Except.ok _, self1, _) => some (Except.ok (), self1)
          | (Except.error f, self1, _) => some (Except.error f, self1)
    else
      match (get ind other : Except (Fault E) _) with
      | Except.error f => some (Except.error f, self)
      | Except.ok b =>
        match (get ind self : Except (Fault E) _) with
        | Except.error f => some (Except.error f, self)
        | Except.ok a =>
          match copy_assign_at tr (get_type ind Types) a b with
          | (r, a1) => some (rethrow r, self.store ind a1)
  | _ => none

/-- The call `details::visit_by_index([&other, this](auto ind) { ... }, other)` that ends the
copy assignment operator. -/
def copy_assign_dispatch (tr : alt_traits Ty E val) (self other : variant val Types) :
    Except (Fault E) Unit × variant val Types :=
  match visit_by_index (copy_assign_visitor tr self other) [⟨Types, other⟩] with
  | some r => r
  | none => (Except.error Fault.undefined_behaviour, self)

/-- The operator `variant::operator=(const variant& other)` (the user-provided one).  For a
valueless `other`: `make_valueless()` when `*this` has a value, after which control leaves the
outer `if` and reaches the `visit_by_index` call; `return *this` when `*this` is valueless too. -/
def variant.copy_assign (tr : alt_traits Ty E val) (self other : variant val Types) :
    Except (Fault E) Unit × variant val Types :=
  if other.valueless_by_exception then
    if !self.valueless_by_exception then
      match self.make_valueless tr with
      | some self1 => copy_assign_dispatch tr self1 other
      | none => (Except.error Fault.undefined_behaviour, self)
    else (Except.ok (), self)
  else copy_assign_dispatch tr self other

/-! ## Container: swap -/

/-- The swap of two values of an alternative type that `using std::swap; swap(a, b)` selects:
`swap T a b` gives the outcome, `a` afterwards and `b` afterwards. -/
structure alt_swap (Ty : Type) (E : Type) (val : Ty → Type) where
  swap : (T : Ty) → val T → val T → Except E Unit × val T × val T

/-- The call `swap(a, b)` on two values of the alternative `get_type_t<Index, Types...>`. -/
def swap_at (sw : alt_swap Ty E val) :
    (o : Option Ty) → alt_val val o → alt_val val o → Except E Unit × alt_val val o × alt_val val o
  | some T, a, b => sw.swap T a b
  | none, a, _ => nomatch a

/-- The function template `std::swap(a, b)` of the standard library at containers, which is
what `using std::swap; swap(other, *this)` resolves to (the header declares no other `swap` for
containers): `T tmp(std::move(a)); a = std::move(b); b = std::move(tmp);`.  The result is the
outcome, `a` afterwards and `b` afterwards. -/
def std_swap (tr : alt_traits Ty E val) (a b : variant val Types) :
    Except (Fault E) Unit × variant val Types × variant val Types :=
  match variant.move_ctor tr a with
  | (Except.error f, _, a1) => (Except.error f, a1, b)
  | (Except.ok _, tmp, a1) =>
    match a1.move_assign tr b with
    | (Except.error f, a2, b1) => (Except.error f, a2, b1)
    | (Except.ok _, a2, b1) =>
      match b1.move_assign tr tmp with
      | (r, b2, _) => (r, a2, b2)

/-- The closure `[&other, this](auto index) { other.set(in_place_index<index()>,
get<index()>(std::move(*this))); }` of `swap`; `index()` is the call operator of the tag.  The
result is the outcome, `*this` afterwards and `other` afterwards. -/
def swap_set_visitor (tr : alt_traits Ty E val) (self other : variant val Types) :
    List Nat → Option (Except (Fault E) Unit × variant val Types × variant val Types)
  | [index] =>
    match (get index self : Except (Fault E) _) with
    | Except.error f => some (Except.error f, self, other)
    | Except.ok x =>
      match vstorage.set index (move_construct_at tr (get_type index Types)) x other with
      | (Except.ok _, other1, x1) => some (Except.ok (), self.store index x1, other1)
      | (Except.error f, other1, x1) => some (Except.error f, self.store index x1, other1)
  | _ => none

/-- The closure `[&other, this](auto index) { using std::swap; swap(get<index>(*this),
get<index>(other)); swap(this->index_, other.index_); }` of `swap`. -/
def swap_same_visitor (sw : alt_swap Ty E val) (self other : variant val Types) :
    List Nat → Option (Except (Fault E) Unit × variant val Types × variant val Types)
  | [index] =>
    match (get index self : Except (Fault E) _) with
    | Except.error f => some (Except.error f, self, other)
    | Except.ok a =>
      match (get index other : Except (Fault E) _) with
      | Except.error f => some (Except.error f, self, other)
      | Except.ok b =>
        match swap_at sw (get_type index Types) a b with
        | (Except.ok _, a1, b1) =>
          some (Except.ok (), { self.store index a1 with index_ := other.index_ },
            { other.store index b1 with index_ := self.index_ })
        | (Except.error e, a1, b1) =>
          some (Except.error (Fault.alternative e), self.store index a1, other.store index b1)
  | _ => none

/-- The member function `variant::swap(other)`.  The result is the outcome, `*this` afterwards
and `other` afterwards. -/
def variant.swap (tr : alt_traits Ty E val) (sw : alt_swap Ty E val)
    (self other : variant val Types) :
    Except (Fault E) Unit × variant val Types × variant val Types :=
  if self.valueless_by_exception && other.valueless_by_exception then (Except.ok (), self, other)
  else if self.valueless_by_exception then
    match visit_by_index (move_ctor_visitor tr self other) [⟨Types, other⟩] with
    | none => (Except.error Fault.undefined_behaviour, self, other)
    | some (Except.error f, self1, other1) => (Except.error f, self1, other1)
    | some (Except.ok _, self1, other1) =>
      match other1.make_valueless tr with
      | none => (Except.error Fault.undefined_behaviour, self1, other1)
      | some other2 => (Except.ok (), self1, other2)
  else if other.valueless_by_exception then
    match visit_by_index (swap_set_visitor tr self other) [⟨Types, self⟩] with
    | none => (Except.error Fault.undefined_behaviour, self, other)
    | some (Except.error f, self1, other1) => (Except.error f, self1, other1)
    | some (Except.ok _, self1, other1) =>
      match self1.make_valueless tr with
      | none => (Except.error Fault.undefined_behaviour, self1, other1)
      | some self2 => (Except.ok (), self2, other1)
  else if self.index ≠ other.index then
    match std_swap tr other self with
    | (r, other1, self1) => (r, self1, other1)
  else
    match visit_by_index (swap_same_visitor sw self other) [⟨Types, other⟩] with
    | some r => r
    | none => (Except.error Fault.undefined_behaviour, self, other)

/-! ## Relational operators -/

/-- The relational operators of the alternative types. -/
structure alt_relational (Ty : Type) (val : Ty → Type) where
  eq : (T : Ty) → val T → val T → Bool
  lt : (T : Ty) → val T → val T → Bool
  gt : (T : Ty) → val T → val T → Bool
  le : (T : Ty) → val T → val T → Bool
  ge : (T : Ty) → val T → val T → Bool

/-- An operator of the alternative `get_type_t<Index, Types...>`. -/
def rel_at (op : (T : Ty) → val T → val T → Bool) :
    (o : Option Ty) → alt_val val o → alt_val val o → Bool
  | some T, x, y => op T x y
  | none, x, _ => nomatch x

/-- The closures `[&](auto index) { return get<index>(a) OP get<index>(b); }` of the relational
operators. -/
def relational_visitor (op : (T : Ty) → val T → val T → Bool) (a b : variant val Types) :
    List Nat → Option (Except (Fault E) Bool)
  | [index] =>
    match (get index a : Except (Fault E) _) with
    | Except.error f => some (Except.error f)
    | Except.ok x =>
      match (get index b : Except (Fault E) _) with
      | Except.error f => some (Except.error f)
      | Except.ok y => some (Except.ok (rel_at op (get_type index Types) x y))
  | _ => none

/-- The call `details::visit_by_index([&](auto index) { ... }, b)` that ends each relational
operator. -/
def relational_dispatch (op : (T : Ty) → val T → val T → Bool) (a b : variant val Types) :
    Except (Fault E) Bool :=
  match visit_by_index (relational_visitor op a b) [⟨Types, b⟩] with
  | some r => r
  | none => Except.error Fault.undefined_behaviour

/-- The function template `operator==(a, b)` on containers. -/
def operator_eq (rel : alt_relational Ty val) (a b : variant val Types) : Except (Fault E) Bool :=
  if a.index ≠ b.index then Except.ok false
  else if a.valueless_by_exception then Except.ok true
  else relational_dispatch rel.eq a b

/-- The function template `operator!=(a, b)` on containers: `!(a == b)`. -/
def operator_ne (rel : alt_relational Ty val) (a b : variant val Types) : Except (Fault E) Bool :=
  match (operator_eq rel a b : Except (Fault E) Bool) with
  | Except.ok r => Except.ok (!r)
  | Except.error f => Except.error f

/-- The function template `operator<(a, b)` on containers. -/
def operator_lt (rel : alt_relational Ty val) (a b : variant val Types) : Except (Fault E) Bool :=
  if b.valueless_by_exception then Except.ok false
  else if a.valueless_by_exception then Except.ok true
  else if a.index < b.index then Except.ok true
  else if a.index > b.index then Except.ok false
  else relational_dispatch rel.lt a b

/-- The function template `operator>(a, b)` on containers. -/
def operator_gt (rel : alt_relational Ty val) (a b : variant val Types) : Except (Fault E) Bool :=
  if a.valueless_by_exception then Except.ok false
  else if b.valueless_by_exception then Except.ok true
  else if a.index > b.index then Except.ok true
  else if a.index < b.index then Except.ok false
  else relational_dispatch rel.gt a b

/-- The function template `operator<=(a, b)` on containers. -/
def operator_le (rel : alt_relational Ty val) (a b : variant val Types) : Except (Fault E) Bool :=
  if a.valueless_by_exception then Except.ok true
  else if b.valueless_by_exception then Except.ok false
  else if a.index < b.index then Except.ok true
  else if a.index > b.index then Except.ok false
  else relational_dispatch rel.le a b

/-- The function template `operator>=(a, b)` on containers. -/
def operator_ge (rel : alt_relational Ty val) (a b : variant val Types) : Except (Fault E) Bool :=
  if b.valueless_by_exception then Except.ok true
  else if a.valueless_by_exception then Except.ok false
  else if a.index > b.index then Except.ok true
  else if a.index < b.index then Except.ok false
  else relational_dispatch rel.ge a b

/-! ## Container: construction -/

/-- Value-initialisation `T()` of the alternative types; `none`: `T` is not default
constructible (`std::is_default_constructible_v<T>` is false). -/
structure alt_default (Ty : Type) (E : Type) (val : Ty → Type) where
  default_construct : (T : Ty) → Option (Except E (val T))

/-- The default constructor `variadic_union()`: empty for the empty pack, else
`variadic_union_base() : head() {}`.  `none`: the head is not default constructible. -/
def variadic_union.default_ctor (dc : alt_default Ty E val) :
    (Types : List Ty) → Option (Except E (variadic_union val Types))
  | [] => some (Except.ok ())
  | Head :: _ =>
    match dc.default_construct Head with
    | none => none
    | some (Except.ok x) => some (Except.ok (union_members.head x))
    | some (Except.error e) => some (Except.error e)

/-- The default constructor `variant()`: defaulted when `default_t = get_type_t<0, Types...>` is
default constructible, which runs `vstorage_base() : index_(0) {}` and the default constructor
of `storage`; deleted (`none`) otherwise. -/
def variant.default_ctor (dc : alt_default Ty E val) (Types : List Ty) :
    Option (Except (Fault E) (variant val Types)) :=
  match get_type 0 Types with
  | none => none
  | some _ =>
    match variadic_union.default_ctor dc Types with
    | none => none
    | some (Except.ok st) => some (Except.ok { index_ := 0, storage := st })
    | some (Except.error e) => some (Except.error (Fault.alternative e))

/-- The constructor `variadic_union(in_place_index_t<Index>, args...)`: `head(args...)` for
index 0, else `tail(in_place_index<Index - 1>, args...)`.  The result is the new storage, or
the exception of the constructor, and `args` afterwards.  (The empty pack has no such
constructor: an index past the end is rejected at build time, and no value of `void` exists
for `construct` to return.) -/
def variadic_union.in_place {Args : Type} : (Types : List Ty) → (Index : Nat) →
    (Args → Except E (alt_val val (get_type Index Types)) × Args) → Args →
    Except E (variadic_union val Types) × Args
  | [], _, construct, args =>
    match construct args with
    | (Except.ok _, args1) => (Except.ok (), args1)
    | (Except.error e, args1) => (Except.error e, args1)
  | _ :: _, 0, construct, args =>
    match construct args with
    | (Except.ok x, args1) => (Except.ok (union_members.head x), args1)
    | (Except.error e, args1) => (Except.error e, args1)
  | _ :: Tail, Index + 1, construct, args =>
    match variadic_union.in_place Tail Index construct args with
    | (Except.ok t, args1) => (Except.ok (union_members.tail t), args1)
    | (Except.error e, args1) => (Except.error e, args1)

/-- The constructor `vstorage(in_place_index_t<Index>, args...)`:
`index_(Index), storage(in_place_index<Index>, args...)`. -/
def vstorage.in_place {Args : Type} (Index : Nat)
    (construct : Args → Except E (alt_val val (get_type Index Types)) × Args) (args : Args) :
    Except (Fault E) (variant val Types) × Args :=
  match variadic_union.in_place Types Index construct args with
  | (Except.ok st, args1) => (Except.ok { index_ := Index, storage := st }, args1)
  | (Except.error e, args1) => (Except.error (Fault.alternative e), args1)

/-- The constructor `variant(in_place_index_t<Index>, args...)`; its constraint makes
`get_type_t<Index, Types...>` an alternative constructible from `args`. -/
def variant.in_place_index_ctor {Args : Type} (Index : Nat)
    (construct : Args → Except E (alt_val val (get_type Index Types)) × Args) (args : Args) :
    Except (Fault E) (variant val Types) × Args :=
  vstorage.in_place Index construct args

/-- The constructor `variant(in_place_type_t<T>, args...)`, with
`Index = find_first_v<T, Types...>`; its constraint `count_of_v<T, Types...> == 1` is a
hypothesis of the theorems about it. -/
def variant.in_place_type_ctor [DecidableEq Ty] {Args : Type} (T : Ty)
    (construct : Args → Except E (alt_val val (get_type (find_first_v T Types) Types)) × Args)
    (args : Args) : Except (Fault E) (variant val Types) × Args :=
  vstorage.in_place (find_first_v T Types) construct args

/-! ## Converting construction and assignment -/

/-- A type `From` of source values as the converting constructor and assignment see it.
`is_valid_conversion To` is the concept `details::is_valid_conversion<From, To>`
(`To{std::forward<From>(t)}` is well formed); `is_convertible To` says that an argument of type
`From` converts implicitly to a parameter of type `To` (`std::is_convertible_v<From, To>`);
`better A B` is the verdict of overload resolution that the implicit conversion of a `From` to a
parameter of type `A` is better than to one of type `B`; `construct To` is the constructor
`To(std::forward<From>(f))` and `assign To` the assignment `t = std::forward<From>(f)`, each
with the state it leaves its operands in, `none` when `To` has none
(`std::is_constructible_v<To, From>` is false); `is_nothrow_constructible To` is
`std::is_nothrow_constructible_v<To, From>`, and `source_is_nothrow_constructible To` is the
trait with its arguments the other way round, `std::is_nothrow_constructible_v<From, To>`. -/
structure conversion (Ty : Type) (E : Type) (val : Ty → Type) (From : Type) where
  is_valid_conversion : Ty → Bool
  is_convertible : Ty → Bool
  better : Ty → Ty → Bool
  construct : (T : Ty) → Option (From → Except E (val T) × From)
  assign : (T : Ty) → Option (val T → From → Except E Unit × val T × From)
  is_nothrow_constructible : Ty → Bool
  source_is_nothrow_constructible : Ty → Bool

/-- The overload `choose(Var)` is viable for the call `choose(std::declval<T>())`: its
constraint `is_valid_conversion<T, Var>` holds and the argument converts implicitly to the
parameter, which is of type `Var` (passed by value). -/
def conversion.viable {From : Type} (cv : conversion Ty E val From) (Var : Ty) : Bool :=
  cv.is_valid_conversion Var && cv.is_convertible Var

/-- The overloads `choose(Var)` that `details::best_construct_type<T, Index, Types...>` has,
each with the `position_type<Index, Var>` it returns: its own, and through
`using best_construct_type<T, Index + 1, Types...>::choose` those of its base that its own does
not hide (an inherited overload with the same parameter type is hidden). -/
def best_construct_type [DecidableEq Ty] : Nat → List Ty → List (Nat × Ty)
  | _, [] => []
  | Index, Var :: Types =>
    (Index, Var) :: (best_construct_type (Index + 1) Types).filter (fun c => decide (c.2 ≠ Var))

/-- Overload resolution for the call `choose(std::declval<T>())`: among the viable overloads
the call selects the one that is better than every other one, and is ill formed when there is
none. -/
def overload_resolution {From : Type} (cv : conversion Ty E val From)
    (overloads : List (Nat × Ty)) : Option (Nat × Ty) :=
  match (overloads.filter (fun c => cv.viable c.2)).filter
      (fun c => (overloads.filter (fun d => cv.viable d.2)).all
        (fun d => decide (d.1 = c.1) || cv.better c.2 d.2)) with
  | [c] => some c
  | _ => none

/-- The alias template `details::chosen_construct_type<T, Types...>`:
`decltype(best_construct_type<T, 0, Types...>::choose(std::declval<T>()))`, as the pair of
`To_Info::index` and `To_Info::type`.  `none`: the call is ill formed. -/
def chosen_construct_type [DecidableEq Ty] {From : Type} (cv : conversion Ty E val From)
    (Types : List Ty) : Option (Nat × Ty) :=
  overload_resolution cv (best_construct_type 0 Types)

/-- The constructor `To(std::forward<From>(f))` of the alternative `get_type_t<Index, Types...>`;
`none` for `void`. -/
def construct_at {From : Type} (cv : conversion Ty E val From) :
    (o : Option Ty) → Option (From → Except E (alt_val val o) × From)
  | some T => cv.construct T
  | none => none

/-- The assignment `t = std::forward<From>(f)` to the alternative
`get_type_t<Index, Types...>`; `none` for `void`. -/
def assign_at {From : Type} (cv : conversion Ty E val From) :
    (o : Option Ty) → Option (alt_val val o → From → Except E Unit × alt_val val o × From)
  | some T => cv.assign T
  | none => none

/-- The trait `std::is_nothrow_constructible_v<typename To_Info::type, From>`. -/
def is_nothrow_constructible_v {From : Type} (cv : conversion Ty E val From) : Option Ty → Bool
  | some T => cv.is_nothrow_constructible T
  | none => false

/-- The converting constructor `variant(From&& f)`:
`parent_t(in_place_index<To_Info::index>, std::forward<From>(f))`, declared
`noexcept(std::is_nothrow_constructible_v<From, typename To_Info::type>)`: when that trait holds,
an exception of the construction does not leave the constructor, `std::terminate` is called.
`none`: the constructor does not take part in overload resolution. -/
def variant.converting_ctor [DecidableEq Ty] {From : Type} (cv : conversion Ty E val From)
    (Types : List Ty) (f : From) : Option (Except (Fault E) (variant val Types) × From) :=
  match chosen_construct_type cv Types with
  | none => none
  | some (index, To) =>
    match construct_at cv (get_type index Types) with
    | none => none
    | some construct =>
      match vstorage.in_place index construct f with
      | (Except.ok v, f1) => some (Except.ok v, f1)
      | (Except.error e, f1) =>
        if cv.source_is_nothrow_constructible To then some (Except.error Fault.terminate, f1)
        else some (Except.error e, f1)

/-- The converting assignment `variant::operator=(From&& f)`.  The result is the outcome,
`*this` afterwards and `f` afterwards; `none`: the operator does not take part in overload
resolution. -/
def variant.converting_assign [DecidableEq Ty] {From : Type} (tr : alt_traits Ty E val)
    (cv : conversion Ty E val From) (self : variant val Types) (f : From) :
    Option (Except (Fault E) Unit × variant val Types × From) :=
  match chosen_construct_type cv Types with
  | none => none
  | some (index, _) =>
    match construct_at cv (get_type index Types), assign_at cv (get_type index Types) with
    | some construct, some assign =>
      if index = self.index then
        match (get index self : Except (Fault E) _) with
        | Except.error e => some (Except.error e, self, f)
        | Except.ok t =>
          match assign t f with
          | (r, t1, f1) => some (rethrow r, self.store index t1, f1)
      else if is_nothrow_move_constructible_v tr (get_type index Types) &&
          !is_nothrow_constructible_v cv (get_type index Types) then
        match construct f with
        | (Except.error e, f1) => some (Except.error (Fault.alternative e), self, f1)
        | (Except.ok temporary, f1) =>
          match self.emplace tr index (move_construct_at tr (get_type index Types)) temporary with
          | (Except.ok _, self1, _) => some (Except.ok (), self1, f1)
          | (Except.error e, self1, _) => some (Except.error e, self1, f1)
      else
        match self.emplace tr index construct f with
        | (Except.ok _, self1, f1) => some (Except.ok (), self1, f1)
        | (Except.error e, self1, f1) => some (Except.error e, self1, f1)
    | _, _ => none

end Model

/-! ## Specification vocabulary -/

section Vocabulary

variable {Ty : Type} {E : Type} {val : Ty → Type} {Types : List Ty}

/-- The arguments `get<i1>(v1), ..., get<iK>(vK)` with `ij = vj.index()` of a pack of
containers: every one of these `get` calls returns, and `args` lists what they return, in
order. -/
def active_args (vars : List (any_variant val)) (args : List (visit_arg val)) : Prop :=
  List.Forall₂
    (fun v a => ∃ x, (get v.2.index v.2 : Except (Fault E) _) = Except.ok x ∧
      a = ⟨get_type v.2.index v.1, x⟩) vars args

/-- Exactly one of three verdicts is true. -/
def exactly_one (l e g : Bool) : Prop :=
  (l = true ∧ e = false ∧ g = false) ∨ (l = false ∧ e = true ∧ g = false) ∨
    (l = false ∧ e = false ∧ g = true)

/-- Two containers have the same (active index, value) pair: the same `index()`, and every
`get<i>` has the same outcome on both. -/
def same_state (E : Type) (u v : variant val Types) : Prop :=
  u.index = v.index ∧ ∀ i, (get i u : Except (Fault E) _) = get i v

/-- The container holds an alternative: its marker is the position of an alternative of the pack
and the storage has a live member there. -/
def variant.has_value (self : variant val Types) : Prop :=
  self.index_ < Types.length ∧
    (variadic_union.get Types self.index_ self.storage).isSome = true

/-- The containers that the public operations of the container other than `make_valueless()`
produce, from no container at first, when every operation returns without an exception: the
constructors (default, by index, by type, converting, copy, move), `emplace`, the three
assignment operators, `swap`, and assignment through the reference that `get`, `get_if` or a
visitor of `visit` has to the held alternative.  An operation with two operands is applied to two
distinct objects. -/
inductive reachable [DecidableEq Ty] (tr : alt_traits Ty E val) (sw : alt_swap Ty E val)
    (dc : alt_default Ty E val) : variant val Types → Prop where
  | default_ctor (v : variant val Types) :
    variant.default_ctor dc Types = some (Except.ok v) → reachable tr sw dc v
  | in_place_index_ctor {Args : Type} (Index : Nat) (hI : Index < Types.length)
    (construct : Args → Except E (alt_val val (get_type Index Types)) × Args) (args args1 : Args)
    (v : variant val Types) :
    variant.in_place_index_ctor Index construct args = (Except.ok v, args1) →
    reachable tr sw dc v
  | in_place_type_ctor {Args : Type} (T : Ty) (hT : count_of T Types = 1)
    (construct : Args → Except E (alt_val val (get_type (find_first_v T Types) Types)) × Args)
    (args args1 : Args) (v : variant val Types) :
    variant.in_place_type_ctor T construct args = (Except.ok v, args1) → reachable tr sw dc v
  | converting_ctor {From : Type} (cv : conversion Ty E val From) (f f1 : From)
    (v : variant val Types) :
    variant.converting_ctor cv Types f = some (Except.ok v, f1) → reachable tr sw dc v
  | copy_ctor (other v : variant val Types) :
    reachable tr sw dc other → variant.copy_ctor tr other = (Except.ok (), v) →
    reachable tr sw dc v
  | move_ctor (other v other1 : variant val Types) :
    reachable tr sw dc other → variant.move_ctor tr other = (Except.ok (), v, other1) →
    reachable tr sw dc v
  | move_ctor_source (other v other1 : variant val Types) :
    reachable tr sw dc other → variant.move_ctor tr other = (Except.ok (), v, other1) →
    reachable tr sw dc other1
  | emplace {Args : Type} (Index : Nat) (hI : Index < Types.length)
    (construct : Args → Except E (alt_val val (get_type Index Types)) × Args) (args args1 : Args)
    (x : alt_val val (get_type Index Types)) (self self1 : variant val Types) :
    reachable tr sw dc self →
    self.emplace tr Index construct args = (Except.ok x, self1, args1) → reachable tr sw dc self1
  | emplace_by_type {Args : Type} (T : Ty) (hT : count_of T Types = 1)
    (construct : Args → Except E (alt_val val (get_type (find_first_v T Types) Types)) × Args)
    (args args1 : Args) (x : alt_val val (get_type (find_first_v T Types) Types))
    (self self1 : variant val Types) :
    reachable tr sw dc self →
    self.emplace_by_type tr T construct args = (Except.ok x, self1, args1) →
    reachable tr sw dc self1
  | converting_assign {From : Type} (cv : conversion Ty E val From) (f f1 : From)
    (self self1 : variant val Types) :
    reachable tr sw dc self →
    self.converting_assign tr cv f = some (Except.ok (), self1, f1) → reachable tr sw dc self1
  | copy_assign (self other self1 : variant val Types) :
    reachable tr sw dc self → reachable tr sw dc other →
    self.copy_assign tr other = (Except.ok (), self1) → reachable tr sw dc self1
  | move_assign (self other self1 other1 : variant val Types) :
    reachable tr sw dc self → reachable tr sw dc other →
    self.move_assign tr other = (Except.ok (), self1, other1) → reachable tr sw dc self1
  | move_assign_source (self other self1 other1 : variant val Types) :
    reachable tr sw dc self → reachable tr sw dc other →
    self.move_assign tr other = (Except.ok (), self1, other1) → reachable tr sw dc other1
  | swap (self other self1 other1 : variant val Types) :
    reachable tr sw dc self → reachable tr sw dc other →
    self.swap tr sw other = (Except.ok (), self1, other1) → reachable tr sw dc self1
  | swap_other (self other self1 other1 : variant val Types) :
    reachable tr sw dc self → reachable tr sw dc other →
    self.swap tr sw other = (Except.ok (), self1, other1) → reachable tr sw dc other1
  | store (Index : Nat) (x y : alt_val val (get_type Index Types)) (self : variant val Types) :
    reachable tr sw dc self → (get Index self : Except (Fault E) _) = Except.ok x →
    reachable tr sw dc (self.store Index y)

/-- The elements of the outermost `std::array` of a dispatch table. -/
def matrix.rows (α : Type) (K : Nat) (m : matrix α (K + 1)) : List (matrix α K) := m

/-- The number of cells of a dispatch table of depth `K`. -/
def matrix.cells (α : Type) : (K : Nat) → matrix α K → Nat
  | 0, _ => 1
  | K + 1, m => ((matrix.rows α K m).map (matrix.cells α K)).sum

/-- The dispatch table is a nested array whose `j`-th dimension has extent `sizes[j]`, and its
depth is the number of extents. -/
def matrix.has_extents (α : Type) : (sizes : List Nat) → (K : Nat) → matrix α K → Prop
  | [], 0, _ => True
  | n :: sizes, K + 1, m =>
    (matrix.rows α K m).length = n ∧
      ∀ row ∈ matrix.rows α K m, matrix.has_extents α sizes K row
  | [], _ + 1, _ => False
  | _ :: _, 0, _ => False

/-- The number of steps into the tail at which the storage has its live member: 0 for a live
head; none when no alternative is live. -/
def variadic_union.live_depth : (Types : List Ty) → variadic_union val Types → Option Nat
  | [], _ => none
  | _ :: _, union_members.head _ => some 0
  | _ :: Tail, union_members.tail t => (variadic_union.live_depth Tail t).map (fun d => d + 1)
  | _ :: _, union_members.dead => none

/-- The outcome of an operation is one the language defines: a return, or an exception that an
operation of an alternative threw (not `bad_variant_access`, not undefined behaviour). -/
def defined_outcome {α : Type} : Except (Fault E) α → Prop
  | Except.ok _ => True
  | Except.error (Fault.alternative _) => True
  | Except.error _ => False

/-- Extents none of which is 0 and the last of which is at least 2: the innermost arrays hold
pointers to functions, so the rows of every array have one type. -/
def uniform_table : List Nat → Bool
  | [] => false
  | [n] => decide (2 ≤ n)
  | n :: rest => decide (1 ≤ n) && uniform_table rest

/-- The extents for which every `array_ctor` call of the table construction has a common type
for its arguments: none is 0 and the last is at least 2, or all are 1 (every array has one
element). -/
def table_builds (sizes : List Nat) : Bool :=
  uniform_table sizes || sizes.all (fun n => decide (n = 1))

/-- The C++ type of the table for extents whose last is at least 2: nested `std::array`s of
pointers to functions. -/
def uniform_type : List Nat → table_type
  | [] => table_type.function_pointer
  | [n] => table_type.array table_type.function_pointer n
  | n :: rest => table_type.array (uniform_type rest) n

/-- The C++ type of the table with `K` extents that are all 1, built for the tags `Vars1`: `K`
nested one-element arrays around the closure type for `Vars1, 0, ..., 0`. -/
def ones_type : List Nat → Nat → table_type
  | Vars1, 0 => table_type.closure Vars1
  | Vars1, K + 1 => table_type.array (ones_type (Vars1 ++ [0]) K) 1

/-- The function `build` follows the recursion of `create_func_matrix_base_in` and
`create_func_matrix_base`: the closure `leaf Vars1` for one index sequence, `array_ctor` of the
sub-tables otherwise. -/
def table_builder {α : Type} (leaf : List Nat → α)
    (build : (Vars1 : List Nat) → (tail : List (List Nat)) →
      Option (table_type × matrix α tail.length)) : Prop :=
  (∀ Vars1, build Vars1 [] = some (table_type.closure Vars1, leaf Vars1)) ∧
  (∀ Vars1 Vars2 tail, build Vars1 (Vars2 :: tail) =
    (pack_expansion (Vars2.map (fun v => build (Vars1 ++ [v]) tail))).bind array_ctor)

end Vocabulary

/-! ## Example instantiation: `variant<int, std::string>` -/

namespace Example

/-- The alternative types of the example containers: `int` and `std::string`. -/
inductive Ty where
  | int
  | string
  deriving DecidableEq, Repr

/-- The values of the example alternatives. -/
@[reducible] def val : Ty → Type
  | Ty.int => Int
  | Ty.string => String

/-- The exception of the example alternatives: `std::bad_alloc`. -/
inductive Exn where
  | bad_alloc
  deriving DecidableEq, Repr

/-- The operations of the example alternatives.  `int` is trivial.  Copying a `std::string`
allocates, which fails here for texts longer than three characters; moving one leaves the
source empty and cannot fail. -/
def traits : alt_traits Ty Exn val where
  copy_construct := fun T =>
    match T with
    | Ty.int => fun x => Except.ok x
    | Ty.string => fun x => if x.length ≤ 3 then Except.ok x else Except.error Exn.bad_alloc
  move_construct := fun T =>
    match T with
    | Ty.int => fun x => (Except.ok x, x)
    | Ty.string => fun x => (Except.ok x, "")
  copy_assign := fun T =>
    match T with
    | Ty.int => fun _ b => (Except.ok (), b)
    | Ty.string => fun a b =>
      if b.length ≤ 3 then (Except.ok (), b) else (Except.error Exn.bad_alloc, a)
  move_assign := fun T =>
    match T with
    | Ty.int => fun _ b => (Except.ok (), b, b)
    | Ty.string => fun a b => (Except.ok (), b, a)
  is_nothrow_copy_constructible := fun T =>
    match T with
    | Ty.int => true
    | Ty.string => false
  is_nothrow_move_constructible := fun _ => true
  is_trivially_destructible := fun T =>
    match T with
    | Ty.int => true
    | Ty.string => false

/-- The pack of `variant<int, std::string>`. -/
def Types : List Ty := [Ty.int, Ty.string]

/-- A `variant<int, std::string>` that holds the `int` 5. -/
def holds_int : variant val Types :=
  { index_ := 0, storage := union_members.head (5 : Int) }

/-- A `variant<int, std::string>` that holds the text "x". -/
def holds_string : variant val Types :=
  { index_ := 1, storage := union_members.tail (union_members.head "x") }

/-- A `variant<int, std::string>` that holds a text too long to copy. -/
def holds_long_string : variant val Types :=
  { index_ := 1, storage := union_members.tail (union_members.head "long text") }

/-- A valueless `variant<int, std::string>`: what a failed `emplace` leaves. -/
def valueless : variant val Types :=
  { index_ := variant_npos, storage := union_members.tail union_members.dead }

/-- The constructor `std::string(const char*)` as the constructor that `emplace<1>` selects: it
allocates, which fails for texts longer than three characters. -/
def string_from_literal : String → Except Exn (alt_val val (get_type 1 Types)) × String :=
  fun s => if s.length ≤ 3 then (Except.ok s, s) else (Except.error Exn.bad_alloc, s)

/-- A `variant<std::string>` that holds the text "y". -/
def single_string : variant val [Ty.string] :=
  { index_ := 0, storage := union_members.head "y" }

/-- Two containers of different alternative sets, both with a value; the second has a single
alternative. -/
def pack_with_values : List (any_variant val) :=
  [⟨Types, holds_int⟩, ⟨[Ty.string], single_string⟩]

/-- Two containers of one alternative set, both with a value. -/
def pack_two_values : List (any_variant val) :=
  [⟨Types, holds_int⟩, ⟨Types, holds_string⟩]

/-- Two containers, the second one valueless. -/
def pack_with_valueless : List (any_variant val) :=
  [⟨Types, holds_int⟩, ⟨Types, valueless⟩]

/-- A visitor that counts its arguments. -/
def count_args : List (visit_arg val) → Nat := List.length

/-- The swap of the example alternatives: the values are exchanged. -/
def swaps : alt_swap Ty Exn val where
  swap := fun _ a b => (Except.ok (), b, a)

/-- The relational operators of the example alternatives. -/
def relational : alt_relational Ty val where
  eq := fun T =>
    match T with
    | Ty.int => fun (x y : Int) => decide (x = y)
    | Ty.string => fun (x y : String) => decide (x = y)
  lt := fun T =>
    match T with
    | Ty.int => fun (x y : Int) => decide (x < y)
    | Ty.string => fun (x y : String) => decide (x < y)
  gt := fun T =>
    match T with
    | Ty.int => fun (x y : Int) => decide (y < x)
    | Ty.string => fun (x y : String) => decide (y < x)
  le := fun T =>
    match T with
    | Ty.int => fun (x y : Int) => decide (x ≤ y)
    | Ty.string => fun (x y : String) => !decide (y < x)
  ge := fun T =>
    match T with
    | Ty.int => fun (x y : Int) => decide (y ≤ x)
    | Ty.string => fun (x y : String) => !decide (x < y)

/-- Value-initialisation of the example alternatives: `int()` is 0, `std::string()` is empty. -/
def defaults : alt_default Ty Exn val where
  default_construct := fun T =>
    match T with
    | Ty.int => some (Except.ok (0 : Int))
    | Ty.string => some (Except.ok "")

/-- A `variant<int, std::string>` that holds the `int` 7. -/
def holds_seven : variant val Types :=
  { index_ := 0, storage := union_members.head (7 : Int) }

/-- The pack of `variant<int, std::string, int>`. -/
def Types3 : List Ty := [Ty.int, Ty.string, Ty.int]

/-- A `variant<int, std::string, int>` that holds the text "y" at index 1. -/
def holds_second_of_three : variant val Types3 :=
  { index_ := 1, storage := union_members.tail (union_members.head "y") }

/-- Two containers: index 0 of two alternatives and index 1 of three. -/
def pack_two_and_three : List (any_variant val) :=
  [⟨Types, holds_int⟩, ⟨Types3, holds_second_of_three⟩]

/-- A visitor that returns the tags it is given. -/
def return_tags : List Nat → Option (List Nat) := some

/-- The alternative type of `variant<double>`. -/
inductive Flt where
  | double
  deriving DecidableEq, Repr

/-- The values of `double` that the examples use: a whole number, or `none` for NaN. -/
@[reducible] def flt_val : Flt → Type := fun _ => Option Int

/-- The pack of `variant<double>`. -/
def FltTypes : List Flt := [Flt.double]

/-- The relational operators of `double`: `==`, `<`, `>`, `<=` and `>=` are false as soon as an
operand is NaN. -/
def flt_relational : alt_relational Flt flt_val where
  eq := fun T =>
    match T with
    | Flt.double => fun (x y : Option Int) =>
      match x, y with
      | some a, some b => decide (a = b)
      | _, _ => false
  lt := fun T =>
    match T with
    | Flt.double => fun (x y : Option Int) =>
      match x, y with
      | some a, some b => decide (a < b)
      | _, _ => false
  gt := fun T =>
    match T with
    | Flt.double => fun (x y : Option Int) =>
      match x, y with
      | some a, some b => decide (b < a)
      | _, _ => false
  le := fun T =>
    match T with
    | Flt.double => fun (x y : Option Int) =>
      match x, y with
      | some a, some b => decide (a ≤ b)
      | _, _ => false
  ge := fun T =>
    match T with
    | Flt.double => fun (x y : Option Int) =>
      match x, y with
      | some a, some b => decide (b ≤ a)
      | _, _ => false

/-- A `variant<double>` that holds NaN. -/
def holds_nan : variant flt_val FltTypes :=
  { index_ := 0, storage := union_members.head (none : Option Int) }

/-- A `variant<double>` that holds 1.0. -/
def holds_one : variant flt_val FltTypes :=
  { index_ := 0, storage := union_members.head (some (1 : Int)) }

/-- The container `variant<int, std::string> v;`: the default constructor gives it the `int` 0. -/
def default_constructed : variant val Types :=
  { index_ := 0, storage := union_members.head (0 : Int) }

end Example

/-! ## Lemmas and theorems -/

section Theorems

variable {Ty : Type} {E : Type} {val : Ty → Type} {Types : List Ty}

/-! ### Storage -/

theorem variadic_union.set_ok {Args : Type} : (Types : List Ty) → (Index : Nat) →
    Index < Types.length →
    (construct : Args → Except E (alt_val val (get_type Index Types)) × Args) → (args : Args) →
    (u : variadic_union val Types) → (x : alt_val val (get_type Index Types)) → (args1 : Args) →
    construct args = (Except.ok x, args1) →
    (variadic_union.set Types Index construct args u).1 = (Except.ok x, args1) ∧
      variadic_union.get Types Index (variadic_union.set Types Index construct args u).2 = some x
  | [], _, h, _, _, _, _, _, _ => absurd h (Nat.not_lt_zero _)
  | _ :: _, 0, _, construct, args, u, x, args1, hc => by
    simp [variadic_union.set, hc, variadic_union.get]
  | _ :: Tail, i + 1, h, construct, args, u, x, args1, hc => by
    have ih := variadic_union.set_ok Tail i (Nat.lt_of_succ_lt_succ h) construct args
      (variadic_union.tail_member u) x args1 hc
    simp only [variadic_union.set, variadic_union.get]
    exact ih

theorem variadic_union.set_error {Args : Type} : (Types : List Ty) → (Index : Nat) →
    (construct : Args → Except E (alt_val val (get_type Index Types)) × Args) → (args : Args) →
    (u : variadic_union val Types) → (e : E) → (args1 : Args) →
    construct args = (Except.error e, args1) →
    (variadic_union.set Types Index construct args u).1 = (Except.error e, args1)
  | [], _, construct, args, u, e, args1, hc => by simp [variadic_union.set, hc]
  | _ :: _, 0, construct, args, u, e, args1, hc => by
    simp [variadic_union.set, hc]
  | _ :: Tail, i + 1, construct, args, u, e, args1, hc => by
    have ih := variadic_union.set_error Tail i construct args
      (variadic_union.tail_member u) e args1 hc
    simp only [variadic_union.set]
    exact ih

/-! ### Dispatch tables -/

theorem sum_map_const {ι : Type} (l : List ι) (f : ι → Nat) (c : Nat) (h : ∀ v ∈ l, f v = c) :
    (l.map f).sum = l.length * c := by
  induction l with
  | nil => simp
  | cons v l ih =>
    simp only [List.map_cons, List.sum_cons, List.length_cons]
    rw [h v (List.mem_cons_self _ _), ih (fun w hw => h w (List.mem_cons_of_mem _ hw))]
    ring

theorem pack_expansion_eq_some {β : Type} : (l : List (Option β)) → (rows : List β) →
    pack_expansion l = some rows → l = rows.map some
  | [], rows, h => by
    simp only [pack_expansion, Option.some.injEq] at h
    subst h
    rfl
  | none :: _, _, h => by simp [pack_expansion] at h
  | some x :: rest, rows, h => by
    simp only [pack_expansion] at h
    cases hr : pack_expansion rest with
    | none =>
      rw [hr] at h
      simp at h
    | some xs =>
      rw [hr] at h
      simp only [Option.some.injEq] at h
      subst h
      simp [pack_expansion_eq_some rest xs hr]

theorem pack_expansion_map_some {β : Type} : (rows : List β) →
    pack_expansion (rows.map some) = some rows
  | [] => rfl
  | x :: rows => by simp [pack_expansion, pack_expansion_map_some rows]

theorem pack_expansion_none {β : Type} : (l : List (Option β)) → none ∈ l →
    pack_expansion l = none
  | [], h => by simp at h
  | none :: _, _ => rfl
  | some x :: rest, h => by
    have hr : none ∈ rest := by simpa using h
    simp [pack_expansion, pack_expansion_none rest hr]

/-- The rows of a pack expansion whose instantiations all build, with their types. -/
theorem pack_expansion_rows {ι β : Type} (g : ι → Option (table_type × β))
    (ty : ι → table_type) : (l : List ι) → (∀ v ∈ l, ∃ m, g v = some (ty v, m)) →
    ∃ rows, pack_expansion (l.map g) = some rows ∧ rows.map Prod.fst = l.map ty
  | [], _ => ⟨[], rfl, rfl⟩
  | v :: l, h => by
    obtain ⟨m, hm⟩ := h v (List.mem_cons_self _ _)
    obtain ⟨rows, hrows, hty⟩ := pack_expansion_rows g ty l
      (fun w hw => h w (List.mem_cons_of_mem _ hw))
    exact ⟨(ty v, m) :: rows, by simp [pack_expansion, hm, hrows], by simp [hty]⟩

theorem array_ctor_eq_some {α : Type} (rows : List (table_type × α)) (t : table_type)
    (h : common_type (rows.map Prod.fst) = some t) :
    array_ctor rows = some (table_type.array t rows.length, rows.map Prod.snd) := by
  simp [array_ctor, h]

theorem array_ctor_eq_none {α : Type} (rows : List (table_type × α))
    (h : common_type (rows.map Prod.fst) = none) : array_ctor rows = none := by
  simp [array_ctor, h]

theorem array_ctor_rows {α : Type} (rows : List (table_type × α)) (t : table_type)
    (m : List α) (h : array_ctor rows = some (t, m)) : m = rows.map Prod.snd := by
  simp only [array_ctor] at h
  cases hc : common_type (rows.map Prod.fst) with
  | none =>
    rw [hc] at h
    simp at h
  | some u =>
    rw [hc] at h
    simp only [Option.some.injEq, Prod.mk.injEq] at h
    exact h.2.symm

theorem common_type_same (t : table_type) : (l : List table_type) → l ≠ [] →
    (∀ u ∈ l, u = t) → common_type l = some t
  | [], h, _ => absurd rfl h
  | [u], _, h => by simp [common_type, h u (List.mem_singleton_self u)]
  | u :: w :: l, _, h => by
    have hu : u = t := h u (List.mem_cons_self _ _)
    subst hu
    have hall : (w :: l).all (fun x => decide (x = u)) = true := by
      rw [List.all_eq_true]
      intro x hx
      exact decide_eq_true (h x (List.mem_cons_of_mem _ hx))
    simp only [common_type, hall, if_true]

theorem common_type_closures (u w : table_type) (l : List table_type) (huw : w ≠ u)
    (h : ∀ x ∈ u :: w :: l, x.is_callable = true) :
    common_type (u :: w :: l) = some table_type.function_pointer := by
  have hall : (w :: l).all (fun x => decide (x = u)) = false := by
    simp [huw]
  have hcall : (u :: w :: l).all table_type.is_callable = true := by
    rw [List.all_eq_true]
    exact h
  simp only [common_type, hall, hcall, if_true, Bool.false_eq_true, if_false]

theorem common_type_arrays (u w : table_type) (l : List table_type) (huw : w ≠ u)
    (h : u.is_callable = false) : common_type (u :: w :: l) = none := by
  have hall : (w :: l).all (fun x => decide (x = u)) = false := by
    simp [huw]
  have hcall : (u :: w :: l).all table_type.is_callable = false := by
    simp [h]
  simp only [common_type, hall, hcall, Bool.false_eq_true, if_false]

theorem create_func_matrix_base_in_builder (R : Type) :
    table_builder (fun Vars1 => fun func : List Nat → Option R => func Vars1)
      (fun Vars1 tail => create_func_matrix_base_in Vars1 tail) :=
  ⟨fun _ => rfl, fun _ _ _ => rfl⟩

theorem create_func_matrix_base_builder (E : Type) (val : Ty → Type) (R : Type) :
    table_builder
      (fun Vars1 => fun (func : List (visit_arg val) → R) (tp : List (any_variant val)) =>
        match (get_pack Vars1 tp : Except (Fault E) _) with
        | Except.error f => Except.error f
        | Except.ok xs => Except.ok (func xs))
      (fun Vars1 tail => create_func_matrix_base Vars1 tail) :=
  ⟨fun _ => rfl, fun _ _ _ => rfl⟩

/-- The rows of a table that builds are the sub-tables, which build. -/
theorem table_builder.rows {α : Type} {leaf : List Nat → α}
    {build : (Vars1 : List Nat) → (tail : List (List Nat)) →
      Option (table_type × matrix α tail.length)}
    (hb : table_builder leaf build) (Vars1 Vars2 : List Nat) (tail : List (List Nat))
    (m : table_type × matrix α (Vars2 :: tail).length)
    (hm : build Vars1 (Vars2 :: tail) = some m) :
    ∃ rows : List (table_type × matrix α tail.length),
      Vars2.map (fun v => build (Vars1 ++ [v]) tail) = rows.map some ∧
      matrix.rows α tail.length m.2 = rows.map Prod.snd := by
  rw [hb.2] at hm
  obtain ⟨rows, hrows, harr⟩ := Option.bind_eq_some.mp hm
  exact ⟨rows, pack_expansion_eq_some _ rows hrows, array_ctor_rows rows m.1 m.2 harr⟩

/-- In a table that builds, the cell at an index tuple within the extents is the closure built
for that tuple. -/
theorem table_builder.in_impl_at {α : Type} {leaf : List Nat → α}
    {build : (Vars1 : List Nat) → (tail : List (List Nat)) →
      Option (table_type × matrix α tail.length)}
    (hb : table_builder leaf build) : (sizes : List Nat) → (Vars1 : List Nat) →
    (idxs : List Nat) → (m : table_type × matrix α (sizes.map List.range).length) →
    build Vars1 (sizes.map List.range) = some m →
    List.Forall₂ (fun i n => i < n) idxs sizes →
    in_impl _ m.2 idxs = some (leaf (Vars1 ++ idxs))
  | [], Vars1, idxs, m, hm, h => by
    cases h
    have hm1 : some (table_type.closure Vars1, leaf Vars1) = some m := (hb.1 Vars1).symm.trans hm
    simp only [Option.some.injEq] at hm1
    subst hm1
    simp [in_impl]
  | n :: sizes, Vars1, idxs, m, hm, h => by
    cases h with
    | cons hi hrest =>
      rename_i i idxs
      obtain ⟨rows, hrows, hm2⟩ := hb.rows Vars1 (List.range n) (sizes.map List.range) m hm
      have hrow : rows[i]? = build (Vars1 ++ [i]) (sizes.map List.range) := by
        have h1 := congrArg (fun l => l[i]?) hrows
        simp only [List.getElem?_map, List.getElem?_range hi, Option.map_some'] at h1
        cases hr : rows[i]? with
        | none =>
          rw [hr] at h1
          simp at h1
        | some r =>
          rw [hr] at h1
          simp only [Option.map_some', Option.some.injEq] at h1
          exact h1.symm
      cases hr : rows[i]? with
      | none =>
        have hlen : rows.length = n := by
          have := congrArg List.length hrows
          simpa using this.symm
        have hlt : i < rows.length := by omega
        rw [List.getElem?_eq_getElem hlt] at hr
        exact absurd hr (by simp)
      | some r =>
        rw [hr] at hrow
        have ih := table_builder.in_impl_at hb sizes (Vars1 ++ [i]) idxs r hrow.symm hrest
        have hget0 : List.get? (matrix.rows α (sizes.map List.range).length m.2) i
            = some r.2 := by
          rw [hm2, List.get?_eq_getElem?, List.getElem?_map, hr]
          rfl
        have hget : List.get? (m.2 : List (matrix α (sizes.map List.range).length)) i
            = some r.2 := hget0
        change in_impl ((sizes.map List.range).length + 1) m.2 (i :: idxs) = _
        simp only [in_impl, hget]
        simpa using ih

/-- A table that builds has the extents of its index sequences and one cell per index tuple. -/
theorem table_builder.shape {α : Type} {leaf : List Nat → α}
    {build : (Vars1 : List Nat) → (tail : List (List Nat)) →
      Option (table_type × matrix α tail.length)}
    (hb : table_builder leaf build) : (tail : List (List Nat)) → (Vars1 : List Nat) →
    (m : table_type × matrix α tail.length) → build Vars1 tail = some m →
    matrix.has_extents α (tail.map List.length) tail.length m.2 ∧
      matrix.cells α tail.length m.2 = (tail.map List.length).prod
  | [], _, _, _ => ⟨trivial, rfl⟩
  | Vars2 :: tail, Vars1, m, hm => by
    obtain ⟨rows, hrows, hm2⟩ := hb.rows Vars1 Vars2 tail m hm
    have hlen : rows.length = Vars2.length := by
      have := congrArg List.length hrows
      simpa using this.symm
    have hrow : ∀ r ∈ rows, ∃ v, build (Vars1 ++ [v]) tail = some r := by
      intro r hr
      have hmem : some r ∈ rows.map some := List.mem_map_of_mem _ hr
      rw [← hrows] at hmem
      obtain ⟨v, _, hv⟩ := List.mem_map.mp hmem
      exact ⟨v, hv⟩
    refine ⟨⟨?_, ?_⟩, ?_⟩
    · rw [hm2]
      simpa using hlen
    · intro row hmem
      rw [hm2] at hmem
      obtain ⟨r, hr, hrr⟩ := List.mem_map.mp hmem
      obtain ⟨v, hv⟩ := hrow r hr
      rw [← hrr]
      exact (table_builder.shape hb tail (Vars1 ++ [v]) r hv).1
    · show ((matrix.rows α tail.length m.2).map (matrix.cells α tail.length)).sum = _
      rw [hm2, List.map_map, List.map_cons, List.prod_cons, ← hlen]
      apply sum_map_const
      intro r hr
      obtain ⟨v, hv⟩ := hrow r hr
      exact (table_builder.shape hb tail (Vars1 ++ [v]) r hv).2

theorem range_two (k : Nat) : ∃ l, List.range (k + 2) = 0 :: 1 :: l := by
  refine ⟨(List.range k).map (fun v => v + 2), ?_⟩
  rw [List.range_succ_eq_map, List.range_succ_eq_map]
  simp [Function.comp_def]

theorem ones_type_injective : (K : Nat) → (V W : List Nat) → ones_type V K = ones_type W K →
    V = W
  | 0, V, W, h => by
    simp only [ones_type, table_type.closure.injEq] at h
    exact h
  | K + 1, V, W, h => by
    simp only [ones_type, table_type.array.injEq, and_true] at h
    exact List.append_cancel_right (ones_type_injective K _ _ h)

theorem uniform_table_cons (n n2 : Nat) (rest : List Nat) :
    uniform_table (n :: n2 :: rest) = (decide (1 ≤ n) && uniform_table (n2 :: rest)) := rfl

/-- Extents whose last is at least 2 and none of which is 0: the table builds, with pointers to
functions in the innermost arrays. -/
theorem table_builder.uniform {α : Type} {leaf : List Nat → α}
    {build : (Vars1 : List Nat) → (tail : List (List Nat)) →
      Option (table_type × matrix α tail.length)}
    (hb : table_builder leaf build) : (sizes : List Nat) → uniform_table sizes = true →
    (Vars1 : List Nat) →
    ∃ m, build Vars1 (sizes.map List.range) = some (uniform_type sizes, m)
  | [], h, _ => by simp [uniform_table] at h
  | [n], h, Vars1 => by
    have hn : 2 ≤ n := by simpa [uniform_table] using h
    obtain ⟨k, hk⟩ : ∃ k, n = k + 2 := ⟨n - 2, by omega⟩
    obtain ⟨l, hl⟩ := range_two k
    obtain ⟨rows, hrows, hty⟩ := pack_expansion_rows (fun v => build (Vars1 ++ [v]) [])
      (fun v => table_type.closure (Vars1 ++ [v])) (List.range n)
      (fun v _ => ⟨_, hb.1 (Vars1 ++ [v])⟩)
    have hlen : rows.length = n := by
      have := congrArg List.length hty
      simpa using this
    have hct : common_type (rows.map Prod.fst) = some table_type.function_pointer := by
      rw [hty, hk, hl]
      simp only [List.map_cons]
      apply common_type_closures
      · simp
      · intro x hx
        simp only [List.mem_cons, List.mem_map] at hx
        rcases hx with hx | hx | ⟨v, _, hx⟩ <;> subst hx <;> rfl
    refine ⟨rows.map Prod.snd, ?_⟩
    have h2 := hb.2 Vars1 (List.range n) []
    rw [hrows, Option.some_bind, array_ctor_eq_some rows _ hct, hlen] at h2
    exact h2
  | n :: n2 :: rest, h, Vars1 => by
    rw [uniform_table_cons] at h
    simp only [Bool.and_eq_true, decide_eq_true_eq] at h
    obtain ⟨hn, hrest⟩ := h
    obtain ⟨rows, hrows, hty⟩ := pack_expansion_rows
      (fun v => build (Vars1 ++ [v]) ((n2 :: rest).map List.range))
      (fun _ => uniform_type (n2 :: rest)) (List.range n)
      (fun v _ => table_builder.uniform hb (n2 :: rest) hrest (Vars1 ++ [v]))
    have hlen : rows.length = n := by
      have := congrArg List.length hty
      simpa using this
    have hct : common_type (rows.map Prod.fst) = some (uniform_type (n2 :: rest)) := by
      rw [hty]
      apply common_type_same
      · intro hnil
        have := congrArg List.length hnil
        simp at this
        omega
      · intro u hu
        obtain ⟨_, _, hu1⟩ := List.mem_map.mp hu
        exact hu1.symm
    refine ⟨rows.map Prod.snd, ?_⟩
    have h2 := hb.2 Vars1 (List.range n) ((n2 :: rest).map List.range)
    rw [hrows, Option.some_bind, array_ctor_eq_some rows _ hct, hlen] at h2
    exact h2

/-- Extents that are all 1: the table builds, as nested one-element arrays. -/
theorem table_builder.ones {α : Type} {leaf : List Nat → α}
    {build : (Vars1 : List Nat) → (tail : List (List Nat)) →
      Option (table_type × matrix α tail.length)}
    (hb : table_builder leaf build) : (sizes : List Nat) →
    sizes.all (fun n => decide (n = 1)) = true → (Vars1 : List Nat) →
    ∃ m, build Vars1 (sizes.map List.range) = some (ones_type Vars1 sizes.length, m)
  | [], _, Vars1 => ⟨_, hb.1 Vars1⟩
  | n :: rest, h, Vars1 => by
    simp only [List.all_cons, Bool.and_eq_true, decide_eq_true_eq] at h
    obtain ⟨hn, hrest⟩ := h
    subst hn
    obtain ⟨rows, hrows, hty⟩ := pack_expansion_rows
      (fun v => build (Vars1 ++ [v]) (rest.map List.range))
      (fun v => ones_type (Vars1 ++ [v]) rest.length) (List.range 1)
      (fun v _ => table_builder.ones hb rest hrest (Vars1 ++ [v]))
    have hlen : rows.length = 1 := by
      have := congrArg List.length hty
      simpa using this
    have hct : common_type (rows.map Prod.fst) = some (ones_type (Vars1 ++ [0]) rest.length) := by
      rw [hty]
      rfl
    refine ⟨rows.map Prod.snd, ?_⟩
    have h2 := hb.2 Vars1 (List.range 1) (rest.map List.range)
    rw [hrows, Option.some_bind, array_ctor_eq_some rows _ hct, hlen] at h2
    exact h2

theorem uniform_table_ne_nil (sizes : List Nat) (h : uniform_table sizes = true) :
    sizes ≠ [] := by
  intro hnil
  subst hnil
  simp [uniform_table] at h

theorem ones_type_not_callable (V : List Nat) (K : Nat) :
    (ones_type V (K + 1)).is_callable = false := rfl

/-- For all other extents some `array_ctor` call has no common type for its arguments: the
instantiation is ill-formed. -/
theorem table_builder.ill_formed {α : Type} {leaf : List Nat → α}
    {build : (Vars1 : List Nat) → (tail : List (List Nat)) →
      Option (table_type × matrix α tail.length)}
    (hb : table_builder leaf build) : (sizes : List Nat) → table_builds sizes = false →
    (Vars1 : List Nat) → build Vars1 (sizes.map List.range) = none
  | [], h, _ => by simp [table_builds] at h
  | n :: rest, h, Vars1 => by
    have h2 := hb.2 Vars1 (List.range n) (rest.map List.range)
    rcases Nat.eq_zero_or_pos n with hn | hn
    · subst hn
      refine h2.trans ?_
      simp [pack_expansion, array_ctor, common_type]
    · cases hr : table_builds rest with
      | false =>
        have hnone : none ∈ (List.range n).map
            (fun v => build (Vars1 ++ [v]) (rest.map List.range)) :=
          List.mem_map.mpr ⟨0, List.mem_range.mpr hn,
            table_builder.ill_formed hb rest hr (Vars1 ++ [0])⟩
        refine h2.trans ?_
        rw [pack_expansion_none _ hnone]
        rfl
      | true =>
        simp only [table_builds, Bool.or_eq_false_iff] at h
        simp only [table_builds, Bool.or_eq_true] at hr
        obtain ⟨hu, ha⟩ := h
        have hones : rest.all (fun n => decide (n = 1)) = true := by
          rcases hr with hr | hr
          · exfalso
            cases rest with
            | nil => exact uniform_table_ne_nil [] hr rfl
            | cons n2 rest2 =>
              rw [uniform_table_cons, hr] at hu
              simp at hu
              omega
          · exact hr
        have hn2 : 2 ≤ n := by
          by_contra hlt
          have hn1 : n = 1 := by omega
          rw [List.all_cons, hones, hn1] at ha
          simp at ha
        cases rest with
        | nil =>
          exfalso
          simp [uniform_table] at hu
          omega
        | cons n2 rest2 =>
          obtain ⟨k, hk⟩ : ∃ k, n = k + 2 := ⟨n - 2, by omega⟩
          obtain ⟨l, hl⟩ := range_two k
          obtain ⟨rows, hrows, hty⟩ := pack_expansion_rows
            (fun v => build (Vars1 ++ [v]) ((n2 :: rest2).map List.range))
            (fun v => ones_type (Vars1 ++ [v]) (n2 :: rest2).length) (List.range n)
            (fun v _ => table_builder.ones hb (n2 :: rest2) hones (Vars1 ++ [v]))
          have hct : common_type (rows.map Prod.fst) = none := by
            rw [hty, hk, hl]
            simp only [List.map_cons]
            apply common_type_arrays
            · intro heq
              have := ones_type_injective _ _ _ heq
              simp at this
            · rfl
          refine h2.trans ?_
          rw [hrows, Option.some_bind, array_ctor_eq_none rows hct]

/-- The table builds exactly for the extents of `table_builds`. -/
theorem table_builder.builds_iff {α : Type} {leaf : List Nat → α}
    {build : (Vars1 : List Nat) → (tail : List (List Nat)) →
      Option (table_type × matrix α tail.length)}
    (hb : table_builder leaf build) (sizes : List Nat) (Vars1 : List Nat) :
    (∃ m, build Vars1 (sizes.map List.range) = some m) ↔ table_builds sizes = true := by
  constructor
  · rintro ⟨m, hm⟩
    by_contra hno
    rw [table_builder.ill_formed hb sizes (by simpa using hno) Vars1] at hm
    exact absurd hm (by simp)
  · intro h
    simp only [table_builds, Bool.or_eq_true] at h
    rcases h with h | h
    · obtain ⟨m, hm⟩ := table_builder.uniform hb sizes h Vars1
      exact ⟨_, hm⟩
    · obtain ⟨m, hm⟩ := table_builder.ones hb sizes h Vars1
      exact ⟨_, hm⟩

theorem table_builds_one (n : Nat) (h : 1 ≤ n) : table_builds [n] = true := by
  rcases Nat.lt_or_ge n 2 with h2 | h2
  · have hn : n = 1 := by omega
    subst hn
    rfl
  · simp [table_builds, uniform_table, h2]

theorem in_impl_by_index {R : Type} (sizes Vars1 idxs : List Nat)
    (m : table_type × matrix ((List Nat → Option R) → Option R) (sizes.map List.range).length)
    (hm : create_func_matrix_base_in Vars1 (sizes.map List.range) = some m)
    (h : List.Forall₂ (fun i n => i < n) idxs sizes) :
    in_impl _ m.2 idxs = some (fun func => func (Vars1 ++ idxs)) :=
  (create_func_matrix_base_in_builder R).in_impl_at sizes Vars1 idxs m hm h

theorem create_matrix_by_index_builds {R : Type} (sizes : List Nat)
    (h : table_builds sizes = true) :
    ∃ m : table_type × matrix ((List Nat → Option R) → Option R) (sizes.map List.range).length,
      create_matrix_by_index sizes = some m :=
  ((create_func_matrix_base_in_builder R).builds_iff sizes []).mpr h

theorem visit_by_index_one {R : Type} (visitor : List Nat → Option R) (v : variant val Types)
    (h : v.index < Types.length) :
    visit_by_index visitor [⟨Types, v⟩] = visitor [v.index] := by
  obtain ⟨m, hm⟩ := create_matrix_by_index_builds (R := R) [Types.length]
    (table_builds_one _ (by omega))
  have hcell := in_impl_by_index [Types.length] [] [v.index] m hm
    (List.Forall₂.cons h List.Forall₂.nil)
  have hcell1 : in_impl [List.range Types.length].length m.2 [v.index] =
      some (fun func => func ([] ++ [v.index])) := hcell
  simp only [visit_by_index, List.map_cons, List.map_nil, hm, hcell1, List.nil_append]

theorem visit_by_index_one_out {R : Type} (visitor : List Nat → Option R) (v : variant val Types)
    (h : Types.length ≤ v.index) :
    visit_by_index visitor [⟨Types, v⟩] = none := by
  simp only [visit_by_index, List.map_cons, List.map_nil]
  cases hm : (create_matrix_by_index [Types.length] :
      Option (table_type × matrix ((List Nat → Option R) → Option R) _)) with
  | none => rfl
  | some m =>
    have hshape := ((create_func_matrix_base_in_builder R).shape [List.range Types.length] []
      m hm).1
    have hlen : (matrix.rows _ 0 m.2).length = Types.length := by
      simpa using hshape.1
    have hget : List.get? (m.2 : List ((List Nat → Option R) → Option R)) v.index = none := by
      rw [List.get?_eq_getElem?]
      apply List.getElem?_eq_none
      have : (m.2 : List ((List Nat → Option R) → Option R)).length = Types.length := hlen
      omega
    have hnone : in_impl 1 m.2 [v.index] = none := by
      simp only [in_impl, hget]
    have hnone1 : in_impl [List.range Types.length].length m.2 [v.index] = none := hnone
    simp only [hnone1]

/-! ### `make_valueless` and `emplace` -/

theorem variant.make_valueless_wf (tr : alt_traits Ty E val) (self : variant val Types)
    (hwf : self.wf) :
    ∃ s, self.make_valueless tr = some s ∧ s.index_ = variant_npos := by
  unfold variant.make_valueless
  by_cases hnp : self.index_ = variant_npos
  · simp [hnp]
  · have hlt : self.index < Types.length := by
      rcases hwf with h | h
      · exact absurd h hnp
      · exact h.1
    simp only [ne_eq, hnp, not_false_eq_true, ↓reduceIte, vstorage.reset]
    by_cases ht : is_trivially_destructible tr Types = true
    · simp [ht]
    · simp [ht, visit_by_index_one _ self hlt]

theorem variant.emplace_ok {Args : Type} (tr : alt_traits Ty E val) (self : variant val Types)
    (hwf : self.wf) (Index : Nat) (hi : Index < Types.length)
    (construct : Args → Except E (alt_val val (get_type Index Types)) × Args) (args : Args)
    (x : alt_val val (get_type Index Types)) (args1 : Args)
    (hc : construct args = (Except.ok x, args1)) :
    ∃ s, self.emplace tr Index construct args = (Except.ok x, s, args1) ∧ s.index_ = Index ∧
      variadic_union.get Types Index s.storage = some x := by
  obtain ⟨s0, hs0, _⟩ := variant.make_valueless_wf tr self hwf
  have hset := variadic_union.set_ok Types Index hi construct args s0.storage x args1 hc
  simp only [variant.emplace, vstorage.set, hs0]
  rcases hq : variadic_union.set Types Index construct args s0.storage with ⟨⟨r, a⟩, st⟩
  rw [hq] at hset
  simp only [Prod.mk.injEq] at hset
  obtain ⟨⟨hr, ha⟩, hg⟩ := hset
  subst hr ha
  exact ⟨_, rfl, rfl, hg⟩

theorem variant.emplace_error {Args : Type} (tr : alt_traits Ty E val) (self : variant val Types)
    (hwf : self.wf) (Index : Nat)
    (construct : Args → Except E (alt_val val (get_type Index Types)) × Args) (args : Args)
    (e : E) (args1 : Args)
    (hc : construct args = (Except.error e, args1)) :
    ∃ s, self.emplace tr Index construct args = (Except.error (Fault.alternative e), s, args1) ∧
      s.index_ = variant_npos := by
  obtain ⟨s0, hs0, hidx⟩ := variant.make_valueless_wf tr self hwf
  have hset := variadic_union.set_error Types Index construct args s0.storage e args1 hc
  simp only [variant.emplace, vstorage.set, hs0]
  rcases hq : variadic_union.set Types Index construct args s0.storage with ⟨⟨r, a⟩, st⟩
  rw [hq] at hset
  simp only [Prod.mk.injEq] at hset
  obtain ⟨hr, ha⟩ := hset
  subst hr ha
  exact ⟨_, rfl, hidx⟩

/-! ### Accessors -/

theorem count_of_cons [DecidableEq Ty] (T Head : Ty) (Types : List Ty) :
    count_of T (Head :: Types) = (if T = Head then 1 else 0) + count_of T Types := by
  cases Types <;> simp [count_of]

theorem find_first_cons [DecidableEq Ty] (T Head : Ty) (Index : Nat) (Types : List Ty) :
    find_first T Index (Head :: Types) =
      if T = Head then Index else find_first T (Index + 1) Types := by
  cases Types <;> simp [find_first]

theorem count_of_pos [DecidableEq Ty] (T : Ty) : (Types : List Ty) → (i : Nat) →
    get_type i Types = some T → 1 ≤ count_of T Types
  | [], _, h => by simp [get_type] at h
  | Head :: Tail, 0, h => by
    simp only [get_type, Option.some.injEq] at h
    simp [count_of_cons, h]
  | Head :: Tail, i + 1, h => by
    simp only [get_type] at h
    have ih := count_of_pos T Tail i h
    rw [count_of_cons]
    omega

theorem find_first_of_unique [DecidableEq Ty] (T : Ty) : (Types : List Ty) → (i k : Nat) →
    count_of T Types = 1 → get_type i Types = some T → find_first T k Types = k + i
  | [], _, _, _, h => by simp [get_type] at h
  | Head :: Tail, 0, k, _, h => by
    simp only [get_type, Option.some.injEq] at h
    simp [find_first_cons, h]
  | Head :: Tail, i + 1, k, hc, h => by
    simp only [get_type] at h
    have hpos := count_of_pos T Tail i h
    rw [count_of_cons] at hc
    rw [find_first_cons]
    by_cases hT : T = Head
    · rw [if_pos hT] at hc
      omega
    · simp only [hT, ↓reduceIte, zero_add] at hc ⊢
      rw [find_first_of_unique T Tail i (k + 1) hc h]
      omega

theorem get_of_index (v : variant val Types) (hwf : v.wf) (hv : v.index_ ≠ variant_npos) :
    ∃ x, variadic_union.get Types v.index v.storage = some x ∧
      (get v.index v : Except (Fault E) _) = Except.ok x := by
  rcases hwf with h | ⟨_, h⟩
  · exact absurd h hv
  · obtain ⟨x, hx⟩ := Option.isSome_iff_exists.mp h
    refine ⟨x, hx, ?_⟩
    have hx' : variadic_union.get Types v.index v.storage = some x := hx
    simp [get, hx']

theorem get_by_type_eq_get [DecidableEq Ty] (T : Ty) (v : variant val Types) :
    (get_by_type T v : Except (Fault E) _) = get (find_first_v T Types) v := by
  by_cases h : find_first_v T Types = v.index
  · cases h2 : variadic_union.get Types (find_first_v T Types) v.storage <;>
      simp [get_by_type, get, holds_alternative, h, h2]
  · simp [get_by_type, get, holds_alternative, h]

theorem get_of_ne (v : variant val Types) (i : Nat) (h : i ≠ v.index) :
    (get i v : Except (Fault E) _) = Except.error Fault.bad_variant_access := by
  simp [get, h]

/-- C1: for a container `v` over `N` alternatives and an index `i < N`, `get<i>(v)` returns the
alternative stored at `i` when `i == v.index()` and throws `bad_variant_access` when
`i != v.index()`, so it throws for every `i` when `v` is valueless; `get<T>(v)` does the same
for the alternative `T` that occurs once in the pack, at position `i`. -/
theorem get_returns_iff_active [DecidableEq Ty] (v : variant val Types) (hwf : v.wf)
    (hN : Types.length ≤ variant_npos) (i : Nat) (hi : i < Types.length) :
    (i = v.index → ∃ x, variadic_union.get Types i v.storage = some x ∧
        (get i v : Except (Fault E) _) = Except.ok x) ∧
    (i ≠ v.index → (get i v : Except (Fault E) _) = Except.error Fault.bad_variant_access) ∧
    (v.valueless_by_exception = true →
        (get i v : Except (Fault E) _) = Except.error Fault.bad_variant_access) ∧
    (∀ T : Ty, count_of T Types = 1 → get_type i Types = some T →
      find_first_v T Types = i ∧
      (i = v.index → ∃ x, variadic_union.get Types (find_first_v T Types) v.storage = some x ∧
        (get_by_type T v : Except (Fault E) _) = Except.ok x) ∧
      (i ≠ v.index →
        (get_by_type T v : Except (Fault E) _) = Except.error Fault.bad_variant_access) ∧
      (v.valueless_by_exception = true →
        (get_by_type T v : Except (Fault E) _) = Except.error Fault.bad_variant_access)) := by
  have hnpos : i ≠ variant_npos := by
    have : variant_npos = 18446744073709551615 := rfl
    omega
  have hval : v.valueless_by_exception = true → i ≠ v.index := by
    intro h heq
    simp only [variant.valueless_by_exception, beq_iff_eq] at h
    exact hnpos (heq.trans h)
  have hact : i = v.index → ∃ x, variadic_union.get Types i v.storage = some x ∧
        (get i v : Except (Fault E) _) = Except.ok x := by
    intro heq
    subst heq
    exact get_of_index v hwf hnpos
  refine ⟨hact, get_of_ne v i, fun h => get_of_ne v i (hval h), ?_⟩
  intro T hc hT
  have hff : find_first_v T Types = i := by
    simpa [find_first_v] using find_first_of_unique T Types i 0 hc hT
  refine ⟨hff, ?_⟩
  rw [get_by_type_eq_get, hff]
  exact ⟨hact, get_of_ne v i, fun h => get_of_ne v i (hval h)⟩

/-! ### Value dispatch -/

theorem in_impl_by_value (E : Type) (val : Ty → Type) (R : Type) (sizes Vars1 idxs : List Nat)
    (m : table_type ×
      matrix ((List (visit_arg val) → R) → List (any_variant val) → Except (Fault E) R)
        (sizes.map List.range).length)
    (hm : create_func_matrix_base Vars1 (sizes.map List.range) = some m)
    (h : List.Forall₂ (fun i n => i < n) idxs sizes) :
    ∃ cell : (List (visit_arg val) → R) → List (any_variant val) → Except (Fault E) R,
      in_impl _ m.2 idxs = some cell ∧
      ∀ func tp, cell func tp =
        match (get_pack (Vars1 ++ idxs) tp : Except (Fault E) _) with
        | Except.error f => Except.error f
        | Except.ok xs => Except.ok (func xs) := by
  refine ⟨_, (create_func_matrix_base_builder E val R).in_impl_at sizes Vars1 idxs m hm h, ?_⟩
  intro func tp
  cases get_pack (Vars1 ++ idxs) tp <;> rfl

theorem create_matrix_builds (E : Type) (val : Ty → Type) (R : Type) (sizes : List Nat)
    (h : table_builds sizes = true) :
    ∃ m : table_type ×
        matrix ((List (visit_arg val) → R) → List (any_variant val) → Except (Fault E) R)
          (sizes.map List.range).length,
      create_matrix sizes = some m :=
  ((create_func_matrix_base_builder E val R).builds_iff sizes []).mpr h

theorem create_matrix_ill_formed (E : Type) (val : Ty → Type) (R : Type) (sizes : List Nat)
    (h : table_builds sizes = false) :
    (create_matrix sizes : Option (table_type ×
        matrix ((List (visit_arg val) → R) → List (any_variant val) → Except (Fault E) R)
          (sizes.map List.range).length)) = none :=
  (create_func_matrix_base_builder E val R).ill_formed sizes h []

theorem get_pack_active (E : Type) : (vars : List (any_variant val)) →
    (∀ v ∈ vars, v.2.wf) → (∀ v ∈ vars, v.2.valueless_by_exception = false) →
    ∃ args, active_args (E := E) vars args ∧
      (get_pack (vars.map (fun v => v.2.index)) vars : Except (Fault E) _) = Except.ok args
  | [], _, _ => ⟨[], List.Forall₂.nil, rfl⟩
  | v :: vars, hwf, hval => by
    obtain ⟨args, hargs, hpack⟩ := get_pack_active E vars
      (fun w hw => hwf w (List.mem_cons_of_mem _ hw))
      (fun w hw => hval w (List.mem_cons_of_mem _ hw))
    have hv : v.2.index_ ≠ variant_npos := by
      have := hval v (List.mem_cons_self _ _)
      simpa [variant.valueless_by_exception, variant.index] using this
    obtain ⟨x, _, hx⟩ := get_of_index (E := E) v.2 (hwf v (List.mem_cons_self _ _)) hv
    refine ⟨⟨get_type v.2.index v.1, x⟩ :: args, List.Forall₂.cons ⟨x, hx, rfl⟩ hargs, ?_⟩
    simp [get_pack, hx, hpack]

theorem index_lt_size : (vars : List (any_variant val)) →
    (∀ v ∈ vars, v.2.wf) → (∀ v ∈ vars, v.2.valueless_by_exception = false) →
    List.Forall₂ (fun i n => i < n) (vars.map (fun v => v.2.index))
      (vars.map (fun v => v.1.length))
  | [], _, _ => List.Forall₂.nil
  | v :: vars, hwf, hval => by
    have hv : v.2.index_ ≠ variant_npos := by
      have := hval v (List.mem_cons_self _ _)
      simpa [variant.valueless_by_exception, variant.index] using this
    have hlt : v.2.index < v.1.length := by
      rcases hwf v (List.mem_cons_self _ _) with h | h
      · exact absurd h hv
      · exact h.1
    exact List.Forall₂.cons hlt (index_lt_size vars
      (fun w hw => hwf w (List.mem_cons_of_mem _ hw))
      (fun w hw => hval w (List.mem_cons_of_mem _ hw)))

/-- C2: when the table of `visit` builds for the alternative counts of `v1..vK`,
`visit(f, v1..vK)` throws `bad_variant_access` exactly when some `vi` is valueless, and otherwise
every internal `get<ij>(vj)` returns (with `ij = vj.index()`) and the result is `f` applied to the
values of the active alternatives.  For all other alternative counts (the last is 1 under one
that is more than 1, or one is 0) the call is ill-formed. -/
theorem visit_iff_none_valueless {R : Type} (f : List (visit_arg val) → R)
    (vars : List (any_variant val)) (hwf : ∀ v ∈ vars, v.2.wf) :
    (table_builds (vars.map (fun v => v.1.length)) = true →
      ((visit f vars : Except (Fault E) R) = Except.error Fault.bad_variant_access ↔
        ∃ v ∈ vars, v.2.valueless_by_exception = true) ∧
      ((∀ v ∈ vars, v.2.valueless_by_exception = false) →
        ∃ args, active_args (E := E) vars args ∧
          (visit f vars : Except (Fault E) R) = Except.ok (f args))) ∧
    (table_builds (vars.map (fun v => v.1.length)) = false →
      (visit f vars : Except (Fault E) R) = Except.error Fault.ill_formed) := by
  refine ⟨fun hbuild => ?_, fun hbuild => ?_⟩
  · obtain ⟨m, hm⟩ := create_matrix_builds E val R (vars.map (fun v => v.1.length)) hbuild
    have hok : (∀ v ∈ vars, v.2.valueless_by_exception = false) →
        ∃ args, active_args (E := E) vars args ∧
          (visit f vars : Except (Fault E) R) = Except.ok (f args) := by
      intro hval
      obtain ⟨args, hargs, hpack⟩ := get_pack_active E vars hwf hval
      have hm1 : create_func_matrix_base []
          ((vars.map (fun v => v.1.length)).map List.range) = some m := hm
      obtain ⟨cell, hcell, hspec⟩ := in_impl_by_value E val R _ [] _ m hm1
        (index_lt_size vars hwf hval)
      refine ⟨args, hargs, ?_⟩
      have hany : vars.any (fun v => v.2.valueless_by_exception) = false := by
        simpa [List.any_eq_false] using hval
      simp only [visit, hm, hany, hcell, hspec, List.nil_append, hpack]
      simp
    refine ⟨⟨?_, ?_⟩, hok⟩
    · intro herr
      by_contra hno
      have hval : ∀ v ∈ vars, v.2.valueless_by_exception = false := by
        intro v hv
        by_contra hv2
        exact hno ⟨v, hv, by simpa using hv2⟩
      obtain ⟨args, _, heq⟩ := hok hval
      rw [heq] at herr
      exact Except.noConfusion herr
    · rintro ⟨v, hv, hvl⟩
      have hany : vars.any (fun v => v.2.valueless_by_exception) = true :=
        List.any_eq_true.mpr ⟨v, hv, hvl⟩
      simp [visit, hm, hany]
  · have hm := create_matrix_ill_formed E val R (vars.map (fun v => v.1.length)) hbuild
    simp only [visit, hm]

theorem ne_npos_of_lt (hN : Types.length ≤ variant_npos) (i : Nat) (hi : i < Types.length) :
    i ≠ variant_npos := by
  have : variant_npos = 18446744073709551615 := rfl
  omega

/-- C3: for a container `C` in any state and an index `i < N`, `get_if<i>(&C)` does not throw
and its result is non-null exactly when `C.index() == i`, in which case it points at the
alternative stored at `i`; for a null pointer the result is null. -/
theorem get_if_non_null_iff_active (E : Type) (C : variant val Types) (hwf : C.wf)
    (hN : Types.length ≤ variant_npos) (i : Nat) (hi : i < Types.length) :
    (∃ r, (get_if i (some C) : Except (Fault E) _) = Except.ok r ∧
      (r.isSome = true ↔ C.index = i) ∧
      (∀ x, r = some x → variadic_union.get Types i C.storage = some x)) ∧
    (get_if i (none : Option (variant val Types)) : Except (Fault E) _) = Except.ok none := by
  refine ⟨?_, rfl⟩
  by_cases h : i = C.index
  · subst h
    obtain ⟨x, hx, hg⟩ := get_of_index (E := E) C hwf (ne_npos_of_lt hN _ hi)
    refine ⟨some x, ?_, by simp, ?_⟩
    · simp [get_if, hg]
    · intro y hy
      cases hy
      exact hx
  · refine ⟨none, ?_, ?_, ?_⟩
    · simp [get_if, h]
    · simp [Ne.symm h]
    · intro y hy
      cases hy

theorem vstorage.undefined_wf (val : Ty → Type) (Types : List Ty) :
    (vstorage.undefined val Types).wf := Or.inl rfl

theorem wf_of_get (s : variant val Types) (i : Nat) (hi : i < Types.length)
    (x : alt_val val (get_type i Types)) (hidx : s.index_ = i)
    (hg : variadic_union.get Types i s.storage = some x) :
    s.wf ∧ (get i s : Except (Fault E) _) = Except.ok x := by
  subst hidx
  refine ⟨Or.inr ⟨hi, by rw [hg]; rfl⟩, ?_⟩
  simp [get, variant.index, hg]

theorem valueless_iff (s : variant val Types) :
    s.valueless_by_exception = true ↔ s.index_ = variant_npos := by
  simp [variant.valueless_by_exception, variant.index]

theorem not_valueless_iff (s : variant val Types) :
    s.valueless_by_exception = false ↔ s.index_ ≠ variant_npos := by
  simp [variant.valueless_by_exception, variant.index]

/-- C4: for a container `C` in any state, an index `i < N` and arguments from which the
constructor of alternative `i` makes the value `x`, `emplace<i>(args)` returns (a reference to)
`x` and afterwards `C.index() == i`, `get<i>(C)` is `x`, and `get<j>(C)` throws for every other
`j`: the value held before is gone. -/
theorem emplace_holds_constructed {Args : Type} (tr : alt_traits Ty E val)
    (C : variant val Types) (hwf : C.wf) (hN : Types.length ≤ variant_npos)
    (i : Nat) (hi : i < Types.length)
    (construct : Args → Except E (alt_val val (get_type i Types)) × Args) (args : Args)
    (x : alt_val val (get_type i Types)) (args1 : Args)
    (hc : construct args = (Except.ok x, args1)) :
    ∃ C1, C.emplace tr i construct args = (Except.ok x, C1, args1) ∧
      C1.index = i ∧ C1.valueless_by_exception = false ∧ C1.wf ∧
      (get i C1 : Except (Fault E) _) = Except.ok x ∧
      ∀ j, j ≠ i → (get j C1 : Except (Fault E) _) = Except.error Fault.bad_variant_access := by
  obtain ⟨C1, hC1, hidx, hg⟩ := variant.emplace_ok tr C hwf i hi construct args x args1 hc
  obtain ⟨hwf1, hget⟩ := wf_of_get (E := E) C1 i hi x hidx hg
  refine ⟨C1, hC1, hidx, ?_, hwf1, hget, ?_⟩
  · rw [not_valueless_iff, hidx]
    exact ne_npos_of_lt hN i hi
  · intro j hj
    exact get_of_ne C1 j (by rw [variant.index, hidx]; exact hj)

/-- C5: `emplace` destroys, then constructs: for a container `C` in any state (the same
alternative `i` included), when the constructor of alternative `i` throws `e` on `args`,
`emplace<i>(args)` throws `e` and leaves `C` valueless, `index() == variant_npos`; no `get<j>`
returns the former value. -/
theorem emplace_failure_leaves_valueless {Args : Type} (tr : alt_traits Ty E val)
    (C : variant val Types) (hwf : C.wf) (i : Nat)
    (construct : Args → Except E (alt_val val (get_type i Types)) × Args) (args : Args)
    (e : E) (args1 : Args) (hc : construct args = (Except.error e, args1)) :
    ∃ C1, C.emplace tr i construct args = (Except.error (Fault.alternative e), C1, args1) ∧
      C1.index = variant_npos ∧ C1.valueless_by_exception = true ∧ C1.wf ∧
      ∀ j, j < variant_npos →
        (get j C1 : Except (Fault E) _) = Except.error Fault.bad_variant_access := by
  obtain ⟨C1, hC1, hidx⟩ := variant.emplace_error tr C hwf i construct args e args1 hc
  refine ⟨C1, hC1, hidx, (valueless_iff C1).mpr hidx, Or.inl hidx, ?_⟩
  intro j hj
  refine get_of_ne C1 j ?_
  rw [variant.index, hidx]
  have : variant_npos = 18446744073709551615 := rfl
  omega

/-! ### Copy construction -/

theorem index_lt_of_wf (C : variant val Types) (hwf : C.wf)
    (hv : C.valueless_by_exception = false) : C.index < Types.length := by
  have hnp := (not_valueless_iff C).mp hv
  rcases hwf with h | h
  · exact absurd h hnp
  · exact h.1

theorem copy_construct_at_snd (tr : alt_traits Ty E val) :
    (o : Option Ty) → (x : alt_val val o) → (copy_construct_at tr o x).2 = x
  | some _, _ => rfl
  | none, x => nomatch x

theorem copy_ctor_visitor_ok (tr : alt_traits Ty E val) (self other s : variant val Types)
    (index : Nat) (x y a : alt_val val (get_type index Types))
    (hx : (get index other : Except (Fault E) _) = Except.ok x)
    (he : self.emplace tr index (copy_construct_at tr (get_type index Types)) x =
      (Except.ok y, s, a)) :
    copy_ctor_visitor tr self other [index] = some (Except.ok (), s) := by
  simp only [copy_ctor_visitor, hx, he]

theorem copy_ctor_visitor_error (tr : alt_traits Ty E val) (self other s : variant val Types)
    (index : Nat) (x a : alt_val val (get_type index Types)) (f : Fault E)
    (hx : (get index other : Except (Fault E) _) = Except.ok x)
    (he : self.emplace tr index (copy_construct_at tr (get_type index Types)) x =
      (Except.error f, s, a)) :
    copy_ctor_visitor tr self other [index] = some (Except.error f, s) := by
  simp only [copy_ctor_visitor, hx, he]

theorem copy_ctor_dispatch (tr : alt_traits Ty E val) (C : variant val Types) (hwf : C.wf)
    (hv : C.valueless_by_exception = false)
    (r : Except (Fault E) Unit × variant val Types)
    (hr : copy_ctor_visitor tr (vstorage.undefined val Types) C [C.index] = some r) :
    C.copy_ctor tr = r := by
  have hlt := index_lt_of_wf C hwf hv
  simp only [variant.copy_ctor, hv, Bool.not_false, ↓reduceIte, visit_by_index_one _ C hlt, hr]

theorem copy_ctor_ok (tr : alt_traits Ty E val) (C : variant val Types) (hwf : C.wf)
    (hv : C.valueless_by_exception = false) (x y : alt_val val (get_type C.index Types))
    (hx : (get C.index C : Except (Fault E) _) = Except.ok x)
    (hy : (copy_construct_at tr (get_type C.index Types) x).1 = Except.ok y) :
    ∃ D, C.copy_ctor tr = (Except.ok (), D) ∧ D.index_ = C.index ∧
      variadic_union.get Types C.index D.storage = some y := by
  have hlt := index_lt_of_wf C hwf hv
  have hc : copy_construct_at tr (get_type C.index Types) x = (Except.ok y, x) :=
    Prod.ext hy (copy_construct_at_snd tr _ x)
  obtain ⟨D, hD, hidx, hg⟩ := variant.emplace_ok tr (vstorage.undefined val Types)
    (vstorage.undefined_wf val Types) C.index hlt _ x y x hc
  exact ⟨D, copy_ctor_dispatch tr C hwf hv _ (copy_ctor_visitor_ok tr _ C D _ x y x hx hD),
    hidx, hg⟩

theorem copy_ctor_error (tr : alt_traits Ty E val) (C : variant val Types) (hwf : C.wf)
    (hv : C.valueless_by_exception = false) (x : alt_val val (get_type C.index Types)) (e : E)
    (hx : (get C.index C : Except (Fault E) _) = Except.ok x)
    (hy : (copy_construct_at tr (get_type C.index Types) x).1 = Except.error e) :
    ∃ D, C.copy_ctor tr = (Except.error (Fault.alternative e), D) := by
  have hc : copy_construct_at tr (get_type C.index Types) x = (Except.error e, x) :=
    Prod.ext hy (copy_construct_at_snd tr _ x)
  obtain ⟨D, hD, _⟩ := variant.emplace_error tr (vstorage.undefined val Types)
    (vstorage.undefined_wf val Types) C.index _ x e x hc
  exact ⟨D, copy_ctor_dispatch tr C hwf hv _
    (copy_ctor_visitor_error tr _ C D _ x x _ hx hD)⟩

/-- C6: the copy `D` of a container `C`: when `C` is valueless `D` is valueless; when `C` holds
the value `x` at `index(C)` and the copy constructor of that alternative makes `y` from `x`,
`D.index() == C.index()` and `get<index(C)>(D)` is `y`, so it is `get<index(C)>(C)` when the
copy is the value copied.  `C` is an argument that the copy constructor only reads. -/
theorem copy_ctor_round_trip (tr : alt_traits Ty E val) (C : variant val Types) (hwf : C.wf)
    (hN : Types.length ≤ variant_npos) :
    (C.valueless_by_exception = true →
      ∃ D, C.copy_ctor tr = (Except.ok (), D) ∧ D.index = C.index ∧
        D.valueless_by_exception = true) ∧
    (C.valueless_by_exception = false →
      ∃ x, (get C.index C : Except (Fault E) _) = Except.ok x ∧
        ∀ y, (copy_construct_at tr (get_type C.index Types) x).1 = Except.ok y →
          ∃ D, C.copy_ctor tr = (Except.ok (), D) ∧ D.index = C.index ∧ D.wf ∧
            D.valueless_by_exception = false ∧
            (get C.index D : Except (Fault E) _) = Except.ok y ∧
            (y = x → (get C.index D : Except (Fault E) _) = get C.index C)) := by
  constructor
  · intro hv
    refine ⟨vstorage.undefined val Types, by simp [variant.copy_ctor, hv], ?_,
      (valueless_iff _).mpr rfl⟩
    rw [valueless_iff] at hv
    rw [variant.index, variant.index, hv]
    rfl
  · intro hv
    have hlt := index_lt_of_wf C hwf hv
    obtain ⟨x, _, hx⟩ := get_of_index (E := E) C hwf ((not_valueless_iff C).mp hv)
    refine ⟨x, hx, ?_⟩
    intro y hy
    obtain ⟨D, hD, hidx, hg⟩ := copy_ctor_ok tr C hwf hv x y hx hy
    obtain ⟨hDwf, hget⟩ := wf_of_get (E := E) D C.index hlt y hidx hg
    refine ⟨D, hD, hidx, hDwf, ?_, hget, ?_⟩
    · rw [not_valueless_iff, hidx]
      exact ne_npos_of_lt hN _ hlt
    · intro hyx
      rw [hget, hx, hyx]

/-! ### Move construction and move assignment -/

theorem variadic_union.get_store : (Types : List Ty) → (Index : Nat) →
    (x : alt_val val (get_type Index Types)) → (u : variadic_union val Types) →
    (variadic_union.get Types Index u).isSome = true →
    variadic_union.get Types Index (variadic_union.store Types Index x u) = some x
  | [], _, _, _, h => by simp [variadic_union.get] at h
  | _ :: _, 0, x, u, _ => by simp [variadic_union.store, variadic_union.get]
  | _ :: Tail, i + 1, x, union_members.tail t, h => by
    simp only [variadic_union.get] at h
    simp only [variadic_union.store, variadic_union.get]
    exact variadic_union.get_store Tail i x t h
  | _ :: _, _ + 1, _, union_members.dead, h => by simp [variadic_union.get] at h
  | _ :: _, _ + 1, _, union_members.head _, h => by simp [variadic_union.get] at h

theorem variant.get_after_store (self : variant val Types) (hwf : self.wf)
    (hv : self.valueless_by_exception = false) (x : alt_val val (get_type self.index Types)) :
    (self.store self.index x).wf ∧
      (get self.index (self.store self.index x) : Except (Fault E) _) = Except.ok x := by
  have hlt := index_lt_of_wf self hwf hv
  have hlive : (variadic_union.get Types self.index self.storage).isSome = true := by
    rcases hwf with h | h
    · exact absurd h ((not_valueless_iff self).mp hv)
    · exact h.2
  exact wf_of_get (self.store self.index x) self.index hlt x rfl
    (variadic_union.get_store Types self.index x self.storage hlive)

theorem move_assign_visitor_emplace (tr : alt_traits Ty E val) (self other s : variant val Types)
    (ind : Nat) (x z x1 : alt_val val (get_type ind Types)) (hne : ind ≠ self.index)
    (hx : (get ind other : Except (Fault E) _) = Except.ok x)
    (he : self.emplace tr ind (move_construct_at tr (get_type ind Types)) x =
      (Except.ok z, s, x1)) :
    move_assign_visitor tr self other [ind] = some (Except.ok (), s, other.store ind x1) := by
  simp only [move_assign_visitor, hne, ne_eq, not_false_eq_true, ↓reduceIte, hx, he]

theorem move_assign_visitor_assign (tr : alt_traits Ty E val) (self other : variant val Types)
    (ind : Nat) (a b a1 b1 : alt_val val (get_type ind Types)) (r : Except E Unit)
    (heq : ind = self.index)
    (hb : (get ind other : Except (Fault E) _) = Except.ok b)
    (ha : (get ind self : Except (Fault E) _) = Except.ok a)
    (hm : move_assign_at tr (get_type ind Types) a b = (r, a1, b1)) :
    move_assign_visitor tr self other [ind] =
      some (rethrow r, self.store ind a1, other.store ind b1) := by
  simp only [move_assign_visitor, heq, ne_eq, not_true_eq_false, ↓reduceIte]
  subst heq
  simp only [hb, ha, hm]

theorem move_assign_dispatch (tr : alt_traits Ty E val) (self other : variant val Types)
    (ho : other.wf) (hv : other.valueless_by_exception = false)
    (r : Except (Fault E) Unit × variant val Types × variant val Types)
    (hr : move_assign_visitor tr self other [other.index] = some r) :
    self.move_assign tr other = r := by
  have hlt := index_lt_of_wf other ho hv
  simp only [variant.move_assign, hv, Bool.false_eq_true, ↓reduceIte,
    visit_by_index_one _ other hlt, hr]

theorem move_ctor_visitor_ok (tr : alt_traits Ty E val) (self other s : variant val Types)
    (index : Nat) (x y x1 : alt_val val (get_type index Types))
    (hx : (get index other : Except (Fault E) _) = Except.ok x)
    (he : self.emplace tr index (move_construct_at tr (get_type index Types)) x =
      (Except.ok y, s, x1)) :
    move_ctor_visitor tr self other [index] = some (Except.ok (), s, other.store index x1) := by
  simp only [move_ctor_visitor, hx, he]

theorem move_ctor_dispatch (tr : alt_traits Ty E val) (C : variant val Types) (hwf : C.wf)
    (hv : C.valueless_by_exception = false)
    (r : Except (Fault E) Unit × variant val Types × variant val Types)
    (hr : move_ctor_visitor tr (vstorage.undefined val Types) C [C.index] = some r) :
    C.move_ctor tr = r := by
  have hlt := index_lt_of_wf C hwf hv
  simp only [variant.move_ctor, hv, Bool.not_false, ↓reduceIte, visit_by_index_one _ C hlt, hr]

theorem move_assign_from_valueless (tr : alt_traits Ty E val) (self other : variant val Types)
    (hs : self.wf) (hv : other.valueless_by_exception = true) :
    ∃ s, self.move_assign tr other = (Except.ok (), s, other) ∧
      s.valueless_by_exception = true := by
  by_cases hsv : self.valueless_by_exception = true
  · exact ⟨self, by simp [variant.move_assign, hv, hsv], hsv⟩
  · obtain ⟨s, hs1, hidx⟩ := variant.make_valueless_wf tr self hs
    refine ⟨s, ?_, (valueless_iff s).mpr hidx⟩
    simp only [Bool.not_eq_true] at hsv
    simp only [variant.move_assign, hv, ↓reduceIte, hsv, Bool.not_false, hs1]

theorem get_and_store_at (v : variant val Types) (hwf : v.wf)
    (hv : v.valueless_by_exception = false) (i : Nat) (hi : i = v.index) :
    ∃ a, (get i v : Except (Fault E) _) = Except.ok a ∧
      ∀ a1, (v.store i a1).wf ∧ (get i (v.store i a1) : Except (Fault E) _) = Except.ok a1 := by
  subst hi
  obtain ⟨a, _, ha⟩ := get_of_index (E := E) v hwf ((not_valueless_iff v).mp hv)
  exact ⟨a, ha, fun a1 => variant.get_after_store v hwf hv a1⟩

/-- C10: moving from a container `C`.  When `C` is valueless, the move constructor makes a
valueless `D` and move assignment leaves any `D` valueless.  When `C` holds `x` at `i`:
after `D = move(C)` and after move assignment into a `D` that is valueless or holds another
alternative, `D.index() == i` and `get<i>(D)` is the value the move constructor of alternative
`i` makes from `x`; after move assignment into a `D` that holds alternative `i`,
`D.index() == i` and `get<i>(D)` is the value the move assignment of alternative `i` leaves in
the target.  In every case `C.index()` is as before. -/
theorem move_transfers_value (tr : alt_traits Ty E val) (C : variant val Types) (hC : C.wf) :
    (C.valueless_by_exception = true →
      (∃ D, C.move_ctor tr = (Except.ok (), D, C) ∧ D.valueless_by_exception = true) ∧
      ∀ D : variant val Types, D.wf →
        ∃ D1, D.move_assign tr C = (Except.ok (), D1, C) ∧
          D1.valueless_by_exception = true) ∧
    (C.valueless_by_exception = false →
      ∃ x, (get C.index C : Except (Fault E) _) = Except.ok x ∧
        (∀ y x1, move_construct_at tr (get_type C.index Types) x = (Except.ok y, x1) →
          (∃ D C1, C.move_ctor tr = (Except.ok (), D, C1) ∧ D.index = C.index ∧
            (get C.index D : Except (Fault E) _) = Except.ok y ∧ C1.index = C.index) ∧
          ∀ D : variant val Types, D.wf → D.index ≠ C.index →
            ∃ D1 C1, D.move_assign tr C = (Except.ok (), D1, C1) ∧ D1.index = C.index ∧
              (get C.index D1 : Except (Fault E) _) = Except.ok y ∧ C1.index = C.index) ∧
        ∀ D : variant val Types, D.wf → D.index = C.index →
          ∃ a, (get C.index D : Except (Fault E) _) = Except.ok a ∧
            ∀ a1 x1, move_assign_at tr (get_type C.index Types) a x = (Except.ok (), a1, x1) →
              ∃ D1 C1, D.move_assign tr C = (Except.ok (), D1, C1) ∧ D1.index = C.index ∧
                (get C.index D1 : Except (Fault E) _) = Except.ok a1 ∧
                C1.index = C.index) := by
  constructor
  · intro hv
    refine ⟨⟨vstorage.undefined val Types, by simp [variant.move_ctor, hv],
      (valueless_iff _).mpr rfl⟩, ?_⟩
    intro D hD
    exact move_assign_from_valueless tr D C hD hv
  · intro hv
    have hlt := index_lt_of_wf C hC hv
    obtain ⟨x, _, hx⟩ := get_of_index (E := E) C hC ((not_valueless_iff C).mp hv)
    refine ⟨x, hx, ?_, ?_⟩
    · intro y x1 hm
      constructor
      · obtain ⟨D, hD, hidx, hg⟩ := variant.emplace_ok tr (vstorage.undefined val Types)
          (vstorage.undefined_wf val Types) C.index hlt _ x y x1 hm
        obtain ⟨_, hget⟩ := wf_of_get (E := E) D C.index hlt y hidx hg
        exact ⟨D, C.store C.index x1,
          move_ctor_dispatch tr C hC hv _ (move_ctor_visitor_ok tr _ C D _ x y x1 hx hD),
          hidx, hget, rfl⟩
      · intro D hD hne
        obtain ⟨D1, hD1, hidx, hg⟩ := variant.emplace_ok tr D hD C.index hlt _ x y x1 hm
        obtain ⟨_, hget⟩ := wf_of_get (E := E) D1 C.index hlt y hidx hg
        exact ⟨D1, C.store C.index x1,
          move_assign_dispatch tr D C hC hv _
            (move_assign_visitor_emplace tr D C D1 _ x y x1 (Ne.symm hne) hx hD1),
          hidx, hget, rfl⟩
    · intro D hD heq
      have hDv : D.valueless_by_exception = false := by
        rw [not_valueless_iff]
        have := (not_valueless_iff C).mp hv
        rw [variant.index, variant.index] at heq
        rw [heq]
        exact this
      obtain ⟨a, ha, hst⟩ := get_and_store_at (E := E) D hD hDv C.index heq.symm
      refine ⟨a, ha, ?_⟩
      intro a1 x1 hm
      exact ⟨D.store C.index a1, C.store C.index x1,
        move_assign_dispatch tr D C hC hv _
          (move_assign_visitor_assign tr D C _ a x a1 x1 (Except.ok ()) heq.symm hx ha hm),
        heq, (hst a1).2, rfl⟩

/-! ### Copy assignment -/

theorem copy_assign_dispatch_of (tr : alt_traits Ty E val) (self other : variant val Types)
    (ho : other.wf) (hv : other.valueless_by_exception = false)
    (r : Except (Fault E) Unit × variant val Types)
    (hr : copy_assign_visitor tr self other [other.index] = some r) :
    self.copy_assign tr other = r := by
  have hlt := index_lt_of_wf other ho hv
  simp only [variant.copy_assign, hv, Bool.false_eq_true, ↓reduceIte, copy_assign_dispatch,
    visit_by_index_one _ other hlt, hr]

theorem copy_assign_visitor_assign (tr : alt_traits Ty E val) (self other : variant val Types)
    (ind : Nat) (a b a1 : alt_val val (get_type ind Types)) (r : Except E Unit)
    (heq : ind = self.index)
    (hb : (get ind other : Except (Fault E) _) = Except.ok b)
    (ha : (get ind self : Except (Fault E) _) = Except.ok a)
    (hm : copy_assign_at tr (get_type ind Types) a b = (r, a1)) :
    copy_assign_visitor tr self other [ind] = some (rethrow r, self.store ind a1) := by
  simp only [copy_assign_visitor, heq, ne_eq, not_true_eq_false, ↓reduceIte]
  subst heq
  simp only [hb, ha, hm]

theorem copy_assign_visitor_emplace (tr : alt_traits Ty E val) (self other s : variant val Types)
    (ind : Nat) (x y a : alt_val val (get_type ind Types)) (hne : ind ≠ self.index)
    (hdirect : (!is_nothrow_copy_constructible_v tr (get_type ind Types) &&
      is_nothrow_move_constructible_v tr (get_type ind Types)) = false)
    (hx : (get ind other : Except (Fault E) _) = Except.ok x)
    (he : self.emplace tr ind (copy_construct_at tr (get_type ind Types)) x =
      (Except.ok y, s, a)) :
    copy_assign_visitor tr self other [ind] = some (Except.ok (), s) := by
  simp only [copy_assign_visitor, hne, ne_eq, not_false_eq_true, ↓reduceIte, hdirect,
    Bool.false_eq_true, hx, he]

theorem copy_assign_visitor_temporary (tr : alt_traits Ty E val)
    (self other temporary : variant val Types)
    (ind : Nat) (hne : ind ≠ self.index)
    (htemp : (!is_nothrow_copy_constructible_v tr (get_type ind Types) &&
      is_nothrow_move_constructible_v tr (get_type ind Types)) = true)
    (hc : other.copy_ctor tr = (Except.ok (), temporary)) :
    copy_assign_visitor tr self other [ind] =
      some ((self.move_assign tr temporary).1, (self.move_assign tr temporary).2.1) := by
  simp only [copy_assign_visitor, hne, ne_eq, not_false_eq_true, ↓reduceIte, htemp, hc]

theorem copy_assign_visitor_temporary_error (tr : alt_traits Ty E val)
    (self other temporary : variant val Types)
    (ind : Nat) (hne : ind ≠ self.index) (f : Fault E)
    (htemp : (!is_nothrow_copy_constructible_v tr (get_type ind Types) &&
      is_nothrow_move_constructible_v tr (get_type ind Types)) = true)
    (hc : other.copy_ctor tr = (Except.error f, temporary)) :
    copy_assign_visitor tr self other [ind] = some (Except.error f, self) := by
  simp only [copy_assign_visitor, hne, ne_eq, not_false_eq_true, ↓reduceIte, htemp, hc]

/-- Copy assignment from a valueless source into a container with a value, for every
alternative set: after `make_valueless()` the dispatch on `other.index()` is a lookup outside
the table. -/
theorem copy_assign_valueless_source (tr : alt_traits Ty E val) (self other : variant val Types)
    (hs : self.wf) (hsv : self.valueless_by_exception = false)
    (hov : other.valueless_by_exception = true) (hN : Types.length ≤ variant_npos) :
    ∃ s, self.make_valueless tr = some s ∧
      self.copy_assign tr other = (Except.error Fault.undefined_behaviour, s) := by
  obtain ⟨s, hs1, _⟩ := variant.make_valueless_wf tr self hs
  refine ⟨s, hs1, ?_⟩
  have hout : Types.length ≤ other.index := by
    rw [valueless_iff] at hov
    rw [variant.index, hov]
    exact hN
  simp only [variant.copy_assign, hov, ↓reduceIte, hsv, Bool.not_false, hs1,
    copy_assign_dispatch, visit_by_index_one_out _ other hout]

theorem move_assign_emplace_at (tr : alt_traits Ty E val) (self other : variant val Types)
    (hs : self.wf) (ho : other.wf) (hv : other.valueless_by_exception = false)
    (i : Nat) (hi : i = other.index) (hne : i ≠ self.index)
    (y z y1 : alt_val val (get_type i Types))
    (hy : (get i other : Except (Fault E) _) = Except.ok y)
    (hz : move_construct_at tr (get_type i Types) y = (Except.ok z, y1)) :
    ∃ s o1, self.move_assign tr other = (Except.ok (), s, o1) ∧ s.index = i ∧
      (get i s : Except (Fault E) _) = Except.ok z := by
  subst hi
  have hlt := index_lt_of_wf other ho hv
  obtain ⟨s, hs1, hidx, hg⟩ := variant.emplace_ok tr self hs other.index hlt _ y z y1 hz
  obtain ⟨_, hget⟩ := wf_of_get (E := E) s other.index hlt z hidx hg
  exact ⟨s, other.store other.index y1,
    move_assign_dispatch tr self other ho hv _
      (move_assign_visitor_emplace tr self other s _ y z y1 hne hy hs1),
    hidx, hget⟩

/-- C8: copy assignment `self = source` from a `source` that holds `x` at `i`, when no
operation of the alternative fails.  When `self` holds alternative `i` too, the result is
`self` with the payload that the copy assignment of alternative `i` leaves in it: the payload
is assigned in place, nothing is destroyed or constructed.  Otherwise `self` ends with
`index() == i` holding the copy made by the copy constructor of alternative `i` (moved in from
a temporary when the copy constructor may throw and the move constructor may not).  In each
case `get<i>(self)` is `get<i>(source)` when the operations yield the value they are given;
`source` is only read. -/
theorem copy_assign_from_value (tr : alt_traits Ty E val) (self source : variant val Types)
    (hs : self.wf) (ho : source.wf) (hv : source.valueless_by_exception = false) :
    ∃ x, (get source.index source : Except (Fault E) _) = Except.ok x ∧
      (self.index = source.index →
        ∃ a, (get source.index self : Except (Fault E) _) = Except.ok a ∧
          ∀ a1, copy_assign_at tr (get_type source.index Types) a x = (Except.ok (), a1) →
            self.copy_assign tr source = (Except.ok (), self.store source.index a1) ∧
            (self.store source.index a1).index = source.index ∧
            (get source.index (self.store source.index a1) : Except (Fault E) _) =
              Except.ok a1 ∧
            (a1 = x → (get source.index (self.store source.index a1) : Except (Fault E) _) =
              get source.index source)) ∧
      (self.index ≠ source.index →
        (!is_nothrow_copy_constructible_v tr (get_type source.index Types) &&
          is_nothrow_move_constructible_v tr (get_type source.index Types)) = false →
        ∀ y, (copy_construct_at tr (get_type source.index Types) x).1 = Except.ok y →
          ∃ s, self.copy_assign tr source = (Except.ok (), s) ∧ s.index = source.index ∧
            (get source.index s : Except (Fault E) _) = Except.ok y ∧
            (y = x → (get source.index s : Except (Fault E) _) = get source.index source)) ∧
      (self.index ≠ source.index →
        (!is_nothrow_copy_constructible_v tr (get_type source.index Types) &&
          is_nothrow_move_constructible_v tr (get_type source.index Types)) = true →
        ∀ y z y1, (copy_construct_at tr (get_type source.index Types) x).1 = Except.ok y →
          move_construct_at tr (get_type source.index Types) y = (Except.ok z, y1) →
          ∃ s, self.copy_assign tr source = (Except.ok (), s) ∧ s.index = source.index ∧
            (get source.index s : Except (Fault E) _) = Except.ok z ∧
            (z = x → (get source.index s : Except (Fault E) _) = get source.index source)) := by
  have hlt := index_lt_of_wf source ho hv
  obtain ⟨x, _, hx⟩ := get_of_index (E := E) source ho ((not_valueless_iff source).mp hv)
  refine ⟨x, hx, ?_, ?_, ?_⟩
  · intro heq
    have hsv : self.valueless_by_exception = false := by
      rw [not_valueless_iff]
      have := (not_valueless_iff source).mp hv
      rw [variant.index, variant.index] at heq
      rw [heq]
      exact this
    obtain ⟨a, ha, hst⟩ := get_and_store_at (E := E) self hs hsv source.index heq.symm
    refine ⟨a, ha, ?_⟩
    intro a1 hm
    refine ⟨copy_assign_dispatch_of tr self source ho hv _
      (copy_assign_visitor_assign tr self source _ a x a1 (Except.ok ()) heq.symm hx ha hm),
      heq, (hst a1).2, ?_⟩
    intro h
    rw [(hst a1).2, hx, h]
  · intro hne hdirect y hy
    have hc : copy_construct_at tr (get_type source.index Types) x = (Except.ok y, x) :=
      Prod.ext hy (copy_construct_at_snd tr _ x)
    obtain ⟨s, hs1, hidx, hg⟩ := variant.emplace_ok tr self hs source.index hlt _ x y x hc
    obtain ⟨_, hget⟩ := wf_of_get (E := E) s source.index hlt y hidx hg
    refine ⟨s, copy_assign_dispatch_of tr self source ho hv _
      (copy_assign_visitor_emplace tr self source s _ x y x (Ne.symm hne) hdirect hx hs1),
      hidx, hget, ?_⟩
    intro h
    rw [hget, hx, h]
  · intro hne htemp y z y1 hy hz
    obtain ⟨temporary, htmp, htidx, htg⟩ := copy_ctor_ok tr source ho hv x y hx hy
    obtain ⟨htwf, htget⟩ := wf_of_get (E := E) temporary source.index hlt y htidx htg
    have htv : temporary.valueless_by_exception = false := by
      rw [not_valueless_iff, htidx]
      exact (not_valueless_iff source).mp hv
    obtain ⟨s, t1, hmove, hidx, hget⟩ := move_assign_emplace_at tr self temporary hs htwf htv
      source.index htidx.symm (Ne.symm hne) y z y1 htget hz
    refine ⟨s, ?_, hidx, hget, ?_⟩
    · rw [copy_assign_dispatch_of tr self source ho hv _
        (copy_assign_visitor_temporary tr self source temporary _ (Ne.symm hne) htemp htmp),
        hmove]
    · intro h
      rw [hget, hx, h]

/-- C9: when `self` does not hold the alternative `i` of `source`, the copy constructor of
alternative `i` may throw and its move constructor may not, a copy of the value of `source`
that fails with `e` makes `self = source` throw `e` and leaves `self` exactly as it was: same
index, same storage. -/
theorem copy_assign_failure_keeps_self (tr : alt_traits Ty E val)
    (self source : variant val Types) (ho : source.wf)
    (hv : source.valueless_by_exception = false) (hne : self.index ≠ source.index)
    (hcopy : is_nothrow_copy_constructible_v tr (get_type source.index Types) = false)
    (hmove : is_nothrow_move_constructible_v tr (get_type source.index Types) = true)
    (x : alt_val val (get_type source.index Types)) (e : E)
    (hx : (get source.index source : Except (Fault E) _) = Except.ok x)
    (hfail : (copy_construct_at tr (get_type source.index Types) x).1 = Except.error e) :
    self.copy_assign tr source = (Except.error (Fault.alternative e), self) := by
  obtain ⟨temporary, htmp⟩ := copy_ctor_error tr source ho hv x e hx hfail
  exact copy_assign_dispatch_of tr self source ho hv _
    (copy_assign_visitor_temporary_error tr self source temporary _ (Ne.symm hne) _
      (by simp [hcopy, hmove]) htmp)

/-! ### `holds_alternative` -/

/-- C20: for a type `T` that occurs exactly once in the pack, at position `i`, and every
container `v`: `holds_alternative<T>(v)` is true exactly when `v.index() == i`, and it is false
when `v` is valueless. -/
theorem holds_alternative_iff_index [DecidableEq Ty] (T : Ty) (v : variant val Types)
    (hN : Types.length ≤ variant_npos) (hc : count_of T Types = 1)
    (i : Nat) (hT : get_type i Types = some T) :
    find_first_v T Types = i ∧
    (holds_alternative T v = true ↔ v.index = i) ∧
    (v.valueless_by_exception = true → holds_alternative T v = false) := by
  have hff : find_first_v T Types = i := by
    simpa [find_first_v] using find_first_of_unique T Types i 0 hc hT
  have hlt : i < Types.length := by
    by_contra hge
    have : ∀ (Ts : List Ty) (j : Nat), Ts.length ≤ j → get_type j Ts = none := by
      intro Ts
      induction Ts with
      | nil => intro j _; cases j <;> rfl
      | cons H Tl ih =>
        intro j hj
        cases j with
        | zero => simp at hj
        | succ j => exact ih j (by simpa using hj)
    rw [this Types i (by omega)] at hT
    cases hT
  refine ⟨hff, ?_, ?_⟩
  · simp only [holds_alternative, hff, beq_iff_eq]
    exact eq_comm
  · intro hv
    rw [valueless_iff] at hv
    have hne := ne_npos_of_lt hN i hlt
    simp only [holds_alternative, hff, variant.index, hv, beq_eq_false_iff_ne, ne_eq]
    exact hne

/-! ### Index-only dispatch -/

theorem create_matrix_by_index_ill_formed {R : Type} (sizes : List Nat)
    (h : table_builds sizes = false) :
    (create_matrix_by_index sizes : Option (table_type ×
      matrix ((List Nat → Option R) → Option R) (sizes.map List.range).length)) = none :=
  (create_func_matrix_base_in_builder R).ill_formed sizes h []

/-- C16: for containers `v1..vK` that all hold a value and whose alternative counts are such
that the index table builds, the cell of the table addressed by their active indices is the
closure built for exactly that index tuple, so `visit_by_index(f, v1..vK)` is `f` applied to the
tags `(i1, ..., iK)` with `ij = vj.index()`.  For all other alternative counts (the last is 1
under one that is more than 1, or one is 0) there is no table: the call is ill-formed. -/
theorem visit_by_index_resolves_indices {R : Type} (f : List Nat → Option R)
    (vars : List (any_variant val)) (hwf : ∀ v ∈ vars, v.2.wf)
    (hval : ∀ v ∈ vars, v.2.valueless_by_exception = false) :
    (table_builds (vars.map (fun v => v.1.length)) = true →
      ∃ m : table_type × matrix ((List Nat → Option R) → Option R) _,
        create_matrix_by_index (vars.map (fun v => v.1.length)) = some m ∧
        in_impl _ m.2 (vars.map (fun v => v.2.index)) =
          some (fun func : List Nat → Option R => func (vars.map (fun v => v.2.index))) ∧
        visit_by_index f vars = f (vars.map (fun v => v.2.index))) ∧
    (table_builds (vars.map (fun v => v.1.length)) = false →
      (create_matrix_by_index (vars.map (fun v => v.1.length)) : Option (table_type ×
        matrix ((List Nat → Option R) → Option R) _)) = none ∧
      visit_by_index f vars = none) := by
  refine ⟨fun hbuild => ?_, fun hbuild => ?_⟩
  · obtain ⟨m, hm⟩ := create_matrix_by_index_builds (R := R)
      (vars.map (fun v => v.1.length)) hbuild
    have hm1 : create_func_matrix_base_in []
        ((vars.map (fun v => v.1.length)).map List.range) = some m := hm
    have h := in_impl_by_index _ [] _ m hm1 (index_lt_size vars hwf hval)
    rw [List.nil_append] at h
    refine ⟨m, hm, h, ?_⟩
    simp only [visit_by_index, hm, h]
  · have hm := create_matrix_by_index_ill_formed (R := R) (vars.map (fun v => v.1.length)) hbuild
    refine ⟨hm, ?_⟩
    simp only [visit_by_index, hm]

/-! ### Construction -/

/-- C17: for a pack whose first alternative `Head` is default constructible, with
value-initialised value `x`, the default constructor makes a container with `index() == 0`
that is not valueless and whose `get<0>` is `x`. -/
theorem default_ctor_holds_first (dc : alt_default Ty E val) (Head : Ty) (Tail : List Ty)
    (x : val Head) (hd : dc.default_construct Head = some (Except.ok x)) :
    ∃ v : variant val (Head :: Tail),
      variant.default_ctor dc (Head :: Tail) = some (Except.ok v) ∧
      v.index = 0 ∧ v.valueless_by_exception = false ∧ v.wf ∧
      (get 0 v : Except (Fault E) _) = Except.ok x := by
  refine ⟨{ index_ := 0, storage := union_members.head x }, ?_, rfl, ?_, ?_, ?_⟩
  · simp [variant.default_ctor, get_type, variadic_union.default_ctor, hd]
  · rw [not_valueless_iff]
    show (0 : Nat) ≠ variant_npos
    decide
  · exact Or.inr ⟨by simp, rfl⟩
  · simp [get, variant.index, variadic_union.get]

/-! ### Relational operators -/

theorem relational_dispatch_at (op : (T : Ty) → val T → val T → Bool) (a b : variant val Types)
    (hb : b.wf) (hbv : b.valueless_by_exception = false) (i : Nat) (hib : i = b.index)
    (x y : alt_val val (get_type i Types))
    (hx : (get i a : Except (Fault E) _) = Except.ok x)
    (hy : (get i b : Except (Fault E) _) = Except.ok y) :
    (relational_dispatch op a b : Except (Fault E) Bool) =
      Except.ok (rel_at op (get_type i Types) x y) := by
  subst hib
  have hlt := index_lt_of_wf b hb hbv
  simp only [relational_dispatch, visit_by_index_one _ b hlt, relational_visitor, hx, hy]

theorem index_ne_of_valueless (a b : variant val Types)
    (ha : a.valueless_by_exception = true) (hb : b.valueless_by_exception = false) :
    a.index ≠ b.index := by
  rw [valueless_iff] at ha
  rw [not_valueless_iff] at hb
  intro h
  rw [variant.index, variant.index, ha] at h
  exact hb h.symm

theorem index_eq_of_valueless (a b : variant val Types)
    (ha : a.valueless_by_exception = true) (hb : b.valueless_by_exception = true) :
    a.index = b.index := by
  rw [valueless_iff] at ha hb
  rw [variant.index, variant.index, ha, hb]

theorem payloads_at_same_index (a b : variant val Types) (ha : a.wf) (hb : b.wf)
    (hav : a.valueless_by_exception = false) (hbv : b.valueless_by_exception = false)
    (h : a.index = b.index) :
    ∃ i, a.index = i ∧ b.index = i ∧ ∃ x y : alt_val val (get_type i Types),
      (get i a : Except (Fault E) _) = Except.ok x ∧
      (get i b : Except (Fault E) _) = Except.ok y := by
  obtain ⟨x, hx, _⟩ := get_and_store_at (E := E) a ha hav b.index h.symm
  obtain ⟨y, hy, _⟩ := get_and_store_at (E := E) b hb hbv b.index rfl
  exact ⟨b.index, h, rfl, x, y, hx, hy⟩

/-- The six situations of two containers and what `<`, `==` and `>` return in each of them. -/
theorem operators_by_case (rel : alt_relational Ty val) (a b : variant val Types)
    (ha : a.wf) (hb : b.wf) :
    (a.valueless_by_exception = true ∧ b.valueless_by_exception = true ∧
      (operator_lt rel a b : Except (Fault E) Bool) = Except.ok false ∧
      (operator_eq rel a b : Except (Fault E) Bool) = Except.ok true ∧
      (operator_gt rel a b : Except (Fault E) Bool) = Except.ok false) ∨
    (a.valueless_by_exception = false ∧ b.valueless_by_exception = true ∧
      (operator_lt rel a b : Except (Fault E) Bool) = Except.ok false ∧
      (operator_eq rel a b : Except (Fault E) Bool) = Except.ok false ∧
      (operator_gt rel a b : Except (Fault E) Bool) = Except.ok true) ∨
    (a.valueless_by_exception = true ∧ b.valueless_by_exception = false ∧
      (operator_lt rel a b : Except (Fault E) Bool) = Except.ok true ∧
      (operator_eq rel a b : Except (Fault E) Bool) = Except.ok false ∧
      (operator_gt rel a b : Except (Fault E) Bool) = Except.ok false) ∨
    (a.valueless_by_exception = false ∧ b.valueless_by_exception = false ∧
      a.index < b.index ∧
      (operator_lt rel a b : Except (Fault E) Bool) = Except.ok true ∧
      (operator_eq rel a b : Except (Fault E) Bool) = Except.ok false ∧
      (operator_gt rel a b : Except (Fault E) Bool) = Except.ok false) ∨
    (a.valueless_by_exception = false ∧ b.valueless_by_exception = false ∧
      b.index < a.index ∧
      (operator_lt rel a b : Except (Fault E) Bool) = Except.ok false ∧
      (operator_eq rel a b : Except (Fault E) Bool) = Except.ok false ∧
      (operator_gt rel a b : Except (Fault E) Bool) = Except.ok true) ∨
    (a.valueless_by_exception = false ∧ b.valueless_by_exception = false ∧
      ∃ i, a.index = i ∧ b.index = i ∧ ∃ x y : alt_val val (get_type i Types),
        (get i a : Except (Fault E) _) = Except.ok x ∧
        (get i b : Except (Fault E) _) = Except.ok y ∧
        (operator_lt rel a b : Except (Fault E) Bool) =
          Except.ok (rel_at rel.lt (get_type i Types) x y) ∧
        (operator_eq rel a b : Except (Fault E) Bool) =
          Except.ok (rel_at rel.eq (get_type i Types) x y) ∧
        (operator_gt rel a b : Except (Fault E) Bool) =
          Except.ok (rel_at rel.gt (get_type i Types) x y)) := by
  cases hav : a.valueless_by_exception <;> cases hbv : b.valueless_by_exception
  · rcases Nat.lt_trichotomy a.index b.index with h | h | h
    · right; right; right; left
      have hne : a.index ≠ b.index := Nat.ne_of_lt h
      refine ⟨rfl, rfl, h, ?_, ?_, ?_⟩
      · simp [operator_lt, hav, hbv, h]
      · simp [operator_eq, hne]
      · simp [operator_gt, hav, hbv, h, Nat.lt_asymm h]
    · right; right; right; right; right
      obtain ⟨i, hia, hib, x, y, hx, hy⟩ := payloads_at_same_index (E := E) a b ha hb hav hbv h
      refine ⟨rfl, rfl, i, hia, hib, x, y, hx, hy, ?_, ?_, ?_⟩
      · simp only [operator_lt, hav, hbv, h, Bool.false_eq_true, ↓reduceIte, lt_self_iff_false,
          gt_iff_lt]
        exact relational_dispatch_at rel.lt a b hb hbv i hib.symm x y hx hy
      · simp only [operator_eq, h, ne_eq, not_true_eq_false, ↓reduceIte, hav,
          Bool.false_eq_true]
        exact relational_dispatch_at rel.eq a b hb hbv i hib.symm x y hx hy
      · simp only [operator_gt, hav, hbv, h, Bool.false_eq_true, ↓reduceIte, lt_self_iff_false,
          gt_iff_lt]
        exact relational_dispatch_at rel.gt a b hb hbv i hib.symm x y hx hy
    · right; right; right; right; left
      have hne : a.index ≠ b.index := Nat.ne_of_gt h
      refine ⟨rfl, rfl, h, ?_, ?_, ?_⟩
      · simp [operator_lt, hav, hbv, h, Nat.lt_asymm h]
      · simp [operator_eq, hne]
      · simp [operator_gt, hav, hbv, h]
  · right; left
    have hne : a.index ≠ b.index := (index_ne_of_valueless b a hbv hav).symm
    refine ⟨rfl, rfl, ?_, ?_, ?_⟩
    · simp [operator_lt, hbv]
    · simp [operator_eq, hne]
    · simp [operator_gt, hav, hbv]
  · right; right; left
    have hne : a.index ≠ b.index := index_ne_of_valueless a b hav hbv
    refine ⟨rfl, rfl, ?_, ?_, ?_⟩
    · simp [operator_lt, hav, hbv]
    · simp [operator_eq, hne]
    · simp [operator_gt, hav]
  · left
    have heq : a.index = b.index := index_eq_of_valueless a b hav hbv
    refine ⟨rfl, rfl, ?_, ?_, ?_⟩
    · simp [operator_lt, hbv]
    · simp [operator_eq, heq, hav]
    · simp [operator_gt, hav]

/-- C13: `<` and `==` on containers are the lexicographic order on (active index with valueless
lowest, payload).  Both return; `a < b` is true exactly when `b` has a value and `a` is
valueless, or `a.index() < b.index()`, or both indices are some `i` and
`get<i>(a) < get<i>(b)`; `a == b` is true exactly when the indices are equal and both are
valueless or `get<i>(a) == get<i>(b)`.  So a valueless container is below every container with
a value and equal to every valueless one. -/
theorem relational_lexicographic (E : Type) (rel : alt_relational Ty val)
    (a b : variant val Types) (ha : a.wf) (hb : b.wf) :
    (∃ r, (operator_lt rel a b : Except (Fault E) Bool) = Except.ok r ∧
      (r = true ↔ b.valueless_by_exception = false ∧
        (a.valueless_by_exception = true ∨ a.index < b.index ∨
          ∃ i, a.index = i ∧ b.index = i ∧ ∃ x y : alt_val val (get_type i Types),
            (get i a : Except (Fault E) _) = Except.ok x ∧
            (get i b : Except (Fault E) _) = Except.ok y ∧
            rel_at rel.lt (get_type i Types) x y = true))) ∧
    (∃ r, (operator_eq rel a b : Except (Fault E) Bool) = Except.ok r ∧
      (r = true ↔ a.index = b.index ∧
        ((a.valueless_by_exception = true ∧ b.valueless_by_exception = true) ∨
          ∃ i, a.index = i ∧ b.index = i ∧ ∃ x y : alt_val val (get_type i Types),
            (get i a : Except (Fault E) _) = Except.ok x ∧
            (get i b : Except (Fault E) _) = Except.ok y ∧
            rel_at rel.eq (get_type i Types) x y = true))) ∧
    (a.valueless_by_exception = true → b.valueless_by_exception = false →
      (operator_lt rel a b : Except (Fault E) Bool) = Except.ok true ∧
      (operator_eq rel a b : Except (Fault E) Bool) = Except.ok false) ∧
    (a.valueless_by_exception = true → b.valueless_by_exception = true →
      (operator_lt rel a b : Except (Fault E) Bool) = Except.ok false ∧
      (operator_eq rel a b : Except (Fault E) Bool) = Except.ok true) := by
  have hpay : ∀ i, a.index = i → b.index = i → ∀ x y x1 y1 : alt_val val (get_type i Types),
      (get i a : Except (Fault E) _) = Except.ok x →
      (get i b : Except (Fault E) _) = Except.ok y →
      (get i a : Except (Fault E) _) = Except.ok x1 →
      (get i b : Except (Fault E) _) = Except.ok y1 → x1 = x ∧ y1 = y := by
    intro i _ _ x y x1 y1 hx hy hx1 hy1
    rw [hx] at hx1
    rw [hy] at hy1
    exact ⟨(Except.ok.inj hx1).symm, (Except.ok.inj hy1).symm⟩
  rcases operators_by_case (E := E) rel a b ha hb with
    ⟨hav, hbv, hlt, heq, _⟩ | ⟨hav, hbv, hlt, heq, _⟩ | ⟨hav, hbv, hlt, heq, _⟩ |
    ⟨hav, hbv, hidx, hlt, heq, _⟩ | ⟨hav, hbv, hidx, hlt, heq, _⟩ |
    ⟨hav, hbv, i, hia, hib, x, y, hx, hy, hlt, heq, _⟩
  · refine ⟨⟨false, hlt, by simp [hbv]⟩, ⟨true, heq, ?_⟩, ?_, fun _ _ => ⟨hlt, heq⟩⟩
    · simp [hav, hbv, index_eq_of_valueless a b hav hbv]
    · intro _ h
      rw [hbv] at h
      cases h
  · refine ⟨⟨false, hlt, by simp [hbv]⟩, ⟨false, heq, ?_⟩, ?_, ?_⟩
    · simp [(index_ne_of_valueless b a hbv hav).symm]
    · intro h
      rw [hav] at h
      cases h
    · intro h
      rw [hav] at h
      cases h
  · refine ⟨⟨true, hlt, by simp [hav, hbv]⟩, ⟨false, heq, ?_⟩, fun _ _ => ⟨hlt, heq⟩, ?_⟩
    · simp [index_ne_of_valueless a b hav hbv]
    · intro _ h
      rw [hbv] at h
      cases h
  · refine ⟨⟨true, hlt, by simp [hbv, hidx]⟩, ⟨false, heq, ?_⟩, ?_, ?_⟩
    · simp [Nat.ne_of_lt hidx]
    · intro h
      rw [hav] at h
      cases h
    · intro h
      rw [hav] at h
      cases h
  · refine ⟨⟨false, hlt, ?_⟩, ⟨false, heq, ?_⟩, ?_, ?_⟩
    · simp only [Bool.false_eq_true, hbv, hav, false_or, true_and, false_iff, not_or,
        not_exists, not_and]
      refine ⟨Nat.lt_asymm hidx, ?_⟩
      intro j hja hjb
      rw [hja, hjb] at hidx
      exact absurd hidx (Nat.lt_irrefl _)
    · simp [Nat.ne_of_gt hidx]
    · intro h
      rw [hav] at h
      cases h
    · intro h
      rw [hav] at h
      cases h
  · refine ⟨⟨_, hlt, ?_⟩, ⟨_, heq, ?_⟩, ?_, ?_⟩
    · constructor
      · intro h
        exact ⟨hbv, Or.inr (Or.inr ⟨i, hia, hib, x, y, hx, hy, h⟩)⟩
      · rintro ⟨_, h | h | ⟨j, hja, hjb, x1, y1, hx1, hy1, h⟩⟩
        · rw [hav] at h
          cases h
        · rw [hia, hib] at h
          exact absurd h (Nat.lt_irrefl _)
        · have hji : j = i := hja.symm.trans hia
          subst hji
          obtain ⟨h1, h2⟩ := hpay j hia hib x y x1 y1 hx hy hx1 hy1
          subst h1 h2
          exact h
    · constructor
      · intro h
        exact ⟨hia.trans hib.symm, Or.inr ⟨i, hia, hib, x, y, hx, hy, h⟩⟩
      · rintro ⟨_, ⟨h, _⟩ | ⟨j, hja, hjb, x1, y1, hx1, hy1, h⟩⟩
        · rw [hav] at h
          cases h
        · have hji : j = i := hja.symm.trans hia
          subst hji
          obtain ⟨h1, h2⟩ := hpay j hia hib x y x1 y1 hx hy hx1 hy1
          subst h1 h2
          exact h
    · intro h
      rw [hav] at h
      cases h
    · intro h
      rw [hav] at h
      cases h

theorem rel_at_trichotomy (rel : alt_relational Ty val)
    (htri : ∀ (T : Ty) (x y : val T), exactly_one (rel.lt T x y) (rel.eq T x y) (rel.gt T x y)) :
    (o : Option Ty) → (x y : alt_val val o) →
      exactly_one (rel_at rel.lt o x y) (rel_at rel.eq o x y) (rel_at rel.gt o x y)
  | some T, x, y => htri T x y
  | none, x, _ => nomatch x

/-- C14: when `<`, `==` and `>` of every alternative satisfy trichotomy on its values, for
every two containers `A`, `B` (valueless or not) the operators `A < B`, `A == B` and `A > B`
return, and exactly one of them returns true. -/
theorem ordering_trichotomy (E : Type) (rel : alt_relational Ty val)
    (htri : ∀ (T : Ty) (x y : val T), exactly_one (rel.lt T x y) (rel.eq T x y) (rel.gt T x y))
    (A B : variant val Types) (hA : A.wf) (hB : B.wf) :
    ∃ l e g, (operator_lt rel A B : Except (Fault E) Bool) = Except.ok l ∧
      (operator_eq rel A B : Except (Fault E) Bool) = Except.ok e ∧
      (operator_gt rel A B : Except (Fault E) Bool) = Except.ok g ∧ exactly_one l e g := by
  rcases operators_by_case (E := E) rel A B hA hB with
    ⟨_, _, hlt, heq, hgt⟩ | ⟨_, _, hlt, heq, hgt⟩ | ⟨_, _, hlt, heq, hgt⟩ |
    ⟨_, _, _, hlt, heq, hgt⟩ | ⟨_, _, _, hlt, heq, hgt⟩ |
    ⟨_, _, i, _, _, x, y, _, _, hlt, heq, hgt⟩
  · exact ⟨_, _, _, hlt, heq, hgt, Or.inr (Or.inl ⟨rfl, rfl, rfl⟩)⟩
  · exact ⟨_, _, _, hlt, heq, hgt, Or.inr (Or.inr ⟨rfl, rfl, rfl⟩)⟩
  · exact ⟨_, _, _, hlt, heq, hgt, Or.inl ⟨rfl, rfl, rfl⟩⟩
  · exact ⟨_, _, _, hlt, heq, hgt, Or.inl ⟨rfl, rfl, rfl⟩⟩
  · exact ⟨_, _, _, hlt, heq, hgt, Or.inr (Or.inr ⟨rfl, rfl, rfl⟩)⟩
  · exact ⟨_, _, _, hlt, heq, hgt, rel_at_trichotomy rel htri _ x y⟩

theorem rel_at_total (rel : alt_relational Ty val)
    (htot : ∀ (T : Ty) (x y : val T),
      rel.lt T x y = true ∨ rel.eq T x y = true ∨ rel.lt T y x = true) :
    (o : Option Ty) → (x y : alt_val val o) →
      rel_at rel.lt o x y = true ∨ rel_at rel.eq o x y = true ∨ rel_at rel.lt o y x = true
  | some T, x, y => htot T x y
  | none, x, _ => nomatch x

theorem rel_at_irreflexive (op : (T : Ty) → val T → val T → Bool)
    (hirr : ∀ (T : Ty) (x : val T), op T x x = false) :
    (o : Option Ty) → (x : alt_val val o) → rel_at op o x x = false
  | some T, x => hirr T x
  | none, x => nomatch x

theorem rel_at_transitive (op : (T : Ty) → val T → val T → Bool)
    (htrans : ∀ (T : Ty) (x y z : val T), op T x y = true → op T y z = true → op T x z = true) :
    (o : Option Ty) → (x y z : alt_val val o) →
      rel_at op o x y = true → rel_at op o y z = true → rel_at op o x z = true
  | some T, x, y, z => htrans T x y z
  | none, x, _, _ => nomatch x

theorem operator_lt_true_cases (rel : alt_relational Ty val) (a b : variant val Types)
    (ha : a.wf) (hb : b.wf)
    (h : (operator_lt rel a b : Except (Fault E) Bool) = Except.ok true) :
    b.valueless_by_exception = false ∧
    (a.valueless_by_exception = true ∨
      (a.valueless_by_exception = false ∧ a.index < b.index) ∨
      (a.valueless_by_exception = false ∧
        ∃ i, a.index = i ∧ b.index = i ∧ ∃ x y : alt_val val (get_type i Types),
          (get i a : Except (Fault E) _) = Except.ok x ∧
          (get i b : Except (Fault E) _) = Except.ok y ∧
          rel_at rel.lt (get_type i Types) x y = true)) := by
  rcases operators_by_case (E := E) rel a b ha hb with
    ⟨_, _, hlt, _, _⟩ | ⟨_, _, hlt, _, _⟩ | ⟨hav, hbv, _, _, _⟩ |
    ⟨hav, hbv, hidx, _, _, _⟩ | ⟨_, _, _, hlt, _, _⟩ |
    ⟨hav, hbv, i, hia, hib, x, y, hx, hy, hlt, _, _⟩
  · rw [hlt] at h; cases h
  · rw [hlt] at h; cases h
  · exact ⟨hbv, Or.inl hav⟩
  · exact ⟨hbv, Or.inr (Or.inl ⟨hav, hidx⟩)⟩
  · rw [hlt] at h; cases h
  · rw [hlt] at h
    exact ⟨hbv, Or.inr (Or.inr ⟨hav, i, hia, hib, x, y, hx, hy, Except.ok.inj h⟩)⟩

theorem operator_lt_of_valueless (rel : alt_relational Ty val) (a b : variant val Types)
    (hav : a.valueless_by_exception = true) (hbv : b.valueless_by_exception = false) :
    (operator_lt rel a b : Except (Fault E) Bool) = Except.ok true := by
  simp [operator_lt, hav, hbv]

theorem operator_lt_of_index_lt (rel : alt_relational Ty val) (a b : variant val Types)
    (hav : a.valueless_by_exception = false) (hbv : b.valueless_by_exception = false)
    (h : a.index < b.index) :
    (operator_lt rel a b : Except (Fault E) Bool) = Except.ok true := by
  simp [operator_lt, hav, hbv, h]

theorem operator_lt_of_payload (rel : alt_relational Ty val) (a b : variant val Types)
    (hb : b.wf)
    (hav : a.valueless_by_exception = false) (hbv : b.valueless_by_exception = false)
    (i : Nat) (hia : a.index = i) (hib : b.index = i) (x y : alt_val val (get_type i Types))
    (hx : (get i a : Except (Fault E) _) = Except.ok x)
    (hy : (get i b : Except (Fault E) _) = Except.ok y) :
    (operator_lt rel a b : Except (Fault E) Bool) =
      Except.ok (rel_at rel.lt (get_type i Types) x y) := by
  simp only [operator_lt, hav, hbv, hia, hib, Bool.false_eq_true, ↓reduceIte,
    lt_self_iff_false, gt_iff_lt]
  exact relational_dispatch_at rel.lt a b hb hbv i hib.symm x y hx hy

/-- C15 (amended): when `<` of every alternative is irreflexive and transitive, `<` on
containers (valueless ones included) is irreflexive and transitive, a strict partial order; it
is total (of two containers one is below the other or they are equal) when moreover of two
values of an alternative one is below the other or they are equal. -/
theorem operator_lt_strict_order (E : Type) (rel : alt_relational Ty val)
    (hirr : ∀ (T : Ty) (x : val T), rel.lt T x x = false)
    (htrans : ∀ (T : Ty) (x y z : val T),
      rel.lt T x y = true → rel.lt T y z = true → rel.lt T x z = true) :
    (∀ a : variant val Types, a.wf →
      (operator_lt rel a a : Except (Fault E) Bool) = Except.ok false) ∧
    (∀ a b c : variant val Types, a.wf → b.wf → c.wf →
      (operator_lt rel a b : Except (Fault E) Bool) = Except.ok true →
      (operator_lt rel b c : Except (Fault E) Bool) = Except.ok true →
      (operator_lt rel a c : Except (Fault E) Bool) = Except.ok true) ∧
    ((∀ (T : Ty) (x y : val T),
        rel.lt T x y = true ∨ rel.eq T x y = true ∨ rel.lt T y x = true) →
      ∀ a b : variant val Types, a.wf → b.wf →
        (operator_lt rel a b : Except (Fault E) Bool) = Except.ok true ∨
        (operator_eq rel a b : Except (Fault E) Bool) = Except.ok true ∨
        (operator_lt rel b a : Except (Fault E) Bool) = Except.ok true) := by
  refine ⟨?_, ?_, ?_⟩
  · intro a ha
    rcases operators_by_case (E := E) rel a a ha ha with
      ⟨_, _, hlt, _, _⟩ | ⟨h1, h2, _⟩ | ⟨h1, h2, _⟩ |
      ⟨_, _, h, _⟩ | ⟨_, _, h, _⟩ |
      ⟨_, _, i, _, _, x, y, hx, hy, hlt, _, _⟩
    · exact hlt
    · rw [h1] at h2; cases h2
    · rw [h1] at h2; cases h2
    · exact absurd h (Nat.lt_irrefl _)
    · exact absurd h (Nat.lt_irrefl _)
    · rw [hx] at hy
      have hxy : x = y := Except.ok.inj hy
      subst hxy
      rw [hlt, rel_at_irreflexive rel.lt hirr _ x]
  · intro a b c ha hb hc hab hbc
    obtain ⟨hbv, hab1⟩ := operator_lt_true_cases rel a b ha hb hab
    obtain ⟨hcv, hbc1⟩ := operator_lt_true_cases rel b c hb hc hbc
    rcases hab1 with hav | ⟨hav, hlt1⟩ | ⟨hav, i, hia, hib, x, y, hx, hy, hxy⟩
    · exact operator_lt_of_valueless rel a c hav hcv
    · rcases hbc1 with h | ⟨_, hlt2⟩ | ⟨_, j, hjb, hjc, _, _, _, _, _⟩
      · rw [hbv] at h; cases h
      · exact operator_lt_of_index_lt rel a c hav hcv (Nat.lt_trans hlt1 hlt2)
      · exact operator_lt_of_index_lt rel a c hav hcv (by rw [hjc, ← hjb]; exact hlt1)
    · rcases hbc1 with h | ⟨_, hlt2⟩ | ⟨_, j, hjb, hjc, y1, z, hy1, hz, hyz⟩
      · rw [hbv] at h; cases h
      · exact operator_lt_of_index_lt rel a c hav hcv (by rw [hia, ← hib]; exact hlt2)
      · have hji : j = i := hjb.symm.trans hib
        subst hji
        rw [hy] at hy1
        have hyy : y = y1 := Except.ok.inj hy1
        subst hyy
        rw [operator_lt_of_payload rel a c hc hav hcv j hia hjc x z hx hz,
          rel_at_transitive rel.lt htrans _ x y z hxy hyz]
  · intro htot a b ha hb
    rcases operators_by_case (E := E) rel a b ha hb with
      ⟨_, _, _, heq, _⟩ | ⟨hav, hbv, _⟩ | ⟨_, _, hlt, _, _⟩ |
      ⟨_, _, _, hlt, _, _⟩ | ⟨hav, hbv, hidx, _⟩ |
      ⟨hav, hbv, i, hia, hib, x, y, hx, hy, hlt, heq, _⟩
    · exact Or.inr (Or.inl heq)
    · exact Or.inr (Or.inr (operator_lt_of_valueless rel b a hbv hav))
    · exact Or.inl hlt
    · exact Or.inl hlt
    · exact Or.inr (Or.inr (operator_lt_of_index_lt rel b a hbv hav hidx))
    · have hba := operator_lt_of_payload (E := E) rel b a ha hbv hav i hib hia y x hy hx
      rcases rel_at_total rel htot _ x y with h | h | h
      · exact Or.inl (by rw [hlt, h])
      · exact Or.inr (Or.inl (by rw [heq, h]))
      · exact Or.inr (Or.inr (by rw [hba, h]))

/-! ### Swap -/

theorem variadic_union.get_past_end : (Types : List Ty) → (i : Nat) → Types.length ≤ i →
    (u : variadic_union val Types) → variadic_union.get Types i u = none
  | [], _, _, _ => rfl
  | _ :: _, 0, h, _ => by simp at h
  | _ :: Tail, i + 1, h, union_members.tail t => by
    simp only [variadic_union.get]
    exact variadic_union.get_past_end Tail i (by simpa using h) t
  | _ :: _, _ + 1, _, union_members.dead => rfl
  | _ :: _, _ + 1, _, union_members.head _ => rfl

theorem get_of_valueless (v : variant val Types) (hN : Types.length ≤ variant_npos)
    (hv : v.valueless_by_exception = true) (i : Nat) :
    (get i v : Except (Fault E) _) =
      if i = variant_npos then Except.error Fault.undefined_behaviour
      else Except.error Fault.bad_variant_access := by
  rw [valueless_iff] at hv
  by_cases hi : i = variant_npos
  · subst hi
    simp [get, variant.index, hv, variadic_union.get_past_end Types variant_npos hN]
  · simp [get, variant.index, hv, hi]

theorem same_state_of (u v : variant val Types)
    (hN : Types.length ≤ variant_npos) (hidx : u.index = v.index)
    (h : v.valueless_by_exception = false →
      ∃ i, v.index = i ∧ ∃ x : alt_val val (get_type i Types),
        (get i v : Except (Fault E) _) = Except.ok x ∧
        (get i u : Except (Fault E) _) = Except.ok x) :
    same_state E u v := by
  refine ⟨hidx, ?_⟩
  intro i
  cases hvv : v.valueless_by_exception
  · obtain ⟨j, hj, x, hx, hxu⟩ := h hvv
    by_cases hij : i = j
    · subst hij
      rw [hx, hxu]
    · rw [get_of_ne u i (by rw [hidx, hj]; exact hij), get_of_ne v i (by rw [hj]; exact hij)]
  · have huv : u.valueless_by_exception = true := by
      rw [valueless_iff] at hvv ⊢
      rw [variant.index, variant.index] at hidx
      rw [hidx]
      exact hvv
    rw [get_of_valueless u hN huv, get_of_valueless v hN hvv]

theorem same_state_trans (u v w : variant val Types) (h1 : same_state E u v)
    (h2 : same_state E v w) : same_state E u w :=
  ⟨h1.1.trans h2.1, fun i => (h1.2 i).trans (h2.2 i)⟩

theorem move_construct_at_faithful (tr : alt_traits Ty E val)
    (hmove : ∀ (T : Ty) (x : val T), (tr.move_construct T x).1 = Except.ok x) :
    (o : Option Ty) → (x : alt_val val o) →
      ∃ x1, move_construct_at tr o x = (Except.ok x, x1)
  | some T, x => ⟨(tr.move_construct T x).2, Prod.ext (hmove T x) rfl⟩
  | none, x => nomatch x

theorem swap_at_faithful (sw : alt_swap Ty E val)
    (hswap : ∀ (T : Ty) (a b : val T), sw.swap T a b = (Except.ok (), b, a)) :
    (o : Option Ty) → (a b : alt_val val o) → swap_at sw o a b = (Except.ok (), b, a)
  | some T, a, b => hswap T a b
  | none, a, _ => nomatch a

theorem vstorage.set_constructs {Args : Type} (self : variant val Types) (Index : Nat)
    (hi : Index < Types.length)
    (construct : Args → Except E (alt_val val (get_type Index Types)) × Args) (args : Args)
    (x : alt_val val (get_type Index Types)) (args1 : Args)
    (hc : construct args = (Except.ok x, args1)) :
    ∃ s, vstorage.set Index construct args self = (Except.ok x, s, args1) ∧ s.index_ = Index ∧
      variadic_union.get Types Index s.storage = some x := by
  have hset := variadic_union.set_ok Types Index hi construct args self.storage x args1 hc
  simp only [vstorage.set]
  rcases hq : variadic_union.set Types Index construct args self.storage with ⟨⟨r, a⟩, st⟩
  rw [hq] at hset
  simp only [Prod.mk.injEq] at hset
  obtain ⟨⟨hr, ha⟩, hg⟩ := hset
  subst hr ha
  exact ⟨_, rfl, rfl, hg⟩

theorem wf_of_valueless (v : variant val Types) (hv : v.valueless_by_exception = true) : v.wf :=
  Or.inl ((valueless_iff v).mp hv)

theorem same_state_valueless (u v : variant val Types) (hN : Types.length ≤ variant_npos)
    (hu : u.valueless_by_exception = true) (hv : v.valueless_by_exception = true) :
    same_state E u v := by
  refine same_state_of u v hN (index_eq_of_valueless u v hu hv) ?_
  intro h
  rw [hv] at h
  cases h

theorem same_state_holding (u v : variant val Types) (hN : Types.length ≤ variant_npos)
    (i : Nat) (hu : u.index = i) (hv : v.index = i) (x : alt_val val (get_type i Types))
    (hxu : (get i u : Except (Fault E) _) = Except.ok x)
    (hxv : (get i v : Except (Fault E) _) = Except.ok x) :
    same_state E u v :=
  same_state_of u v hN (hu.trans hv.symm) (fun _ => ⟨i, hv, x, hxv, hxu⟩)

theorem swap_both_valueless (tr : alt_traits Ty E val) (sw : alt_swap Ty E val)
    (A B : variant val Types) (hN : Types.length ≤ variant_npos)
    (hA : A.valueless_by_exception = true) (hB : B.valueless_by_exception = true) :
    ∃ A1 B1, A.swap tr sw B = (Except.ok (), A1, B1) ∧ A1.wf ∧ B1.wf ∧
      same_state E A1 B ∧ same_state E B1 A :=
  ⟨A, B, by simp [variant.swap, hA, hB], wf_of_valueless A hA, wf_of_valueless B hB,
    same_state_valueless A B hN hA hB, same_state_valueless B A hN hB hA⟩

theorem swap_into_valueless (tr : alt_traits Ty E val) (sw : alt_swap Ty E val)
    (hmove : ∀ (T : Ty) (x : val T), (tr.move_construct T x).1 = Except.ok x)
    (A B : variant val Types) (hN : Types.length ≤ variant_npos) (hBwf : B.wf)
    (hA : A.valueless_by_exception = true) (hB : B.valueless_by_exception = false) :
    ∃ A1 B1, A.swap tr sw B = (Except.ok (), A1, B1) ∧ A1.wf ∧ B1.wf ∧
      same_state E A1 B ∧ same_state E B1 A := by
  have hlt := index_lt_of_wf B hBwf hB
  obtain ⟨b, hb, hst⟩ := get_and_store_at (E := E) B hBwf hB B.index rfl
  obtain ⟨b1, hm⟩ := move_construct_at_faithful tr hmove (get_type B.index Types) b
  obtain ⟨A1, hA1, hidx, hg⟩ := variant.emplace_ok tr A (wf_of_valueless A hA) B.index hlt
    _ b b b1 hm
  obtain ⟨hA1wf, hA1get⟩ := wf_of_get (E := E) A1 B.index hlt b hidx hg
  obtain ⟨B2, hB2, hB2idx⟩ := variant.make_valueless_wf tr (B.store B.index b1) (hst b1).1
  have hB2v : B2.valueless_by_exception = true := (valueless_iff B2).mpr hB2idx
  refine ⟨A1, B2, ?_, hA1wf, wf_of_valueless B2 hB2v,
    same_state_holding A1 B hN B.index hidx rfl b hA1get hb,
    same_state_valueless B2 A hN hB2v hA⟩
  simp only [variant.swap, hA, hB, Bool.and_false, Bool.false_eq_true, ↓reduceIte,
    visit_by_index_one _ B hlt, move_ctor_visitor_ok tr A B A1 B.index b b b1 hb hA1, hB2]

theorem swap_set_visitor_ok (tr : alt_traits Ty E val) (self other s : variant val Types)
    (index : Nat) (x y x1 : alt_val val (get_type index Types))
    (hx : (get index self : Except (Fault E) _) = Except.ok x)
    (he : vstorage.set index (move_construct_at tr (get_type index Types)) x other =
      (Except.ok y, s, x1)) :
    swap_set_visitor tr self other [index] = some (Except.ok (), self.store index x1, s) := by
  simp only [swap_set_visitor, hx, he]

theorem swap_from_valueless (tr : alt_traits Ty E val) (sw : alt_swap Ty E val)
    (hmove : ∀ (T : Ty) (x : val T), (tr.move_construct T x).1 = Except.ok x)
    (A B : variant val Types) (hN : Types.length ≤ variant_npos) (hAwf : A.wf)
    (hA : A.valueless_by_exception = false) (hB : B.valueless_by_exception = true) :
    ∃ A1 B1, A.swap tr sw B = (Except.ok (), A1, B1) ∧ A1.wf ∧ B1.wf ∧
      same_state E A1 B ∧ same_state E B1 A := by
  have hlt := index_lt_of_wf A hAwf hA
  obtain ⟨a, ha, hst⟩ := get_and_store_at (E := E) A hAwf hA A.index rfl
  obtain ⟨a1, hm⟩ := move_construct_at_faithful tr hmove (get_type A.index Types) a
  obtain ⟨B1, hB1, hidx, hg⟩ := vstorage.set_constructs B A.index hlt _ a a a1 hm
  obtain ⟨hB1wf, hB1get⟩ := wf_of_get (E := E) B1 A.index hlt a hidx hg
  obtain ⟨A2, hA2, hA2idx⟩ := variant.make_valueless_wf tr (A.store A.index a1) (hst a1).1
  have hA2v : A2.valueless_by_exception = true := (valueless_iff A2).mpr hA2idx
  refine ⟨A2, B1, ?_, wf_of_valueless A2 hA2v, hB1wf,
    same_state_valueless A2 B hN hA2v hB,
    same_state_holding B1 A hN A.index hidx rfl a hB1get ha⟩
  simp only [variant.swap, hA, hB, Bool.false_and, Bool.false_eq_true, ↓reduceIte,
    visit_by_index_one _ A hlt, swap_set_visitor_ok tr A B B1 A.index a a a1 ha hB1, hA2]

theorem swap_same_visitor_ok (sw : alt_swap Ty E val) (self other : variant val Types)
    (index : Nat) (a b a1 b1 : alt_val val (get_type index Types))
    (ha : (get index self : Except (Fault E) _) = Except.ok a)
    (hb : (get index other : Except (Fault E) _) = Except.ok b)
    (hs : swap_at sw (get_type index Types) a b = (Except.ok (), a1, b1)) :
    swap_same_visitor sw self other [index] =
      some (Except.ok (), { self.store index a1 with index_ := other.index_ },
        { other.store index b1 with index_ := self.index_ }) := by
  simp only [swap_same_visitor, ha, hb, hs]

theorem swap_same_index (tr : alt_traits Ty E val) (sw : alt_swap Ty E val)
    (hswap : ∀ (T : Ty) (a b : val T), sw.swap T a b = (Except.ok (), b, a))
    (A B : variant val Types) (hN : Types.length ≤ variant_npos) (hAwf : A.wf) (hBwf : B.wf)
    (hA : A.valueless_by_exception = false) (hB : B.valueless_by_exception = false)
    (hidx : A.index = B.index) :
    ∃ A1 B1, A.swap tr sw B = (Except.ok (), A1, B1) ∧ A1.wf ∧ B1.wf ∧
      same_state E A1 B ∧ same_state E B1 A := by
  have hlt := index_lt_of_wf B hBwf hB
  obtain ⟨a, ha, hsta⟩ := get_and_store_at (E := E) A hAwf hA B.index hidx.symm
  obtain ⟨b, hb, hstb⟩ := get_and_store_at (E := E) B hBwf hB B.index rfl
  have hs := swap_at_faithful sw hswap (get_type B.index Types) a b
  have hii : A.index_ = B.index_ := hidx
  have hA1 : ({ A.store B.index b with index_ := B.index_ } : variant val Types) =
      A.store B.index b := by
    simp only [variant.store, hii]
  have hB1 : ({ B.store B.index a with index_ := A.index_ } : variant val Types) =
      B.store B.index a := by
    simp only [variant.store, hii]
  refine ⟨A.store B.index b, B.store B.index a, ?_, (hsta b).1, (hstb a).1,
    same_state_holding _ B hN B.index hidx rfl b (hsta b).2 hb,
    same_state_holding _ A hN B.index rfl hidx a (hstb a).2 ha⟩
  have hne : ¬ A.index ≠ B.index := fun h => h hidx
  simp only [variant.swap, hA, hB, Bool.false_and, Bool.false_eq_true, ↓reduceIte, hne,
    visit_by_index_one _ B hlt, swap_same_visitor_ok sw A B B.index a b b a ha hb hs, hA1, hB1]

theorem not_valueless_of_index (u v : variant val Types) (h : u.index = v.index)
    (hv : v.valueless_by_exception = false) : u.valueless_by_exception = false := by
  rw [not_valueless_iff] at hv ⊢
  rw [variant.index, variant.index] at h
  rw [h]
  exact hv

theorem move_ctor_full (tr : alt_traits Ty E val) (C : variant val Types) (hC : C.wf)
    (hv : C.valueless_by_exception = false) (i : Nat) (hi : i = C.index)
    (x y x1 : alt_val val (get_type i Types))
    (hx : (get i C : Except (Fault E) _) = Except.ok x)
    (hm : move_construct_at tr (get_type i Types) x = (Except.ok y, x1)) :
    ∃ D, C.move_ctor tr = (Except.ok (), D, C.store i x1) ∧ D.wf ∧ D.index = i ∧
      (get i D : Except (Fault E) _) = Except.ok y := by
  subst hi
  have hlt := index_lt_of_wf C hC hv
  obtain ⟨D, hD, hidx, hg⟩ := variant.emplace_ok tr (vstorage.undefined val Types)
    (vstorage.undefined_wf val Types) C.index hlt _ x y x1 hm
  obtain ⟨hDwf, hget⟩ := wf_of_get (E := E) D C.index hlt y hidx hg
  exact ⟨D, move_ctor_dispatch tr C hC hv _ (move_ctor_visitor_ok tr _ C D _ x y x1 hx hD),
    hDwf, hidx, hget⟩

theorem move_assign_full (tr : alt_traits Ty E val) (self other : variant val Types)
    (hs : self.wf) (ho : other.wf) (hv : other.valueless_by_exception = false)
    (i : Nat) (hi : i = other.index) (hne : i ≠ self.index)
    (y z y1 : alt_val val (get_type i Types))
    (hy : (get i other : Except (Fault E) _) = Except.ok y)
    (hz : move_construct_at tr (get_type i Types) y = (Except.ok z, y1)) :
    ∃ s, self.move_assign tr other = (Except.ok (), s, other.store i y1) ∧ s.wf ∧
      s.index = i ∧ (get i s : Except (Fault E) _) = Except.ok z := by
  subst hi
  have hlt := index_lt_of_wf other ho hv
  obtain ⟨s, hs1, hidx, hg⟩ := variant.emplace_ok tr self hs other.index hlt _ y z y1 hz
  obtain ⟨hswf, hget⟩ := wf_of_get (E := E) s other.index hlt z hidx hg
  exact ⟨s, move_assign_dispatch tr self other ho hv _
      (move_assign_visitor_emplace tr self other s _ y z y1 hne hy hs1),
    hswf, hidx, hget⟩

theorem swap_different_index (tr : alt_traits Ty E val) (sw : alt_swap Ty E val)
    (hmove : ∀ (T : Ty) (x : val T), (tr.move_construct T x).1 = Except.ok x)
    (A B : variant val Types) (hN : Types.length ≤ variant_npos) (hAwf : A.wf) (hBwf : B.wf)
    (hA : A.valueless_by_exception = false) (hB : B.valueless_by_exception = false)
    (hidx : A.index ≠ B.index) :
    ∃ A1 B1, A.swap tr sw B = (Except.ok (), A1, B1) ∧ A1.wf ∧ B1.wf ∧
      same_state E A1 B ∧ same_state E B1 A := by
  obtain ⟨a, ha, hsta⟩ := get_and_store_at (E := E) A hAwf hA A.index rfl
  obtain ⟨b, hb, hstb⟩ := get_and_store_at (E := E) B hBwf hB B.index rfl
  obtain ⟨a1, hma⟩ := move_construct_at_faithful tr hmove (get_type A.index Types) a
  obtain ⟨b1, hmb⟩ := move_construct_at_faithful tr hmove (get_type B.index Types) b
  -- `T tmp(std::move(other))`
  obtain ⟨tmp, h1, htwf, htidx, htget⟩ := move_ctor_full tr B hBwf hB B.index rfl b b b1 hb hmb
  have htv : tmp.valueless_by_exception = false := not_valueless_of_index tmp B htidx hB
  -- `other = std::move(*this)`
  obtain ⟨B2, h2, hB2wf, hB2idx, hB2get⟩ := move_assign_full tr (B.store B.index b1) A
    (hstb b1).1 hAwf hA A.index rfl hidx a a a1 ha hma
  -- `*this = std::move(tmp)`
  obtain ⟨b2, hmb2⟩ := move_construct_at_faithful tr hmove (get_type B.index Types) b
  obtain ⟨A2, h3, hA2wf, hA2idx, hA2get⟩ := move_assign_full tr (A.store A.index a1) tmp
    (hsta a1).1 htwf htv B.index htidx.symm (Ne.symm hidx) b b b2 htget hmb2
  refine ⟨A2, B2, ?_, hA2wf, hB2wf,
    same_state_holding A2 B hN B.index hA2idx rfl b hA2get hb,
    same_state_holding B2 A hN A.index hB2idx rfl a hB2get ha⟩
  simp only [variant.swap, hA, hB, Bool.false_and, Bool.false_eq_true, ↓reduceIte, hidx, ne_eq,
    not_false_eq_true, std_swap, h1, h2, h3]

/-- Swap exchanges the states of two containers, when the moves and swaps of the alternatives
succeed and preserve values. -/
theorem swap_exchanges (tr : alt_traits Ty E val) (sw : alt_swap Ty E val)
    (hmove : ∀ (T : Ty) (x : val T), (tr.move_construct T x).1 = Except.ok x)
    (hswap : ∀ (T : Ty) (a b : val T), sw.swap T a b = (Except.ok (), b, a))
    (A B : variant val Types) (hN : Types.length ≤ variant_npos) (hAwf : A.wf) (hBwf : B.wf) :
    ∃ A1 B1, A.swap tr sw B = (Except.ok (), A1, B1) ∧ A1.wf ∧ B1.wf ∧
      same_state E A1 B ∧ same_state E B1 A := by
  cases hA : A.valueless_by_exception <;> cases hB : B.valueless_by_exception
  · by_cases hidx : A.index = B.index
    · exact swap_same_index tr sw hswap A B hN hAwf hBwf hA hB hidx
    · exact swap_different_index tr sw hmove A B hN hAwf hBwf hA hB hidx
  · exact swap_from_valueless tr sw hmove A B hN hAwf hA hB
  · exact swap_into_valueless tr sw hmove A B hN hBwf hA hB
  · exact swap_both_valueless tr sw A B hN hA hB

/-- C11: for every two containers `A`, `B` of one alternative set, in each case (both
valueless; only `A` valueless; only `B` valueless; both with a value, at equal or at different
indices), `A.swap(B)` returns and exchanges the states: afterwards `A` has the (active index,
value) that `B` had and `B` has the one that `A` had, when the moves and swaps of the
alternatives succeed and preserve values.  With both valueless nothing is changed. -/
theorem swap_exchanges_states (tr : alt_traits Ty E val) (sw : alt_swap Ty E val)
    (hmove : ∀ (T : Ty) (x : val T), (tr.move_construct T x).1 = Except.ok x)
    (hswap : ∀ (T : Ty) (a b : val T), sw.swap T a b = (Except.ok (), b, a))
    (A B : variant val Types) (hN : Types.length ≤ variant_npos) (hA : A.wf) (hB : B.wf) :
    (∃ A1 B1, A.swap tr sw B = (Except.ok (), A1, B1) ∧
      same_state E A1 B ∧ same_state E B1 A) ∧
    (A.valueless_by_exception = true → B.valueless_by_exception = true →
      A.swap tr sw B = (Except.ok (), A, B)) := by
  constructor
  · obtain ⟨A1, B1, h, _, _, h1, h2⟩ := swap_exchanges tr sw hmove hswap A B hN hA hB
    exact ⟨A1, B1, h, h1, h2⟩
  · intro hAv hBv
    simp [variant.swap, hAv, hBv]

/-- C12: swap is an involution: for every two containers `A`, `B` of one alternative set,
valueless or not, `A.swap(B)` performed twice returns both times and leaves `A` and `B` with
their original (active index, value) pairs, when the moves and swaps of the alternatives
succeed and preserve values. -/
theorem swap_involution (tr : alt_traits Ty E val) (sw : alt_swap Ty E val)
    (hmove : ∀ (T : Ty) (x : val T), (tr.move_construct T x).1 = Except.ok x)
    (hswap : ∀ (T : Ty) (a b : val T), sw.swap T a b = (Except.ok (), b, a))
    (A B : variant val Types) (hN : Types.length ≤ variant_npos) (hA : A.wf) (hB : B.wf) :
    ∃ A1 B1 A2 B2, A.swap tr sw B = (Except.ok (), A1, B1) ∧
      A1.swap tr sw B1 = (Except.ok (), A2, B2) ∧
      same_state E A2 A ∧ same_state E B2 B := by
  obtain ⟨A1, B1, h1, hA1, hB1, hA1B, hB1A⟩ := swap_exchanges tr sw hmove hswap A B hN hA hB
  obtain ⟨A2, B2, h2, _, _, hA2B1, hB2A1⟩ := swap_exchanges tr sw hmove hswap A1 B1 hN hA1 hB1
  exact ⟨A1, B1, A2, B2, h1, h2, same_state_trans A2 B1 A hA2B1 hB1A,
    same_state_trans B2 A1 B hB2A1 hA1B⟩

/-! ### Converting construction -/

theorem get_type_lt_length : (Types : List Ty) → (i : Nat) → (T : Ty) →
    get_type i Types = some T → i < Types.length
  | [], _, _, h => by simp [get_type] at h
  | _ :: _, 0, _, _ => Nat.succ_pos _
  | _ :: Tail, i + 1, T, h => by
    have := get_type_lt_length Tail i T (by simpa [get_type] using h)
    simpa using this

theorem variadic_union.in_place_ok {Args : Type} : (Types : List Ty) → (Index : Nat) →
    Index < Types.length →
    (construct : Args → Except E (alt_val val (get_type Index Types)) × Args) → (args : Args) →
    (x : alt_val val (get_type Index Types)) → (args1 : Args) →
    construct args = (Except.ok x, args1) →
    ∃ st, variadic_union.in_place Types Index construct args = (Except.ok st, args1) ∧
      variadic_union.get Types Index st = some x
  | [], _, h, _, _, _, _, _ => absurd h (Nat.not_lt_zero _)
  | _ :: _, 0, _, construct, args, x, args1, hc => by
    simp [variadic_union.in_place, hc, variadic_union.get]
  | _ :: Tail, i + 1, h, construct, args, x, args1, hc => by
    obtain ⟨st, hst, hg⟩ := variadic_union.in_place_ok Tail i (Nat.lt_of_succ_lt_succ h)
      construct args x args1 hc
    refine ⟨union_members.tail st, ?_, ?_⟩
    · simp only [variadic_union.in_place]
      rw [hst]
    · simpa [variadic_union.get, variadic_union.tail_member] using hg

theorem variadic_union.in_place_error {Args : Type} : (Types : List Ty) → (Index : Nat) →
    (construct : Args → Except E (alt_val val (get_type Index Types)) × Args) → (args : Args) →
    (e : E) → (args1 : Args) →
    construct args = (Except.error e, args1) →
    variadic_union.in_place Types Index construct args = (Except.error e, args1)
  | [], _, construct, args, e, args1, hc => by
    simp [variadic_union.in_place, hc]
  | _ :: _, 0, construct, args, e, args1, hc => by
    simp [variadic_union.in_place, hc]
  | _ :: Tail, i + 1, construct, args, e, args1, hc => by
    have ih := variadic_union.in_place_error Tail i construct args e args1 hc
    simp only [variadic_union.in_place]
    rw [ih]

theorem vstorage.in_place_constructs {Args : Type} (Index : Nat) (hi : Index < Types.length)
    (construct : Args → Except E (alt_val val (get_type Index Types)) × Args) (args : Args)
    (x : alt_val val (get_type Index Types)) (args1 : Args)
    (hc : construct args = (Except.ok x, args1)) :
    ∃ v : variant val Types, vstorage.in_place Index construct args = (Except.ok v, args1) ∧
      v.index_ = Index ∧ variadic_union.get Types Index v.storage = some x := by
  obtain ⟨st, hst, hg⟩ := variadic_union.in_place_ok Types Index hi construct args x args1 hc
  refine ⟨{ index_ := Index, storage := st }, ?_, rfl, hg⟩
  simp only [vstorage.in_place]
  rw [hst]

theorem vstorage.in_place_throws {Args : Type} (Index : Nat)
    (construct : Args → Except E (alt_val val (get_type Index Types)) × Args) (args : Args)
    (e : E) (args1 : Args) (hc : construct args = (Except.error e, args1)) :
    (vstorage.in_place Index construct args : Except (Fault E) (variant val Types) × Args) =
      (Except.error (Fault.alternative e), args1) := by
  have h := variadic_union.in_place_error Types Index construct args e args1 hc
  simp only [vstorage.in_place]
  rw [h]

/-- An overload of `best_construct_type<T, k, Types...>` stands for the first occurrence of its
parameter type in the pack. -/
theorem best_construct_type_first [DecidableEq Ty] : (Types : List Ty) → (k i : Nat) → (T : Ty) →
    (i, T) ∈ best_construct_type k Types →
    ∃ j, i = k + j ∧ get_type j Types = some T ∧ ∀ j1, j1 < j → get_type j1 Types ≠ some T
  | [], _, _, _, h => by simp [best_construct_type] at h
  | Var :: Tail, k, i, T, h => by
    simp only [best_construct_type, List.mem_cons, Prod.mk.injEq, List.mem_filter,
      decide_eq_true_eq] at h
    rcases h with ⟨hi, hT⟩ | ⟨hmem, hne⟩
    · exact ⟨0, by simp [hi], by simp [get_type, hT], fun j1 h1 => absurd h1 (Nat.not_lt_zero _)⟩
    · obtain ⟨j, hj, hg, hfirst⟩ := best_construct_type_first Tail (k + 1) i T hmem
      refine ⟨j + 1, by omega, by simpa [get_type] using hg, ?_⟩
      intro j1 h1
      cases j1 with
      | zero =>
        simp only [get_type]
        intro hc
        exact hne (Option.some.inj hc).symm
      | succ j2 =>
        simp only [get_type]
        exact hfirst j2 (Nat.lt_of_succ_lt_succ h1)

/-- The overload that overload resolution selects is viable and better than every other viable
one. -/
theorem overload_resolution_best {From : Type} (cv : conversion Ty E val From)
    (overloads : List (Nat × Ty)) (c : Nat × Ty) (h : overload_resolution cv overloads = some c) :
    c ∈ overloads ∧ cv.viable c.2 = true ∧
      ∀ d, d ∈ overloads → cv.viable d.2 = true →
        d.1 = c.1 ∨ cv.better c.2 d.2 = true := by
  unfold overload_resolution at h
  generalize hl : (overloads.filter (fun c => cv.viable c.2)).filter
      (fun c => (overloads.filter (fun d => cv.viable d.2)).all
        (fun d => decide (d.1 = c.1) || cv.better c.2 d.2)) = best at h
  match best, h with
  | [c1], h =>
    simp only [Option.some.injEq] at h
    subst h
    have hmem : c1 ∈ (overloads.filter (fun c => cv.viable c.2)).filter
      (fun c => (overloads.filter (fun d => cv.viable d.2)).all
        (fun d => decide (d.1 = c.1) || cv.better c.2 d.2)) := by rw [hl]; simp
    simp only [List.mem_filter, List.all_eq_true, Bool.or_eq_true, decide_eq_true_eq,
      and_imp] at hmem
    exact ⟨hmem.1.1, hmem.1.2, fun d hd hv => hmem.2 d hd hv⟩

theorem has_value_iff (hN : Types.length ≤ variant_npos) (v : variant val Types) :
    v.has_value ↔ v.wf ∧ v.valueless_by_exception = false := by
  constructor
  · intro h
    exact ⟨Or.inr h, (not_valueless_iff v).mpr (ne_npos_of_lt hN _ h.1)⟩
  · intro h
    rcases h.1 with hw | hw
    · exact absurd hw ((not_valueless_iff v).mp h.2)
    · exact hw

theorem index_of_get (v : variant val Types) (i : Nat) (x : alt_val val (get_type i Types))
    (h : (get i v : Except (Fault E) _) = Except.ok x) : i = v.index_ := by
  by_contra hne
  have := get_of_ne (E := E) v i hne
  rw [this] at h
  exact absurd h (by simp)

theorem store_has_value (v : variant val Types) (h : v.has_value) (i : Nat)
    (hi : i = v.index_) (y : alt_val val (get_type i Types)) : (v.store i y).has_value := by
  subst hi
  refine ⟨h.1, ?_⟩
  have := variadic_union.get_store Types v.index_ y v.storage h.2
  show (variadic_union.get Types v.index_
    (variadic_union.store Types v.index_ y v.storage)).isSome = true
  rw [this]
  rfl

theorem vstorage.set_has_value {Args : Type} (s : variant val Types) (Index : Nat)
    (hi : Index < Types.length)
    (construct : Args → Except E (alt_val val (get_type Index Types)) × Args) (args : Args)
    (x : alt_val val (get_type Index Types)) (s1 : variant val Types) (args1 : Args)
    (h : vstorage.set Index construct args s = (Except.ok x, s1, args1)) : s1.has_value := by
  rcases hc : construct args with ⟨r, a⟩
  cases r with
  | error e =>
    have herr := variadic_union.set_error Types Index construct args s.storage e a hc
    simp only [vstorage.set] at h
    rcases hq : variadic_union.set Types Index construct args s.storage with ⟨⟨r1, a1⟩, st⟩
    rw [hq] at h herr
    simp only [Prod.mk.injEq] at herr
    obtain ⟨hr, _⟩ := herr
    subst hr
    simp at h
  | ok y =>
    obtain ⟨s2, hs2, hidx, hget⟩ := vstorage.set_constructs s Index hi construct args y a hc
    rw [hs2] at h
    simp only [Prod.mk.injEq] at h
    obtain ⟨_, hs, _⟩ := h
    subst hs
    refine ⟨by rw [hidx]; exact hi, ?_⟩
    rw [hidx, hget]
    rfl

theorem variant.emplace_has_value {Args : Type} (tr : alt_traits Ty E val)
    (self : variant val Types) (Index : Nat) (hi : Index < Types.length)
    (construct : Args → Except E (alt_val val (get_type Index Types)) × Args) (args : Args)
    (x : alt_val val (get_type Index Types)) (s1 : variant val Types) (args1 : Args)
    (h : self.emplace tr Index construct args = (Except.ok x, s1, args1)) : s1.has_value := by
  simp only [variant.emplace] at h
  cases hm : self.make_valueless tr with
  | none =>
    rw [hm] at h
    simp at h
  | some s =>
    rw [hm] at h
    exact vstorage.set_has_value s Index hi construct args x s1 args1 h

theorem vstorage.in_place_has_value {Args : Type} (Index : Nat) (hi : Index < Types.length)
    (construct : Args → Except E (alt_val val (get_type Index Types)) × Args) (args : Args)
    (v : variant val Types) (args1 : Args)
    (h : vstorage.in_place Index construct args = (Except.ok v, args1)) : v.has_value := by
  rcases hc : construct args with ⟨r, a⟩
  cases r with
  | error e =>
    rw [vstorage.in_place_throws Index construct args e a hc] at h
    simp at h
  | ok y =>
    obtain ⟨v1, hv1, hidx, hget⟩ := @vstorage.in_place_constructs _ _ _ Types _ Index hi construct args
      y a hc
    rw [hv1] at h
    simp only [Prod.mk.injEq, Except.ok.injEq] at h
    obtain ⟨hv, _⟩ := h
    subst hv
    refine ⟨by rw [hidx]; exact hi, ?_⟩
    rw [hidx, hget]
    rfl

theorem has_value_not_valueless (hN : Types.length ≤ variant_npos) (v : variant val Types)
    (h : v.has_value) : v.valueless_by_exception = false :=
  ((has_value_iff hN v).mp h).2

theorem copy_ctor_visitor_has_value (tr : alt_traits Ty E val) (self other v : variant val Types)
    (i : Nat) (hi : i < Types.length)
    (h : copy_ctor_visitor tr self other [i] = some (Except.ok (), v)) : v.has_value := by
  simp only [copy_ctor_visitor] at h
  cases hg : (get i other : Except (Fault E) _) with
  | error f =>
    rw [hg] at h
    simp at h
  | ok x =>
    rw [hg] at h
    simp only at h
    rcases he : self.emplace tr i (copy_construct_at tr (get_type i Types)) x with ⟨r, s1, a1⟩
    rw [he] at h
    cases r with
    | error f => simp at h
    | ok y =>
      simp only [Option.some.injEq, Prod.mk.injEq, true_and] at h
      subst h
      exact variant.emplace_has_value tr self i hi _ x y s1 a1 he

theorem copy_ctor_has_value (hN : Types.length ≤ variant_npos) (tr : alt_traits Ty E val)
    (other v : variant val Types) (ho : other.has_value)
    (h : variant.copy_ctor tr other = (Except.ok (), v)) : v.has_value := by
  have hv := has_value_not_valueless hN other ho
  have hlt : other.index < Types.length := ho.1
  simp only [variant.copy_ctor, hv, Bool.not_false, ↓reduceIte, visit_by_index_one _ other hlt]
    at h
  cases hvis : copy_ctor_visitor tr (vstorage.undefined val Types) other [other.index] with
  | none =>
    rw [hvis] at h
    exact absurd (congrArg Prod.fst h) (by simp)
  | some r =>
    rw [hvis] at h
    subst h
    exact copy_ctor_visitor_has_value tr _ other v other.index hlt hvis

theorem move_ctor_visitor_has_value (tr : alt_traits Ty E val)
    (self other v other1 : variant val Types) (ho : other.has_value)
    (h : move_ctor_visitor tr self other [other.index] = some (Except.ok (), v, other1)) :
    v.has_value ∧ other1.has_value := by
  simp only [move_ctor_visitor] at h
  cases hg : (get other.index other : Except (Fault E) _) with
  | error f =>
    rw [hg] at h
    simp at h
  | ok x =>
    rw [hg] at h
    simp only at h
    rcases he : self.emplace tr other.index (move_construct_at tr (get_type other.index Types)) x
      with ⟨r, s1, a1⟩
    rw [he] at h
    cases r with
    | error f => simp at h
    | ok y =>
      simp only [Option.some.injEq, Prod.mk.injEq, true_and] at h
      obtain ⟨h1, h2⟩ := h
      subst h1 h2
      exact ⟨variant.emplace_has_value tr self other.index ho.1 _ x y s1 a1 he,
        store_has_value other ho other.index rfl a1⟩

theorem move_ctor_has_value (hN : Types.length ≤ variant_npos) (tr : alt_traits Ty E val)
    (other v other1 : variant val Types) (ho : other.has_value)
    (h : variant.move_ctor tr other = (Except.ok (), v, other1)) :
    v.has_value ∧ other1.has_value := by
  have hv := has_value_not_valueless hN other ho
  have hlt : other.index < Types.length := ho.1
  simp only [variant.move_ctor, hv, Bool.not_false, ↓reduceIte, visit_by_index_one _ other hlt]
    at h
  cases hvis : move_ctor_visitor tr (vstorage.undefined val Types) other [other.index] with
  | none =>
    rw [hvis] at h
    exact absurd (congrArg Prod.fst h) (by simp)
  | some r =>
    rw [hvis] at h
    subst h
    exact move_ctor_visitor_has_value tr _ other v other1 ho hvis

theorem move_assign_visitor_has_value (tr : alt_traits Ty E val)
    (self other self1 other1 : variant val Types) (hs : self.has_value) (ho : other.has_value)
    (h : move_assign_visitor tr self other [other.index] = some (Except.ok (), self1, other1)) :
    self1.has_value ∧ other1.has_value := by
  simp only [move_assign_visitor] at h
  by_cases hne : other.index ≠ self.index
  · rw [if_pos hne] at h
    cases hg : (get other.index other : Except (Fault E) _) with
    | error f =>
      rw [hg] at h
      simp at h
    | ok x =>
      rw [hg] at h
      simp only at h
      rcases he : self.emplace tr other.index
        (move_construct_at tr (get_type other.index Types)) x with ⟨r, s1, a1⟩
      rw [he] at h
      cases r with
      | error f => simp at h
      | ok y =>
        simp only [Option.some.injEq, Prod.mk.injEq, true_and] at h
        obtain ⟨h1, h2⟩ := h
        subst h1 h2
        exact ⟨variant.emplace_has_value tr self other.index ho.1 _ x y s1 a1 he,
          store_has_value other ho other.index rfl a1⟩
  · rw [if_neg hne] at h
    have heq : other.index = self.index := not_not.mp hne
    cases hg : (get other.index other : Except (Fault E) _) with
    | error f =>
      rw [hg] at h
      simp at h
    | ok b =>
      rw [hg] at h
      simp only at h
      cases hgs : (get other.index self : Except (Fault E) _) with
      | error f =>
        rw [hgs] at h
        simp at h
      | ok a =>
        rw [hgs] at h
        simp only [Option.some.injEq, Prod.mk.injEq] at h
        obtain ⟨_, h1, h2⟩ := h
        subst h1 h2
        exact ⟨store_has_value self hs other.index heq _,
          store_has_value other ho other.index rfl _⟩

theorem move_assign_has_value (hN : Types.length ≤ variant_npos) (tr : alt_traits Ty E val)
    (self other self1 other1 : variant val Types) (hs : self.has_value) (ho : other.has_value)
    (h : self.move_assign tr other = (Except.ok (), self1, other1)) :
    self1.has_value ∧ other1.has_value := by
  have hv := has_value_not_valueless hN other ho
  have hlt : other.index < Types.length := ho.1
  simp only [variant.move_assign, hv, Bool.false_eq_true, ↓reduceIte,
    visit_by_index_one _ other hlt] at h
  cases hvis : move_assign_visitor tr self other [other.index] with
  | none =>
    rw [hvis] at h
    exact absurd (congrArg Prod.fst h) (by simp)
  | some r =>
    rw [hvis] at h
    subst h
    exact move_assign_visitor_has_value tr self other self1 other1 hs ho hvis

theorem copy_assign_visitor_has_value (hN : Types.length ≤ variant_npos)
    (tr : alt_traits Ty E val) (self other self1 : variant val Types) (hs : self.has_value)
    (ho : other.has_value)
    (h : copy_assign_visitor tr self other [other.index] = some (Except.ok (), self1)) :
    self1.has_value := by
  simp only [copy_assign_visitor] at h
  by_cases hne : other.index ≠ self.index
  · rw [if_pos hne] at h
    by_cases hb : (!is_nothrow_copy_constructible_v tr (get_type other.index Types) &&
        is_nothrow_move_constructible_v tr (get_type other.index Types)) = true
    · rw [if_pos hb] at h
      rcases hc : variant.copy_ctor tr other with ⟨r, temporary⟩
      rw [hc] at h
      cases r with
      | error f => simp at h
      | ok u =>
        simp only at h
        rcases hm : self.move_assign tr temporary with ⟨r1, s1, t1⟩
        rw [hm] at h
        simp only [Option.some.injEq, Prod.mk.injEq] at h
        obtain ⟨h1, h2⟩ := h
        subst h1 h2
        have ht := copy_ctor_has_value hN tr other temporary ho hc
        exact (move_assign_has_value hN tr self temporary s1 t1 hs ht hm).1
    · rw [if_neg hb] at h
      cases hg : (get other.index other : Except (Fault E) _) with
      | error f =>
        rw [hg] at h
        simp at h
      | ok x =>
        rw [hg] at h
        simp only at h
        rcases he : self.emplace tr other.index
          (copy_construct_at tr (get_type other.index Types)) x with ⟨r, s1, a1⟩
        rw [he] at h
        cases r with
        | error f => simp at h
        | ok y =>
          simp only [Option.some.injEq, Prod.mk.injEq, true_and] at h
          subst h
          exact variant.emplace_has_value tr self other.index ho.1 _ x y s1 a1 he
  · rw [if_neg hne] at h
    have heq : other.index = self.index := not_not.mp hne
    cases hg : (get other.index other : Except (Fault E) _) with
    | error f =>
      rw [hg] at h
      simp at h
    | ok b =>
      rw [hg] at h
      simp only at h
      cases hgs : (get other.index self : Except (Fault E) _) with
      | error f =>
        rw [hgs] at h
        simp at h
      | ok a =>
        rw [hgs] at h
        simp only [Option.some.injEq, Prod.mk.injEq] at h
        obtain ⟨_, h1⟩ := h
        subst h1
        exact store_has_value self hs other.index heq _

theorem copy_assign_has_value (hN : Types.length ≤ variant_npos) (tr : alt_traits Ty E val)
    (self other self1 : variant val Types) (hs : self.has_value) (ho : other.has_value)
    (h : self.copy_assign tr other = (Except.ok (), self1)) : self1.has_value := by
  have hv := has_value_not_valueless hN other ho
  have hlt : other.index < Types.length := ho.1
  simp only [variant.copy_assign, hv, Bool.false_eq_true, ↓reduceIte, copy_assign_dispatch,
    visit_by_index_one _ other hlt] at h
  cases hvis : copy_assign_visitor tr self other [other.index] with
  | none =>
    rw [hvis] at h
    exact absurd (congrArg Prod.fst h) (by simp)
  | some r =>
    rw [hvis] at h
    subst h
    exact copy_assign_visitor_has_value hN tr self other self1 hs ho hvis

theorem std_swap_has_value (hN : Types.length ≤ variant_npos) (tr : alt_traits Ty E val)
    (a b a1 b1 : variant val Types) (ha : a.has_value) (hb : b.has_value)
    (h : std_swap tr a b = (Except.ok (), a1, b1)) : a1.has_value ∧ b1.has_value := by
  simp only [std_swap] at h
  rcases hc : variant.move_ctor tr a with ⟨r, tmp, a2⟩
  rw [hc] at h
  cases r with
  | error f => simp at h
  | ok u =>
    obtain ⟨htmp, ha2⟩ := move_ctor_has_value hN tr a tmp a2 ha hc
    simp only at h
    rcases hm : a2.move_assign tr b with ⟨r1, a3, b2⟩
    rw [hm] at h
    cases r1 with
    | error f => simp at h
    | ok u1 =>
      obtain ⟨ha3, hb2⟩ := move_assign_has_value hN tr a2 b a3 b2 ha2 hb hm
      simp only at h
      rcases hm2 : b2.move_assign tr tmp with ⟨r2, b3, t1⟩
      rw [hm2] at h
      simp only [Prod.mk.injEq] at h
      obtain ⟨h0, h1, h2⟩ := h
      subst h0 h1 h2
      exact ⟨ha3, (move_assign_has_value hN tr b2 tmp b3 t1 hb2 htmp hm2).1⟩

theorem swap_same_visitor_has_value (sw : alt_swap Ty E val)
    (self other self1 other1 : variant val Types) (hs : self.has_value) (ho : other.has_value)
    (heq : self.index = other.index)
    (h : swap_same_visitor sw self other [other.index] = some (Except.ok (), self1, other1)) :
    self1.has_value ∧ other1.has_value := by
  simp only [swap_same_visitor] at h
  cases hgs : (get other.index self : Except (Fault E) _) with
  | error f =>
    rw [hgs] at h
    simp at h
  | ok a =>
    rw [hgs] at h
    simp only at h
    cases hg : (get other.index other : Except (Fault E) _) with
    | error f =>
      rw [hg] at h
      simp at h
    | ok b =>
      rw [hg] at h
      simp only at h
      rcases hw : swap_at sw (get_type other.index Types) a b with ⟨r, a1, b1⟩
      rw [hw] at h
      cases r with
      | error e => simp at h
      | ok u =>
        simp only [Option.some.injEq, Prod.mk.injEq, true_and] at h
        obtain ⟨h1, h2⟩ := h
        subst h1 h2
        have hs1 := store_has_value self hs other.index heq.symm a1
        have ho1 := store_has_value other ho other.index rfl b1
        have hidx : self.index_ = other.index_ := heq
        refine ⟨?_, ?_⟩
        · have : ({ self.store other.index a1 with index_ := other.index_ } : variant val Types)
              = self.store other.index a1 := by
            simp only [variant.store, ← hidx]
          rw [this]
          exact hs1
        · have : ({ other.store other.index b1 with index_ := self.index_ } : variant val Types)
              = other.store other.index b1 := by
            simp only [variant.store, hidx]
          rw [this]
          exact ho1

theorem swap_has_value (hN : Types.length ≤ variant_npos) (tr : alt_traits Ty E val)
    (sw : alt_swap Ty E val) (self other self1 other1 : variant val Types)
    (hs : self.has_value) (ho : other.has_value)
    (h : self.swap tr sw other = (Except.ok (), self1, other1)) :
    self1.has_value ∧ other1.has_value := by
  have hvs := has_value_not_valueless hN self hs
  have hvo := has_value_not_valueless hN other ho
  have hlt : other.index < Types.length := ho.1
  simp only [variant.swap, hvs, hvo, Bool.and_self, Bool.false_eq_true, ↓reduceIte] at h
  by_cases hne : self.index ≠ other.index
  · rw [if_pos hne] at h
    rcases hw : std_swap tr other self with ⟨r, o1, s1⟩
    rw [hw] at h
    simp only [Prod.mk.injEq] at h
    obtain ⟨h0, h1, h2⟩ := h
    subst h0 h1 h2
    exact (std_swap_has_value hN tr other self o1 s1 ho hs hw).symm
  · rw [if_neg hne, visit_by_index_one _ other hlt] at h
    cases hvis : swap_same_visitor sw self other [other.index] with
    | none =>
      rw [hvis] at h
      exact absurd (congrArg Prod.fst h) (by simp)
    | some r =>
      rw [hvis] at h
      subst h
      exact swap_same_visitor_has_value sw self other self1 other1 hs ho (not_not.mp hne) hvis

theorem get_type_of_count_of [DecidableEq Ty] (T : Ty) : (Types : List Ty) →
    1 ≤ count_of T Types → ∃ i, get_type i Types = some T
  | [], h => by simp [count_of] at h
  | Head :: Tail, h => by
    by_cases hT : T = Head
    · exact ⟨0, by simp [get_type, hT]⟩
    · rw [count_of_cons, if_neg hT, Nat.zero_add] at h
      obtain ⟨i, hi⟩ := get_type_of_count_of T Tail h
      exact ⟨i + 1, by simpa [get_type] using hi⟩

theorem find_first_v_lt_length [DecidableEq Ty] (T : Ty) (Types : List Ty)
    (hT : count_of T Types = 1) : find_first_v T Types < Types.length := by
  obtain ⟨i, hi⟩ := get_type_of_count_of T Types (by omega)
  have := find_first_of_unique T Types i 0 hT hi
  simp only [find_first_v, this, Nat.zero_add]
  exact get_type_lt_length Types i T hi

theorem default_ctor_has_value (dc : alt_default Ty E val) (v : variant val Types)
    (h : variant.default_ctor dc Types = some (Except.ok v)) : v.has_value := by
  cases Types with
  | nil => simp [variant.default_ctor, get_type] at h
  | cons Head Tail =>
    simp only [variant.default_ctor, get_type, variadic_union.default_ctor] at h
    cases hd : dc.default_construct Head with
    | none =>
      rw [hd] at h
      simp at h
    | some r =>
      rw [hd] at h
      cases r with
      | error e => simp at h
      | ok x =>
        simp only [Option.some.injEq, Except.ok.injEq] at h
        subst h
        exact ⟨Nat.succ_pos _, rfl⟩

theorem chosen_construct_type_lt_length [DecidableEq Ty] {From : Type}
    (cv : conversion Ty E val From) (Types : List Ty) (c : Nat × Ty)
    (h : chosen_construct_type cv Types = some c) : c.1 < Types.length := by
  obtain ⟨hmem, _, _⟩ := overload_resolution_best cv (best_construct_type 0 Types) c h
  obtain ⟨j, hj, hg, _⟩ := best_construct_type_first Types 0 c.1 c.2 hmem
  have := get_type_lt_length Types j c.2 hg
  omega

theorem converting_ctor_has_value [DecidableEq Ty] {From : Type} (cv : conversion Ty E val From)
    (f f1 : From) (v : variant val Types)
    (h : variant.converting_ctor cv Types f = some (Except.ok v, f1)) : v.has_value := by
  simp only [variant.converting_ctor] at h
  cases hc : chosen_construct_type cv Types with
  | none =>
    rw [hc] at h
    simp at h
  | some c =>
    have hlt := chosen_construct_type_lt_length cv Types c hc
    rw [hc] at h
    simp only at h
    cases hk : construct_at cv (get_type c.1 Types) with
    | none =>
      rw [hk] at h
      simp at h
    | some construct =>
      rw [hk] at h
      simp only at h
      rcases hp : vstorage.in_place c.1 construct f with ⟨r, f2⟩
      rw [hp] at h
      cases r with
      | ok v1 =>
        simp only [Option.some.injEq, Prod.mk.injEq, Except.ok.injEq] at h
        obtain ⟨h1, h2⟩ := h
        subst h1
        subst h2
        exact vstorage.in_place_has_value c.1 hlt construct f v1 f2 hp
      | error e =>
        simp only at h
        split at h <;> simp at h

theorem converting_assign_has_value [DecidableEq Ty] {From : Type} (tr : alt_traits Ty E val)
    (cv : conversion Ty E val From) (f f1 : From) (self self1 : variant val Types)
    (hs : self.has_value)
    (h : self.converting_assign tr cv f = some (Except.ok (), self1, f1)) :
    self1.has_value := by
  simp only [variant.converting_assign] at h
  cases hc : chosen_construct_type cv Types with
  | none =>
    rw [hc] at h
    simp at h
  | some c =>
    have hlt := chosen_construct_type_lt_length cv Types c hc
    rw [hc] at h
    simp only at h
    cases hk : construct_at cv (get_type c.1 Types) with
    | none =>
      rw [hk] at h
      simp at h
    | some construct =>
      cases ha : assign_at cv (get_type c.1 Types) with
      | none =>
        rw [hk, ha] at h
        simp at h
      | some assign =>
        rw [hk, ha] at h
        simp only at h
        by_cases hi : c.1 = self.index
        · rw [if_pos hi] at h
          cases hg : (get c.1 self : Except (Fault E) _) with
          | error e =>
            rw [hg] at h
            simp at h
          | ok t =>
            rw [hg] at h
            simp only [Option.some.injEq, Prod.mk.injEq] at h
            obtain ⟨_, h1, _⟩ := h
            subst h1
            exact store_has_value self hs c.1 hi _
        · rw [if_neg hi] at h
          by_cases hb : (is_nothrow_move_constructible_v tr (get_type c.1 Types) &&
              !is_nothrow_constructible_v cv (get_type c.1 Types)) = true
          · rw [if_pos hb] at h
            rcases hcf : construct f with ⟨r, f2⟩
            rw [hcf] at h
            cases r with
            | error e => simp at h
            | ok temporary =>
              simp only at h
              rcases he : self.emplace tr c.1 (move_construct_at tr (get_type c.1 Types))
                temporary with ⟨r1, s1, a1⟩
              rw [he] at h
              cases r1 with
              | error e => simp at h
              | ok y =>
                simp only [Option.some.injEq, Prod.mk.injEq, true_and] at h
                obtain ⟨h1, _⟩ := h
                subst h1
                exact variant.emplace_has_value tr self c.1 hlt _ temporary y s1 a1 he
          · rw [if_neg hb] at h
            rcases he : self.emplace tr c.1 construct f with ⟨r1, s1, a1⟩
            rw [he] at h
            cases r1 with
            | error e => simp at h
            | ok y =>
              simp only [Option.some.injEq, Prod.mk.injEq, true_and] at h
              obtain ⟨h1, _⟩ := h
              subst h1
              exact variant.emplace_has_value tr self c.1 hlt _ f y s1 a1 he

/-- C19 (amended): a container that the public operations other than `make_valueless()` produce
while every one of them returns without an exception (the constructors, `emplace`, the
assignment operators, `swap`, assignment through `get`) holds an alternative:
`valueless_by_exception()` is `false` and the class invariant holds. -/
theorem reachable_has_value [DecidableEq Ty] (hN : Types.length ≤ variant_npos)
    (tr : alt_traits Ty E val) (sw : alt_swap Ty E val) (dc : alt_default Ty E val)
    (v : variant val Types) (h : reachable tr sw dc v) :
    v.valueless_by_exception = false ∧ v.wf ∧ v.index < Types.length := by
  have key : v.has_value := by
    induction h with
    | default_ctor v h => exact default_ctor_has_value dc v h
    | in_place_index_ctor Index hI construct args args1 v h =>
      exact vstorage.in_place_has_value Index hI construct args v args1 h
    | in_place_type_ctor T hT construct args args1 v h =>
      exact vstorage.in_place_has_value _ (find_first_v_lt_length T Types hT) construct args v
        args1 h
    | converting_ctor cv f f1 v h => exact converting_ctor_has_value cv f f1 v h
    | copy_ctor other v _ h ih => exact copy_ctor_has_value hN tr other v ih h
    | move_ctor other v other1 _ h ih => exact (move_ctor_has_value hN tr other v other1 ih h).1
    | move_ctor_source other v other1 _ h ih =>
      exact (move_ctor_has_value hN tr other v other1 ih h).2
    | emplace Index hI construct args args1 x self self1 _ h _ =>
      exact variant.emplace_has_value tr self Index hI construct args x self1 args1 h
    | emplace_by_type T hT construct args args1 x self self1 _ h _ =>
      exact variant.emplace_has_value tr self _ (find_first_v_lt_length T Types hT) construct
        args x self1 args1 h
    | converting_assign cv f f1 self self1 _ h ih =>
      exact converting_assign_has_value tr cv f f1 self self1 ih h
    | copy_assign self other self1 _ _ h ihs iho =>
      exact copy_assign_has_value hN tr self other self1 ihs iho h
    | move_assign self other self1 other1 _ _ h ihs iho =>
      exact (move_assign_has_value hN tr self other self1 other1 ihs iho h).1
    | move_assign_source self other self1 other1 _ _ h ihs iho =>
      exact (move_assign_has_value hN tr self other self1 other1 ihs iho h).2
    | swap self other self1 other1 _ _ h ihs iho =>
      exact (swap_has_value hN tr sw self other self1 other1 ihs iho h).1
    | swap_other self other self1 other1 _ _ h ihs iho =>
      exact (swap_has_value hN tr sw self other self1 other1 ihs iho h).2
    | store Index x y self _ hg ih =>
      exact store_has_value self ih Index (index_of_get self Index x hg) y
  exact ⟨((has_value_iff hN v).mp key).2, ((has_value_iff hN v).mp key).1, key.1⟩

/-! ### All six relational operators -/

theorem operator_ne_of_eq (rel : alt_relational Ty val) (a b : variant val Types) (e : Bool)
    (h : (operator_eq rel a b : Except (Fault E) Bool) = Except.ok e) :
    (operator_ne rel a b : Except (Fault E) Bool) = Except.ok (!e) := by
  simp only [operator_ne, h]

/-- Two containers either do not both hold a value at one index, and then the operators return
verdicts that no operator of an alternative enters into, or they hold `x` and `y` at one index
`i`, and then each operator returns the verdict of the alternative's operator on `x` and `y`. -/
theorem relational_by_case (E : Type) (a b : variant val Types) (ha : a.wf) (hb : b.wf) :
    (¬(a.valueless_by_exception = false ∧ b.valueless_by_exception = false ∧
        a.index = b.index) ∧
      ∃ l e g : Bool, ∀ rel : alt_relational Ty val,
        (operator_lt rel a b : Except (Fault E) Bool) = Except.ok l ∧
        (operator_eq rel a b : Except (Fault E) Bool) = Except.ok e ∧
        (operator_gt rel a b : Except (Fault E) Bool) = Except.ok g ∧
        (operator_lt rel b a : Except (Fault E) Bool) = Except.ok g ∧
        (operator_le rel a b : Except (Fault E) Bool) = Except.ok (!g) ∧
        (operator_ge rel a b : Except (Fault E) Bool) = Except.ok (!l)) ∨
    ((a.valueless_by_exception = false ∧ b.valueless_by_exception = false ∧
        a.index = b.index) ∧
      ∃ i, a.index = i ∧ b.index = i ∧ i < Types.length ∧
        ∃ x y : alt_val val (get_type i Types),
        (get i a : Except (Fault E) _) = Except.ok x ∧
        (get i b : Except (Fault E) _) = Except.ok y ∧
        ∀ rel : alt_relational Ty val,
          (operator_lt rel a b : Except (Fault E) Bool) =
            Except.ok (rel_at rel.lt (get_type i Types) x y) ∧
          (operator_eq rel a b : Except (Fault E) Bool) =
            Except.ok (rel_at rel.eq (get_type i Types) x y) ∧
          (operator_gt rel a b : Except (Fault E) Bool) =
            Except.ok (rel_at rel.gt (get_type i Types) x y) ∧
          (operator_lt rel b a : Except (Fault E) Bool) =
            Except.ok (rel_at rel.lt (get_type i Types) y x) ∧
          (operator_le rel a b : Except (Fault E) Bool) =
            Except.ok (rel_at rel.le (get_type i Types) x y) ∧
          (operator_ge rel a b : Except (Fault E) Bool) =
            Except.ok (rel_at rel.ge (get_type i Types) x y)) := by
  cases hav : a.valueless_by_exception <;> cases hbv : b.valueless_by_exception
  · rcases Nat.lt_trichotomy a.index b.index with h | h | h
    · left
      have hne : a.index ≠ b.index := Nat.ne_of_lt h
      refine ⟨fun hD => hne hD.2.2, true, false, false, fun rel => ⟨?_, ?_, ?_, ?_, ?_, ?_⟩⟩
      · simp [operator_lt, hav, hbv, h]
      · simp [operator_eq, hne]
      · simp [operator_gt, hav, hbv, h, Nat.lt_asymm h]
      · simp [operator_lt, hav, hbv, h, Nat.lt_asymm h]
      · simp [operator_le, hav, hbv, h]
      · simp [operator_ge, hav, hbv, h, Nat.lt_asymm h]
    · right
      obtain ⟨i, hia, hib, x, y, hx, hy⟩ := payloads_at_same_index (E := E) a b ha hb hav hbv h
      have hlt : i < Types.length := by
        rw [← hib]
        exact index_lt_of_wf b hb hbv
      refine ⟨⟨rfl, rfl, h⟩, i, hia, hib, hlt, x, y, hx, hy, fun rel => ⟨?_, ?_, ?_, ?_, ?_, ?_⟩⟩
      · simp only [operator_lt, hav, hbv, h, Bool.false_eq_true, ↓reduceIte, lt_self_iff_false,
          gt_iff_lt]
        exact relational_dispatch_at rel.lt a b hb hbv i hib.symm x y hx hy
      · simp only [operator_eq, h, ne_eq, not_true_eq_false, ↓reduceIte, hav,
          Bool.false_eq_true]
        exact relational_dispatch_at rel.eq a b hb hbv i hib.symm x y hx hy
      · simp only [operator_gt, hav, hbv, h, Bool.false_eq_true, ↓reduceIte, lt_self_iff_false,
          gt_iff_lt]
        exact relational_dispatch_at rel.gt a b hb hbv i hib.symm x y hx hy
      · simp only [operator_lt, hav, hbv, h, Bool.false_eq_true, ↓reduceIte, lt_self_iff_false,
          gt_iff_lt]
        exact relational_dispatch_at rel.lt b a ha hav i hia.symm y x hy hx
      · simp only [operator_le, hav, hbv, h, Bool.false_eq_true, ↓reduceIte, lt_self_iff_false,
          gt_iff_lt]
        exact relational_dispatch_at rel.le a b hb hbv i hib.symm x y hx hy
      · simp only [operator_ge, hav, hbv, h, Bool.false_eq_true, ↓reduceIte, lt_self_iff_false,
          gt_iff_lt]
        exact relational_dispatch_at rel.ge a b hb hbv i hib.symm x y hx hy
    · left
      have hne : a.index ≠ b.index := Nat.ne_of_gt h
      refine ⟨fun hD => hne hD.2.2, false, false, true, fun rel => ⟨?_, ?_, ?_, ?_, ?_, ?_⟩⟩
      · simp [operator_lt, hav, hbv, h, Nat.lt_asymm h]
      · simp [operator_eq, hne]
      · simp [operator_gt, hav, hbv, h]
      · simp [operator_lt, hav, hbv, h]
      · simp [operator_le, hav, hbv, h, Nat.lt_asymm h]
      · simp [operator_ge, hav, hbv, h]
  · left
    have hne : a.index ≠ b.index := (index_ne_of_valueless b a hbv hav).symm
    refine ⟨fun hD => hne hD.2.2, false, false, true, fun rel => ⟨?_, ?_, ?_, ?_, ?_, ?_⟩⟩
    · simp [operator_lt, hbv]
    · simp [operator_eq, hne]
    · simp [operator_gt, hav, hbv]
    · simp [operator_lt, hav, hbv]
    · simp [operator_le, hav, hbv]
    · simp [operator_ge, hbv]
  · left
    have hne : a.index ≠ b.index := index_ne_of_valueless a b hav hbv
    refine ⟨fun hD => hne hD.2.2, true, false, false, fun rel => ⟨?_, ?_, ?_, ?_, ?_, ?_⟩⟩
    · simp [operator_lt, hav, hbv]
    · simp [operator_eq, hne]
    · simp [operator_gt, hav]
    · simp [operator_lt, hav]
    · simp [operator_le, hav]
    · simp [operator_ge, hav, hbv]
  · left
    have heq : a.index = b.index := index_eq_of_valueless a b hav hbv
    refine ⟨fun hD => by simp at hD, false, true, false, fun rel => ⟨?_, ?_, ?_, ?_, ?_, ?_⟩⟩
    · simp [operator_lt, hbv]
    · simp [operator_eq, heq, hav]
    · simp [operator_gt, hav]
    · simp [operator_lt, hav]
    · simp [operator_le, hav]
    · simp [operator_ge, hbv]

theorem rel_at_flip (op1 op2 : (T : Ty) → val T → val T → Bool)
    (h : ∀ (T : Ty) (x y : val T), op1 T x y = op2 T y x) :
    (o : Option Ty) → (x y : alt_val val o) → rel_at op1 o x y = rel_at op2 o y x
  | some T, x, y => h T x y
  | none, x, _ => nomatch x

theorem rel_at_not (op1 op2 : (T : Ty) → val T → val T → Bool)
    (h : ∀ (T : Ty) (x y : val T), op1 T x y = !op2 T x y) :
    (o : Option Ty) → (x y : alt_val val o) → rel_at op1 o x y = !rel_at op2 o x y
  | some T, x, y => h T x y
  | none, x, _ => nomatch x

/-- C24: the six relational operators return a verdict for every two containers of one
alternative set, valueless ones included.  When both hold a value at one index, that index is
a position of the pack (not the sentinel), both `get<index>` calls of the closure return, and the
lookup of `visit_by_index` gives the verdict of the alternative's operator; in every other
situation the verdicts are those of the index tests alone, whatever the operators of the
alternatives are. -/
theorem relational_operators_total (E : Type) (rel : alt_relational Ty val)
    (a b : variant val Types) (ha : a.wf) (hb : b.wf) :
    ((∃ r, (operator_eq rel a b : Except (Fault E) Bool) = Except.ok r) ∧
      (∃ r, (operator_ne rel a b : Except (Fault E) Bool) = Except.ok r) ∧
      (∃ r, (operator_lt rel a b : Except (Fault E) Bool) = Except.ok r) ∧
      (∃ r, (operator_gt rel a b : Except (Fault E) Bool) = Except.ok r) ∧
      (∃ r, (operator_le rel a b : Except (Fault E) Bool) = Except.ok r) ∧
      (∃ r, (operator_ge rel a b : Except (Fault E) Bool) = Except.ok r)) ∧
    ((a.valueless_by_exception = false ∧ b.valueless_by_exception = false ∧
        a.index = b.index) →
      b.index < Types.length ∧ b.index ≠ variant_npos ∧
      ∃ x y : alt_val val (get_type b.index Types),
        (get b.index a : Except (Fault E) _) = Except.ok x ∧
        (get b.index b : Except (Fault E) _) = Except.ok y ∧
        ∀ op : (T : Ty) → val T → val T → Bool,
          visit_by_index (relational_visitor op a b) [⟨Types, b⟩] =
            some (Except.ok (rel_at op (get_type b.index Types) x y) : Except (Fault E) Bool)) ∧
    (¬(a.valueless_by_exception = false ∧ b.valueless_by_exception = false ∧
        a.index = b.index) →
      ∀ rel1 : alt_relational Ty val,
        (operator_eq rel1 a b : Except (Fault E) Bool) = operator_eq rel a b ∧
        (operator_ne rel1 a b : Except (Fault E) Bool) = operator_ne rel a b ∧
        (operator_lt rel1 a b : Except (Fault E) Bool) = operator_lt rel a b ∧
        (operator_gt rel1 a b : Except (Fault E) Bool) = operator_gt rel a b ∧
        (operator_le rel1 a b : Except (Fault E) Bool) = operator_le rel a b ∧
        (operator_ge rel1 a b : Except (Fault E) Bool) = operator_ge rel a b) := by
  refine ⟨?_, ?_, ?_⟩
  · rcases relational_by_case E a b ha hb with ⟨_, l, e, g, h⟩ | ⟨_, i, _, _, _, x, y, _, _, h⟩
    · obtain ⟨h1, h2, h3, _, h5, h6⟩ := h rel
      exact ⟨⟨_, h2⟩, ⟨_, operator_ne_of_eq rel a b _ h2⟩, ⟨_, h1⟩, ⟨_, h3⟩, ⟨_, h5⟩, ⟨_, h6⟩⟩
    · obtain ⟨h1, h2, h3, _, h5, h6⟩ := h rel
      exact ⟨⟨_, h2⟩, ⟨_, operator_ne_of_eq rel a b _ h2⟩, ⟨_, h1⟩, ⟨_, h3⟩, ⟨_, h5⟩, ⟨_, h6⟩⟩
  · rintro ⟨hav, hbv, h⟩
    have hlt := index_lt_of_wf b hb hbv
    obtain ⟨i, _, hib, x, y, hx, hy⟩ := payloads_at_same_index (E := E) a b ha hb hav hbv h
    subst hib
    refine ⟨hlt, (not_valueless_iff b).mp hbv, x, y, hx, hy, fun op => ?_⟩
    simp only [visit_by_index_one _ b hlt, relational_visitor, hx, hy]
  · intro hD rel1
    rcases relational_by_case E a b ha hb with ⟨_, l, e, g, h⟩ | ⟨hD1, _⟩
    · obtain ⟨h1, h2, h3, _, h5, h6⟩ := h rel
      obtain ⟨k1, k2, k3, _, k5, k6⟩ := h rel1
      refine ⟨by rw [h2, k2], ?_, by rw [h1, k1], by rw [h3, k3], by rw [h5, k5],
        by rw [h6, k6]⟩
      rw [operator_ne_of_eq rel a b _ h2, operator_ne_of_eq rel1 a b _ k2]
    · exact absurd hD1 hD

/-- C26: for every two containers `a`, `b` of one alternative set, valueless or not, all the
operators return, and `a != b` is `!(a == b)`, `a > b` is `b < a`, `a <= b` is `!(a > b)` and
`a >= b` is `!(a < b)`, when the operators of every alternative satisfy the last three
identities on its values. -/
theorem operators_consistent (E : Type) (rel : alt_relational Ty val)
    (hgt : ∀ (T : Ty) (x y : val T), rel.gt T x y = rel.lt T y x)
    (hle : ∀ (T : Ty) (x y : val T), rel.le T x y = !rel.gt T x y)
    (hge : ∀ (T : Ty) (x y : val T), rel.ge T x y = !rel.lt T x y)
    (a b : variant val Types) (ha : a.wf) (hb : b.wf) :
    ∃ e l g : Bool,
      (operator_eq rel a b : Except (Fault E) Bool) = Except.ok e ∧
      (operator_ne rel a b : Except (Fault E) Bool) = Except.ok (!e) ∧
      (operator_lt rel a b : Except (Fault E) Bool) = Except.ok l ∧
      (operator_lt rel b a : Except (Fault E) Bool) = Except.ok g ∧
      (operator_gt rel a b : Except (Fault E) Bool) = Except.ok g ∧
      (operator_le rel a b : Except (Fault E) Bool) = Except.ok (!g) ∧
      (operator_ge rel a b : Except (Fault E) Bool) = Except.ok (!l) := by
  rcases relational_by_case E a b ha hb with ⟨_, l, e, g, h⟩ | ⟨_, i, _, _, _, x, y, _, _, h⟩
  · obtain ⟨h1, h2, h3, h4, h5, h6⟩ := h rel
    exact ⟨e, l, g, h2, operator_ne_of_eq rel a b _ h2, h1, h4, h3, h5, h6⟩
  · obtain ⟨h1, h2, h3, h4, h5, h6⟩ := h rel
    refine ⟨_, _, _, h2, operator_ne_of_eq rel a b _ h2, h1, h4, ?_, ?_, ?_⟩
    · rw [h3, rel_at_flip rel.gt rel.lt hgt]
    · rw [h5, rel_at_not rel.le rel.gt hle, rel_at_flip rel.gt rel.lt hgt]
    · rw [h6, rel_at_not rel.ge rel.lt hge]

/-! ### `make_valueless` -/

/-- C21: `make_valueless()` on a container `C` returns and leaves `index() == variant_npos`
and `valueless_by_exception()` true (every `get<i>` with `i < N` then throws); a second `make_valueless()`
leaves that state as it is; and `valueless_by_exception()` is true exactly when `index()` is the
sentinel. -/
theorem make_valueless_idempotent (tr : alt_traits Ty E val) (C : variant val Types)
    (hwf : C.wf) (hN : Types.length ≤ variant_npos) :
    (∃ s, C.make_valueless tr = some s ∧ s.index = variant_npos ∧
      s.valueless_by_exception = true ∧ s.wf ∧ s.make_valueless tr = some s ∧
      ∀ i, i < Types.length →
        (get i s : Except (Fault E) _) = Except.error Fault.bad_variant_access) ∧
    (C.valueless_by_exception = true → C.make_valueless tr = some C) ∧
    (C.valueless_by_exception = true ↔ C.index = variant_npos) := by
  refine ⟨?_, ?_, valueless_iff C⟩
  · obtain ⟨s, hs, hidx⟩ := variant.make_valueless_wf tr C hwf
    have hv : s.valueless_by_exception = true := (valueless_iff s).mpr hidx
    refine ⟨s, hs, hidx, hv, Or.inl hidx, ?_, ?_⟩
    · simp [variant.make_valueless, hidx]
    · intro i hi
      apply get_of_ne
      rw [variant.index, hidx]
      exact ne_npos_of_lt hN i hi
  · intro hv
    have hidx : C.index_ = variant_npos := (valueless_iff C).mp hv
    simp [variant.make_valueless, hidx]

/-! ### Shape of the dispatch tables -/

theorem map_length_map_range (sizes : List Nat) :
    (sizes.map List.range).map List.length = sizes := by
  induction sizes with
  | nil => rfl
  | cons n sizes ih => simp [ih]

/-- C22: for alternative counts `n1..nK` for which the tables build, the tables that
`create_matrix_by_index` and `create_matrix` build are `K` arrays deep, the `j`-th dimension has
extent `nj`, they have `n1 * ... * nK` cells, and `in_impl` finds a cell at every index tuple
`(i1..iK)` with `ij < nj`.  For all other alternative counts (the last is 1 under one that is more
than 1, or one is 0) neither table can be built. -/
theorem dispatch_table_shape (E : Type) (val : Ty → Type) (R : Type) (sizes : List Nat) :
    (sizes.map List.range).length = sizes.length ∧
    (table_builds sizes = true →
      (∃ m : table_type × matrix ((List Nat → Option R) → Option R) _,
        create_matrix_by_index sizes = some m ∧
        matrix.has_extents ((List Nat → Option R) → Option R) sizes _ m.2 ∧
        matrix.cells ((List Nat → Option R) → Option R) _ m.2 = sizes.prod ∧
        ∀ idxs : List Nat, List.Forall₂ (fun i n => i < n) idxs sizes →
          ∃ cell : (List Nat → Option R) → Option R, in_impl _ m.2 idxs = some cell) ∧
      (∃ m : table_type ×
          matrix ((List (visit_arg val) → R) → List (any_variant val) → Except (Fault E) R) _,
        create_matrix sizes = some m ∧
        matrix.has_extents
          ((List (visit_arg val) → R) → List (any_variant val) → Except (Fault E) R) sizes _
          m.2 ∧
        matrix.cells ((List (visit_arg val) → R) → List (any_variant val) → Except (Fault E) R)
          _ m.2 = sizes.prod ∧
        ∀ idxs : List Nat, List.Forall₂ (fun i n => i < n) idxs sizes →
          ∃ cell : (List (visit_arg val) → R) → List (any_variant val) → Except (Fault E) R,
            in_impl _ m.2 idxs = some cell)) ∧
    (table_builds sizes = false →
      (create_matrix_by_index sizes : Option (table_type ×
        matrix ((List Nat → Option R) → Option R) _)) = none ∧
      (create_matrix sizes : Option (table_type ×
        matrix ((List (visit_arg val) → R) → List (any_variant val) → Except (Fault E) R) _))
        = none) := by
  refine ⟨by simp, fun hbuild => ⟨?_, ?_⟩, fun hbuild => ⟨?_, ?_⟩⟩
  · obtain ⟨m, hm⟩ := create_matrix_by_index_builds (R := R) sizes hbuild
    have hshape := (create_func_matrix_base_in_builder R).shape (sizes.map List.range) [] m hm
    rw [map_length_map_range] at hshape
    exact ⟨m, hm, hshape.1, hshape.2, fun idxs hidx => ⟨_, in_impl_by_index sizes [] idxs m hm hidx⟩⟩
  · obtain ⟨m, hm⟩ := create_matrix_builds E val R sizes hbuild
    have hshape := (create_func_matrix_base_builder E val R).shape (sizes.map List.range) [] m hm
    rw [map_length_map_range] at hshape
    refine ⟨m, hm, hshape.1, hshape.2, fun idxs hidx => ?_⟩
    obtain ⟨cell, hcell, _⟩ := in_impl_by_value E val R sizes [] idxs m hm hidx
    exact ⟨cell, hcell⟩
  · exact create_matrix_by_index_ill_formed sizes hbuild
  · exact create_matrix_ill_formed E val R sizes hbuild

/-! ### Storage round trip -/

theorem variadic_union.placed_head (Head : Ty) (Tail : List Ty) (x : val Head) :
    variadic_union.get (Head :: Tail) 0 (union_members.head x : variadic_union val (Head :: Tail))
      = some x ∧
    variadic_union.live_depth (Head :: Tail)
      (union_members.head x : variadic_union val (Head :: Tail)) = some 0 ∧
    ∀ j, j ≠ 0 → variadic_union.get (Head :: Tail) j
      (union_members.head x : variadic_union val (Head :: Tail)) = none := by
  refine ⟨rfl, rfl, ?_⟩
  intro j hj
  cases j with
  | zero => exact absurd rfl hj
  | succ j => rfl

theorem variadic_union.placed_tail (Head : Ty) (Tail : List Ty) (i : Nat)
    (x : alt_val val (get_type i Tail)) (t : variadic_union val Tail)
    (h : variadic_union.get Tail i t = some x ∧ variadic_union.live_depth Tail t = some i ∧
      ∀ j, j ≠ i → variadic_union.get Tail j t = none) :
    variadic_union.get (Head :: Tail) (i + 1)
      (union_members.tail t : variadic_union val (Head :: Tail)) = some x ∧
    variadic_union.live_depth (Head :: Tail)
      (union_members.tail t : variadic_union val (Head :: Tail)) = some (i + 1) ∧
    ∀ j, j ≠ i + 1 → variadic_union.get (Head :: Tail) j
      (union_members.tail t : variadic_union val (Head :: Tail)) = none := by
  refine ⟨h.1, ?_, ?_⟩
  · simp [variadic_union.live_depth, h.2.1]
  · intro j hj
    cases j with
    | zero => rfl
    | succ j =>
      simp only [variadic_union.get]
      exact h.2.2 j (fun hji => hj (by rw [hji]))

theorem variadic_union.in_place_places {Args : Type} : (Types : List Ty) → (Index : Nat) →
    Index < Types.length →
    (construct : Args → Except E (alt_val val (get_type Index Types)) × Args) → (args : Args) →
    (x : alt_val val (get_type Index Types)) → (args1 : Args) →
    construct args = (Except.ok x, args1) →
    ∃ st, variadic_union.in_place Types Index construct args = (Except.ok st, args1) ∧
      variadic_union.get Types Index st = some x ∧
      variadic_union.live_depth Types st = some Index ∧
      ∀ j, j ≠ Index → variadic_union.get Types j st = none
  | [], _, h, _, _, _, _, _ => absurd h (Nat.not_lt_zero _)
  | Head :: Tail, 0, _, construct, args, x, args1, hc => by
    refine ⟨union_members.head x, ?_, variadic_union.placed_head Head Tail x⟩
    simp [variadic_union.in_place, hc]
  | Head :: Tail, i + 1, h, construct, args, x, args1, hc => by
    obtain ⟨st, hst, hp⟩ := variadic_union.in_place_places Tail i (Nat.lt_of_succ_lt_succ h)
      construct args x args1 hc
    refine ⟨union_members.tail st, ?_, variadic_union.placed_tail Head Tail i x st hp⟩
    simp only [variadic_union.in_place]
    rw [hst]

theorem variadic_union.set_places {Args : Type} : (Types : List Ty) → (Index : Nat) →
    Index < Types.length →
    (construct : Args → Except E (alt_val val (get_type Index Types)) × Args) → (args : Args) →
    (x : alt_val val (get_type Index Types)) → (args1 : Args) →
    construct args = (Except.ok x, args1) → (u : variadic_union val Types) →
    ∃ st, variadic_union.set Types Index construct args u = ((Except.ok x, args1), st) ∧
      variadic_union.get Types Index st = some x ∧
      variadic_union.live_depth Types st = some Index ∧
      ∀ j, j ≠ Index → variadic_union.get Types j st = none
  | [], _, h, _, _, _, _, _, _ => absurd h (Nat.not_lt_zero _)
  | Head :: Tail, 0, _, construct, args, x, args1, hc, u => by
    refine ⟨union_members.head x, ?_, variadic_union.placed_head Head Tail x⟩
    simp [variadic_union.set, hc]
  | Head :: Tail, i + 1, h, construct, args, x, args1, hc, u => by
    obtain ⟨st, hst, hp⟩ := variadic_union.set_places Tail i (Nat.lt_of_succ_lt_succ h)
      construct args x args1 hc (variadic_union.tail_member u)
    refine ⟨union_members.tail st, ?_, variadic_union.placed_tail Head Tail i x st hp⟩
    simp only [variadic_union.set]
    rw [hst]

/-- C23: for a pack of length `N`, an index `i < N` and arguments from which the constructor of
alternative `i` makes the value `x`: the storage constructed with `(in_place_index<i>, args)`,
and any storage after `set(in_place_index<i>, args)`, has its live member `i` steps into the
tail, `get(in_place_index<i>)` returns `x` from it and no other alternative is live; `set`
returns (a reference to) `x`. -/
theorem storage_round_trip {Args : Type} (Types : List Ty) (Index : Nat)
    (hi : Index < Types.length)
    (construct : Args → Except E (alt_val val (get_type Index Types)) × Args) (args : Args)
    (x : alt_val val (get_type Index Types)) (args1 : Args)
    (hc : construct args = (Except.ok x, args1)) :
    (∃ st, variadic_union.in_place Types Index construct args = (Except.ok st, args1) ∧
      variadic_union.get Types Index st = some x ∧
      variadic_union.live_depth Types st = some Index ∧
      ∀ j, j ≠ Index → variadic_union.get Types j st = none) ∧
    (∀ u : variadic_union val Types,
      ∃ st, variadic_union.set Types Index construct args u = ((Except.ok x, args1), st) ∧
        variadic_union.get Types Index st = some x ∧
        variadic_union.live_depth Types st = some Index ∧
        ∀ j, j ≠ Index → variadic_union.get Types j st = none) :=
  ⟨variadic_union.in_place_places Types Index hi construct args x args1 hc,
    variadic_union.set_places Types Index hi construct args x args1 hc⟩

/-! ### The class invariant after every operation -/

theorem has_value_of_get (v : variant val Types) (i : Nat) (x : alt_val val (get_type i Types))
    (h : (get i v : Except (Fault E) _) = Except.ok x) : v.has_value ∧ i = v.index_ := by
  have hi := index_of_get v i x h
  subst hi
  have hsome : (variadic_union.get Types v.index_ v.storage).isSome = true := by
    cases hg : variadic_union.get Types v.index_ v.storage with
    | none => simp [get, variant.index, hg] at h
    | some y => rfl
  refine ⟨⟨?_, hsome⟩, rfl⟩
  by_contra hlt
  rw [variadic_union.get_past_end Types v.index_ (Nat.le_of_not_lt hlt) v.storage] at hsome
  exact absurd hsome (by simp)

theorem get_of_has_value (v : variant val Types) (h : v.has_value) :
    ∃ x, (get v.index v : Except (Fault E) _) = Except.ok x := by
  obtain ⟨x, hx⟩ := Option.isSome_iff_exists.mp h.2
  have hx1 : variadic_union.get Types v.index v.storage = some x := hx
  exact ⟨x, by simp [get, hx1]⟩

theorem wf_of_has_value (v : variant val Types) (h : v.has_value) : v.wf := Or.inr h

theorem store_wf (v : variant val Types) (i : Nat) (x y : alt_val val (get_type i Types))
    (h : (get i v : Except (Fault E) _) = Except.ok x) : (v.store i y).wf := by
  obtain ⟨hv, hi⟩ := has_value_of_get v i x h
  exact Or.inr (store_has_value v hv i hi y)

theorem vstorage.set_wf {Args : Type} (s : variant val Types) (hs : s.index_ = variant_npos)
    (Index : Nat) (hi : Index < Types.length)
    (construct : Args → Except E (alt_val val (get_type Index Types)) × Args) (args : Args)
    (r : Except (Fault E) (alt_val val (get_type Index Types))) (s1 : variant val Types)
    (args1 : Args) (h : vstorage.set Index construct args s = (r, s1, args1)) :
    defined_outcome r ∧ s1.wf := by
  rcases hc : construct args with ⟨c, a⟩
  cases c with
  | error e =>
    have herr := variadic_union.set_error Types Index construct args s.storage e a hc
    simp only [vstorage.set] at h
    rcases hq : variadic_union.set Types Index construct args s.storage with ⟨⟨r1, a1⟩, st⟩
    rw [hq] at h herr
    simp only [Prod.mk.injEq] at herr
    obtain ⟨hr, _⟩ := herr
    subst hr
    simp only [Prod.mk.injEq] at h
    obtain ⟨h1, h2, _⟩ := h
    subst h1 h2
    exact ⟨trivial, Or.inl hs⟩
  | ok y =>
    obtain ⟨s2, hs2, hidx, hget⟩ := vstorage.set_constructs s Index hi construct args y a hc
    rw [hs2] at h
    simp only [Prod.mk.injEq] at h
    obtain ⟨h1, h2, _⟩ := h
    subst h1 h2
    exact ⟨trivial, (wf_of_get (E := E) s2 Index hi y hidx hget).1⟩

theorem variant.emplace_wf {Args : Type} (tr : alt_traits Ty E val) (self : variant val Types)
    (hwf : self.wf) (Index : Nat) (hi : Index < Types.length)
    (construct : Args → Except E (alt_val val (get_type Index Types)) × Args) (args : Args)
    (r : Except (Fault E) (alt_val val (get_type Index Types))) (s1 : variant val Types)
    (args1 : Args) (h : self.emplace tr Index construct args = (r, s1, args1)) :
    defined_outcome r ∧ s1.wf := by
  obtain ⟨s0, hs0, hidx⟩ := variant.make_valueless_wf tr self hwf
  simp only [variant.emplace, hs0] at h
  exact vstorage.set_wf s0 hidx Index hi construct args r s1 args1 h

theorem vstorage.in_place_wf {Args : Type} (Index : Nat) (hi : Index < Types.length)
    (construct : Args → Except E (alt_val val (get_type Index Types)) × Args) (args : Args)
    (r : Except (Fault E) (variant val Types)) (args1 : Args)
    (h : vstorage.in_place Index construct args = (r, args1)) :
    defined_outcome r ∧ ∀ v, r = Except.ok v → v.wf := by
  rcases hc : construct args with ⟨c, a⟩
  cases c with
  | error e =>
    rw [vstorage.in_place_throws Index construct args e a hc] at h
    simp only [Prod.mk.injEq] at h
    obtain ⟨h1, _⟩ := h
    subst h1
    exact ⟨trivial, fun v hv => by simp at hv⟩
  | ok y =>
    refine ⟨?_, fun v hv => ?_⟩
    · obtain ⟨v1, hv1, _⟩ := @vstorage.in_place_constructs _ _ _ Types _ Index hi construct args
        y a hc
      rw [hv1] at h
      simp only [Prod.mk.injEq] at h
      obtain ⟨h1, _⟩ := h
      subst h1
      trivial
    · subst hv
      exact Or.inr (vstorage.in_place_has_value Index hi construct args v args1 h)

theorem rethrow_defined {α : Type} (r : Except E α) :
    defined_outcome (rethrow r : Except (Fault E) Unit) := by
  cases r <;> trivial

theorem defined_outcome_error {α β : Type} (f : Fault E)
    (h : defined_outcome (Except.error f : Except (Fault E) α)) :
    defined_outcome (Except.error f : Except (Fault E) β) := by
  cases f <;> exact h

theorem get_at_index (v : variant val Types) (h : v.has_value) (i : Nat) (hi : i = v.index) :
    ∃ x, (get i v : Except (Fault E) _) = Except.ok x := by
  subst hi
  exact get_of_has_value v h

theorem has_value_of_wf (v : variant val Types) (hwf : v.wf)
    (hv : v.valueless_by_exception = false) : v.has_value := by
  rcases hwf with h | h
  · exact absurd h ((not_valueless_iff v).mp hv)
  · exact h

theorem copy_ctor_visitor_wf (tr : alt_traits Ty E val) (self other : variant val Types)
    (hs : self.wf) (ho : other.has_value) :
    ∃ r v, copy_ctor_visitor tr self other [other.index] = some (r, v) ∧
      defined_outcome r ∧ v.wf := by
  obtain ⟨x, hx⟩ := get_of_has_value (E := E) other ho
  simp only [copy_ctor_visitor, hx]
  rcases he : self.emplace tr other.index (copy_construct_at tr (get_type other.index Types)) x
    with ⟨r, s1, a1⟩
  obtain ⟨hr, hs1⟩ := variant.emplace_wf tr self hs other.index ho.1 _ x r s1 a1 he
  cases r with
  | ok y => exact ⟨_, _, rfl, trivial, hs1⟩
  | error f => exact ⟨_, _, rfl, defined_outcome_error f hr, hs1⟩

theorem copy_ctor_wf (tr : alt_traits Ty E val) (other : variant val Types) (ho : other.wf)
    (r : Except (Fault E) Unit) (v : variant val Types)
    (h : variant.copy_ctor tr other = (r, v)) : defined_outcome r ∧ v.wf := by
  cases hv : other.valueless_by_exception with
  | true =>
    simp only [variant.copy_ctor, hv, Bool.not_true, Bool.false_eq_true, ↓reduceIte,
      Prod.mk.injEq] at h
    obtain ⟨h1, h2⟩ := h
    subst h1 h2
    exact ⟨trivial, vstorage.undefined_wf val Types⟩
  | false =>
    have hov := has_value_of_wf other ho hv
    obtain ⟨r1, v1, hvis, hr, hwf⟩ := copy_ctor_visitor_wf tr (vstorage.undefined val Types)
      other (vstorage.undefined_wf val Types) hov
    simp only [variant.copy_ctor, hv, Bool.not_false, ↓reduceIte,
      visit_by_index_one _ other hov.1, hvis, Prod.mk.injEq] at h
    obtain ⟨h1, h2⟩ := h
    subst h1 h2
    exact ⟨hr, hwf⟩

theorem move_ctor_visitor_wf (tr : alt_traits Ty E val) (self other : variant val Types)
    (hs : self.wf) (ho : other.has_value) :
    ∃ r v o1, move_ctor_visitor tr self other [other.index] = some (r, v, o1) ∧
      defined_outcome r ∧ v.wf ∧ o1.wf ∧ (r = Except.ok () → v.has_value ∧ o1.has_value) := by
  obtain ⟨x, hx⟩ := get_of_has_value (E := E) other ho
  simp only [move_ctor_visitor, hx]
  rcases he : self.emplace tr other.index (move_construct_at tr (get_type other.index Types)) x
    with ⟨r, s1, a1⟩
  obtain ⟨hr, hs1⟩ := variant.emplace_wf tr self hs other.index ho.1 _ x r s1 a1 he
  cases r with
  | ok y =>
    exact ⟨_, _, _, rfl, trivial, hs1, store_wf other _ x a1 hx,
      fun _ => ⟨variant.emplace_has_value tr self other.index ho.1 _ x y s1 a1 he,
        store_has_value other ho other.index rfl a1⟩⟩
  | error f =>
    exact ⟨_, _, _, rfl, defined_outcome_error f hr, hs1, store_wf other _ x a1 hx,
      fun hc => by simp at hc⟩

theorem move_ctor_wf (tr : alt_traits Ty E val) (other : variant val Types) (ho : other.wf)
    (r : Except (Fault E) Unit) (v o1 : variant val Types)
    (h : variant.move_ctor tr other = (r, v, o1)) : defined_outcome r ∧ v.wf ∧ o1.wf := by
  cases hv : other.valueless_by_exception with
  | true =>
    simp only [variant.move_ctor, hv, Bool.not_true, Bool.false_eq_true, ↓reduceIte,
      Prod.mk.injEq] at h
    obtain ⟨h1, h2, h3⟩ := h
    subst h1 h2 h3
    exact ⟨trivial, vstorage.undefined_wf val Types, ho⟩
  | false =>
    have hov := has_value_of_wf other ho hv
    obtain ⟨r1, v1, o2, hvis, hr, hwf, hwfo, _⟩ := move_ctor_visitor_wf tr
      (vstorage.undefined val Types) other (vstorage.undefined_wf val Types) hov
    simp only [variant.move_ctor, hv, Bool.not_false, ↓reduceIte,
      visit_by_index_one _ other hov.1, hvis, Prod.mk.injEq] at h
    obtain ⟨h1, h2, h3⟩ := h
    subst h1 h2 h3
    exact ⟨hr, hwf, hwfo⟩

theorem move_assign_visitor_wf (tr : alt_traits Ty E val) (self other : variant val Types)
    (hs : self.wf) (hN : Types.length ≤ variant_npos) (ho : other.has_value) :
    ∃ r s1 o1, move_assign_visitor tr self other [other.index] = some (r, s1, o1) ∧
      defined_outcome r ∧ s1.wf ∧ o1.wf := by
  obtain ⟨x, hx⟩ := get_of_has_value (E := E) other ho
  by_cases hne : other.index ≠ self.index
  · simp only [move_assign_visitor, hne, ne_eq, not_false_eq_true, ↓reduceIte, hx]
    rcases he : self.emplace tr other.index
      (move_construct_at tr (get_type other.index Types)) x with ⟨r, s1, a1⟩
    obtain ⟨hr, hs1⟩ := variant.emplace_wf tr self hs other.index ho.1 _ x r s1 a1 he
    cases r with
    | ok y => exact ⟨_, _, _, rfl, trivial, hs1, store_wf other _ x a1 hx⟩
    | error f =>
      exact ⟨_, _, _, rfl, defined_outcome_error f hr, hs1, store_wf other _ x a1 hx⟩
  · have heq : other.index = self.index := not_not.mp hne
    have hsv : self.has_value := by
      rcases hs with h | h
      · have hlt : other.index < Types.length := ho.1
        rw [heq, variant.index, h] at hlt
        exact absurd rfl (ne_npos_of_lt hN _ hlt)
      · exact h
    obtain ⟨a, ha⟩ := get_at_index (E := E) self hsv other.index heq
    simp only [move_assign_visitor, hne, ↓reduceIte, hx, ha]
    exact ⟨_, _, _, rfl, rethrow_defined _, store_wf self _ a _ ha, store_wf other _ x _ hx⟩

theorem move_assign_wf (tr : alt_traits Ty E val) (self other : variant val Types)
    (hs : self.wf) (ho : other.wf) (hN : Types.length ≤ variant_npos)
    (r : Except (Fault E) Unit) (s1 o1 : variant val Types)
    (h : self.move_assign tr other = (r, s1, o1)) : defined_outcome r ∧ s1.wf ∧ o1.wf := by
  cases hv : other.valueless_by_exception with
  | true =>
    cases hsv : self.valueless_by_exception with
    | true =>
      simp only [variant.move_assign, hv, hsv, Bool.not_true, Bool.false_eq_true, ↓reduceIte,
        Prod.mk.injEq] at h
      obtain ⟨h1, h2, h3⟩ := h
      subst h1 h2 h3
      exact ⟨trivial, hs, ho⟩
    | false =>
      obtain ⟨s0, hs0, hidx⟩ := variant.make_valueless_wf tr self hs
      simp only [variant.move_assign, hv, hsv, Bool.not_false, ↓reduceIte, hs0,
        Prod.mk.injEq] at h
      obtain ⟨h1, h2, h3⟩ := h
      subst h1 h2 h3
      exact ⟨trivial, Or.inl hidx, ho⟩
  | false =>
    have hov := has_value_of_wf other ho hv
    obtain ⟨r1, s2, o2, hvis, hr, hwf, hwfo⟩ := move_assign_visitor_wf tr self other hs hN hov
    simp only [variant.move_assign, hv, Bool.false_eq_true, ↓reduceIte,
      visit_by_index_one _ other hov.1, hvis, Prod.mk.injEq] at h
    obtain ⟨h1, h2, h3⟩ := h
    subst h1 h2 h3
    exact ⟨hr, hwf, hwfo⟩

theorem copy_assign_visitor_wf (tr : alt_traits Ty E val) (self other : variant val Types)
    (hs : self.wf) (hN : Types.length ≤ variant_npos) (ho : other.has_value) :
    ∃ r s1, copy_assign_visitor tr self other [other.index] = some (r, s1) ∧
      defined_outcome r ∧ s1.wf := by
  obtain ⟨x, hx⟩ := get_of_has_value (E := E) other ho
  by_cases hne : other.index ≠ self.index
  · by_cases hb : (!is_nothrow_copy_constructible_v tr (get_type other.index Types) &&
        is_nothrow_move_constructible_v tr (get_type other.index Types)) = true
    · simp only [copy_assign_visitor, hne, ne_eq, not_false_eq_true, ↓reduceIte, hb]
      rcases hc : variant.copy_ctor tr other with ⟨r, temporary⟩
      obtain ⟨hr, ht⟩ := copy_ctor_wf tr other (Or.inr ho) r temporary hc
      cases r with
      | error f => exact ⟨_, _, rfl, hr, hs⟩
      | ok u =>
        rcases hm : self.move_assign tr temporary with ⟨r1, s1, t1⟩
        obtain ⟨hr1, hs1, _⟩ := move_assign_wf tr self temporary hs ht hN r1 s1 t1 hm
        exact ⟨_, _, rfl, by rw [hm]; exact hr1, by rw [hm]; exact hs1⟩
    · simp only [copy_assign_visitor, hne, ne_eq, not_false_eq_true, ↓reduceIte, hb, hx]
      rcases he : self.emplace tr other.index
        (copy_construct_at tr (get_type other.index Types)) x with ⟨r, s1, a1⟩
      obtain ⟨hr, hs1⟩ := variant.emplace_wf tr self hs other.index ho.1 _ x r s1 a1 he
      cases r with
      | ok y => exact ⟨_, _, rfl, trivial, hs1⟩
      | error f => exact ⟨_, _, rfl, defined_outcome_error f hr, hs1⟩
  · have heq : other.index = self.index := not_not.mp hne
    have hsv : self.has_value := by
      rcases hs with h | h
      · have hlt : other.index < Types.length := ho.1
        rw [heq, variant.index, h] at hlt
        exact absurd rfl (ne_npos_of_lt hN _ hlt)
      · exact h
    obtain ⟨a, ha⟩ := get_at_index (E := E) self hsv other.index heq
    simp only [copy_assign_visitor, hne, ↓reduceIte, hx, ha]
    exact ⟨_, _, rfl, rethrow_defined _, store_wf self _ a _ ha⟩

/-- Copy assignment keeps the class invariant, except from a valueless source into a container
with a value, where the lookup of `visit_by_index` is made with the sentinel. -/
theorem copy_assign_wf (tr : alt_traits Ty E val) (self other : variant val Types)
    (hs : self.wf) (ho : other.wf) (hN : Types.length ≤ variant_npos)
    (r : Except (Fault E) Unit) (s1 : variant val Types)
    (h : self.copy_assign tr other = (r, s1)) :
    (other.valueless_by_exception = true ∧ self.valueless_by_exception = false ∧
      r = Except.error Fault.undefined_behaviour) ∨
    (¬(other.valueless_by_exception = true ∧ self.valueless_by_exception = false) ∧
      defined_outcome r ∧ s1.wf) := by
  cases hv : other.valueless_by_exception with
  | true =>
    cases hsv : self.valueless_by_exception with
    | true =>
      simp only [variant.copy_assign, hv, hsv, Bool.not_true, Bool.false_eq_true, ↓reduceIte,
        Prod.mk.injEq] at h
      obtain ⟨h1, h2⟩ := h
      subst h1 h2
      exact Or.inr ⟨by simp, trivial, hs⟩
    | false =>
      obtain ⟨s0, _, hca⟩ := copy_assign_valueless_source tr self other hs hsv hv hN
      rw [hca] at h
      simp only [Prod.mk.injEq] at h
      exact Or.inl ⟨rfl, rfl, h.1.symm⟩
  | false =>
    have hov := has_value_of_wf other ho hv
    obtain ⟨r1, s2, hvis, hr, hwf⟩ := copy_assign_visitor_wf tr self other hs hN hov
    simp only [variant.copy_assign, hv, Bool.false_eq_true, ↓reduceIte, copy_assign_dispatch,
      visit_by_index_one _ other hov.1, hvis, Prod.mk.injEq] at h
    obtain ⟨h1, h2⟩ := h
    subst h1 h2
    exact Or.inr ⟨by simp, hr, hwf⟩

theorem std_swap_wf (tr : alt_traits Ty E val) (a b : variant val Types)
    (ha : a.wf) (hb : b.wf) (hN : Types.length ≤ variant_npos)
    (r : Except (Fault E) Unit) (a1 b1 : variant val Types)
    (h : std_swap tr a b = (r, a1, b1)) : defined_outcome r ∧ a1.wf ∧ b1.wf := by
  simp only [std_swap] at h
  rcases hc : variant.move_ctor tr a with ⟨r0, tmp, a2⟩
  obtain ⟨hr0, htmp, ha2⟩ := move_ctor_wf tr a ha r0 tmp a2 hc
  rw [hc] at h
  cases r0 with
  | error f =>
    simp only [Prod.mk.injEq] at h
    obtain ⟨h1, h2, h3⟩ := h
    subst h1 h2 h3
    exact ⟨hr0, ha2, hb⟩
  | ok u =>
    simp only at h
    rcases hm : a2.move_assign tr b with ⟨r1, a3, b2⟩
    obtain ⟨hr1, ha3, hb2⟩ := move_assign_wf tr a2 b ha2 hb hN r1 a3 b2 hm
    rw [hm] at h
    cases r1 with
    | error f =>
      simp only [Prod.mk.injEq] at h
      obtain ⟨h1, h2, h3⟩ := h
      subst h1 h2 h3
      exact ⟨hr1, ha3, hb2⟩
    | ok u1 =>
      simp only at h
      rcases hm2 : b2.move_assign tr tmp with ⟨r2, b3, t1⟩
      obtain ⟨hr2, hb3, _⟩ := move_assign_wf tr b2 tmp hb2 htmp hN r2 b3 t1 hm2
      rw [hm2] at h
      simp only [Prod.mk.injEq] at h
      obtain ⟨h1, h2, h3⟩ := h
      subst h1 h2 h3
      exact ⟨hr2, ha3, hb3⟩

theorem swap_set_visitor_wf (tr : alt_traits Ty E val) (self other : variant val Types)
    (hs : self.has_value) (ho : other.index_ = variant_npos) :
    ∃ r s1 o1, swap_set_visitor tr self other [self.index] = some (r, s1, o1) ∧
      defined_outcome r ∧ s1.wf ∧ o1.wf := by
  obtain ⟨x, hx⟩ := get_of_has_value (E := E) self hs
  simp only [swap_set_visitor, hx]
  rcases he : vstorage.set self.index (move_construct_at tr (get_type self.index Types)) x other
    with ⟨r, o1, a1⟩
  obtain ⟨hr, ho1⟩ := vstorage.set_wf other ho self.index hs.1 _ x r o1 a1 he
  cases r with
  | ok y => exact ⟨_, _, _, rfl, trivial, store_wf self _ x a1 hx, ho1⟩
  | error f =>
    exact ⟨_, _, _, rfl, defined_outcome_error f hr, store_wf self _ x a1 hx, ho1⟩

theorem swap_same_visitor_wf (sw : alt_swap Ty E val) (self other : variant val Types)
    (hs : self.has_value) (ho : other.has_value) (heq : self.index = other.index) :
    ∃ r s1 o1, swap_same_visitor sw self other [other.index] = some (r, s1, o1) ∧
      defined_outcome r ∧ s1.wf ∧ o1.wf := by
  obtain ⟨b, hb⟩ := get_of_has_value (E := E) other ho
  obtain ⟨a, ha⟩ := get_at_index (E := E) self hs other.index heq.symm
  rcases hw : swap_at sw (get_type other.index Types) a b with ⟨r, a1, b1⟩
  cases r with
  | ok u =>
    have hvis : swap_same_visitor sw self other [other.index] =
        some (Except.ok (), { self.store other.index a1 with index_ := other.index_ },
          { other.store other.index b1 with index_ := self.index_ }) := by
      simp only [swap_same_visitor, ha, hb, hw]
    obtain ⟨h1, h2⟩ := swap_same_visitor_has_value sw self other _ _ hs ho heq hvis
    exact ⟨_, _, _, hvis, trivial, Or.inr h1, Or.inr h2⟩
  | error e =>
    refine ⟨Except.error (Fault.alternative e), self.store other.index a1,
      other.store other.index b1, ?_, trivial, store_wf self _ a a1 ha,
      store_wf other _ b b1 hb⟩
    simp only [swap_same_visitor, ha, hb, hw]

theorem swap_wf (tr : alt_traits Ty E val) (sw : alt_swap Ty E val)
    (self other : variant val Types) (hs : self.wf) (ho : other.wf)
    (hN : Types.length ≤ variant_npos) (r : Except (Fault E) Unit)
    (s1 o1 : variant val Types) (h : self.swap tr sw other = (r, s1, o1)) :
    defined_outcome r ∧ s1.wf ∧ o1.wf := by
  cases hsv : self.valueless_by_exception <;> cases hov : other.valueless_by_exception
  · have hsh := has_value_of_wf self hs hsv
    have hoh := has_value_of_wf other ho hov
    by_cases hne : self.index ≠ other.index
    · simp only [variant.swap, hsv, hov, Bool.and_self, Bool.false_eq_true, ↓reduceIte, hne,
        ne_eq, not_false_eq_true] at h
      rcases hw : std_swap tr other self with ⟨r1, o2, s2⟩
      obtain ⟨hr, ho2, hs2⟩ := std_swap_wf tr other self ho hs hN r1 o2 s2 hw
      rw [hw] at h
      simp only [Prod.mk.injEq] at h
      obtain ⟨h1, h2, h3⟩ := h
      subst h1 h2 h3
      exact ⟨hr, hs2, ho2⟩
    · obtain ⟨r1, s2, o2, hvis, hr, hs2, ho2⟩ := swap_same_visitor_wf sw self other hsh hoh
        (not_not.mp hne)
      simp only [variant.swap, hsv, hov, Bool.and_self, Bool.false_eq_true, ↓reduceIte, hne,
        visit_by_index_one _ other hoh.1, hvis, Prod.mk.injEq] at h
      obtain ⟨h1, h2, h3⟩ := h
      subst h1 h2 h3
      exact ⟨hr, hs2, ho2⟩
  · have hsh := has_value_of_wf self hs hsv
    have hoi : other.index_ = variant_npos := (valueless_iff other).mp hov
    obtain ⟨r1, s2, o2, hvis, hr, hs2, ho2⟩ := swap_set_visitor_wf tr self other hsh hoi
    simp only [variant.swap, hsv, hov, Bool.false_and, Bool.and_false, Bool.false_eq_true,
      ↓reduceIte, visit_by_index_one _ self hsh.1, hvis] at h
    cases r1 with
    | error f =>
      simp only [Prod.mk.injEq] at h
      obtain ⟨h1, h2, h3⟩ := h
      subst h1 h2 h3
      exact ⟨hr, hs2, ho2⟩
    | ok u =>
      obtain ⟨s3, hs3, hidx⟩ := variant.make_valueless_wf tr s2 hs2
      simp only [hs3, Prod.mk.injEq] at h
      obtain ⟨h1, h2, h3⟩ := h
      subst h1 h2 h3
      exact ⟨trivial, Or.inl hidx, ho2⟩
  · have hoh := has_value_of_wf other ho hov
    obtain ⟨r1, s2, o2, hvis, hr, hs2, ho2, _⟩ := move_ctor_visitor_wf tr self other hs hoh
    simp only [variant.swap, hsv, hov, Bool.and_false, Bool.false_eq_true,
      ↓reduceIte, visit_by_index_one _ other hoh.1, hvis] at h
    cases r1 with
    | error f =>
      simp only [Prod.mk.injEq] at h
      obtain ⟨h1, h2, h3⟩ := h
      subst h1 h2 h3
      exact ⟨hr, hs2, ho2⟩
    | ok u =>
      obtain ⟨o3, ho3, hidx⟩ := variant.make_valueless_wf tr o2 ho2
      simp only [ho3, Prod.mk.injEq] at h
      obtain ⟨h1, h2, h3⟩ := h
      subst h1 h2 h3
      exact ⟨trivial, hs2, Or.inl hidx⟩
  · simp only [variant.swap, hsv, hov, Bool.and_self, ↓reduceIte, Prod.mk.injEq] at h
    obtain ⟨h1, h2, h3⟩ := h
    subst h1 h2 h3
    exact ⟨trivial, hs, ho⟩

theorem converting_assign_wf [DecidableEq Ty] {From : Type} (tr : alt_traits Ty E val)
    (cv : conversion Ty E val From) (f f1 : From) (self s1 : variant val Types)
    (hs : self.wf) (hN : Types.length ≤ variant_npos) (r : Except (Fault E) Unit)
    (h : self.converting_assign tr cv f = some (r, s1, f1)) : defined_outcome r ∧ s1.wf := by
  simp only [variant.converting_assign] at h
  cases hc : chosen_construct_type cv Types with
  | none =>
    rw [hc] at h
    simp at h
  | some c =>
    have hlt := chosen_construct_type_lt_length cv Types c hc
    rw [hc] at h
    simp only at h
    cases hk : construct_at cv (get_type c.1 Types) with
    | none =>
      rw [hk] at h
      simp at h
    | some construct =>
      cases ha : assign_at cv (get_type c.1 Types) with
      | none =>
        rw [hk, ha] at h
        simp at h
      | some assign =>
        rw [hk, ha] at h
        simp only at h
        by_cases hi : c.1 = self.index
        · have hsv : self.has_value := by
            rcases hs with h0 | h0
            · rw [hi, variant.index, h0] at hlt
              exact absurd rfl (ne_npos_of_lt hN _ hlt)
            · exact h0
          obtain ⟨t, ht⟩ := get_at_index (E := E) self hsv c.1 hi
          rw [if_pos hi, ht] at h
          simp only [Option.some.injEq, Prod.mk.injEq] at h
          obtain ⟨h1, h2, _⟩ := h
          subst h1 h2
          exact ⟨rethrow_defined _, store_wf self _ t _ ht⟩
        · rw [if_neg hi] at h
          by_cases hb : (is_nothrow_move_constructible_v tr (get_type c.1 Types) &&
              !is_nothrow_constructible_v cv (get_type c.1 Types)) = true
          · rw [if_pos hb] at h
            rcases hcf : construct f with ⟨r0, f2⟩
            rw [hcf] at h
            cases r0 with
            | error e =>
              simp only [Option.some.injEq, Prod.mk.injEq] at h
              obtain ⟨h1, h2, _⟩ := h
              subst h1 h2
              exact ⟨trivial, hs⟩
            | ok temporary =>
              simp only at h
              rcases he : self.emplace tr c.1 (move_construct_at tr (get_type c.1 Types))
                temporary with ⟨r1, s2, a1⟩
              obtain ⟨hr1, hs2⟩ := variant.emplace_wf tr self hs c.1 hlt _ temporary r1 s2 a1 he
              rw [he] at h
              cases r1 with
              | error e =>
                simp only [Option.some.injEq, Prod.mk.injEq] at h
                obtain ⟨h1, h2, _⟩ := h
                subst h1 h2
                exact ⟨defined_outcome_error e hr1, hs2⟩
              | ok y =>
                simp only [Option.some.injEq, Prod.mk.injEq] at h
                obtain ⟨h1, h2, _⟩ := h
                subst h1 h2
                exact ⟨trivial, hs2⟩
          · rw [if_neg hb] at h
            rcases he : self.emplace tr c.1 construct f with ⟨r1, s2, a1⟩
            obtain ⟨hr1, hs2⟩ := variant.emplace_wf tr self hs c.1 hlt _ f r1 s2 a1 he
            rw [he] at h
            cases r1 with
            | error e =>
              simp only [Option.some.injEq, Prod.mk.injEq] at h
              obtain ⟨h1, h2, _⟩ := h
              subst h1 h2
              exact ⟨defined_outcome_error e hr1, hs2⟩
            | ok y =>
              simp only [Option.some.injEq, Prod.mk.injEq] at h
              obtain ⟨h1, h2, _⟩ := h
              subst h1 h2
              exact ⟨trivial, hs2⟩

theorem converting_ctor_wf [DecidableEq Ty] {From : Type} (cv : conversion Ty E val From)
    (f f1 : From) (r : Except (Fault E) (variant val Types))
    (h : variant.converting_ctor cv Types f = some (r, f1)) :
    (defined_outcome r ∨ r = Except.error Fault.terminate) ∧ ∀ v, r = Except.ok v → v.wf := by
  simp only [variant.converting_ctor] at h
  cases hc : chosen_construct_type cv Types with
  | none =>
    rw [hc] at h
    simp at h
  | some c =>
    have hlt := chosen_construct_type_lt_length cv Types c hc
    rw [hc] at h
    simp only at h
    cases hk : construct_at cv (get_type c.1 Types) with
    | none =>
      rw [hk] at h
      simp at h
    | some construct =>
      rw [hk] at h
      simp only at h
      rcases hp : vstorage.in_place c.1 construct f with ⟨r1, f2⟩
      rw [hp] at h
      have hwf := vstorage.in_place_wf c.1 hlt construct f r1 f2 hp
      cases r1 with
      | ok v1 =>
        simp only [Option.some.injEq, Prod.mk.injEq] at h
        obtain ⟨h1, h2⟩ := h
        subst h1
        exact ⟨Or.inl hwf.1, hwf.2⟩
      | error e =>
        simp only at h
        split at h
        · simp only [Option.some.injEq, Prod.mk.injEq] at h
          obtain ⟨h1, h2⟩ := h
          subst h1
          exact ⟨Or.inr rfl, fun v hv => by cases hv⟩
        · simp only [Option.some.injEq, Prod.mk.injEq] at h
          obtain ⟨h1, h2⟩ := h
          subst h1
          exact ⟨Or.inl hwf.1, hwf.2⟩

/-- C25: the class invariant (`index()` is `variant_npos` or a position below `N` at which the
storage holds the value that `get<index()>` returns) holds for the object every constructor
makes and, given it held before, for every object after `emplace`, converting, copy and move
assignment, `swap` and `make_valueless()`, whether the operation returns or lets the exception
of an alternative through (the converting constructor may also end in `std::terminate`, which
leaves no object), with one exception: copy assignment from a valueless container into one with
a value has no defined outcome. -/
theorem index_range_invariant [DecidableEq Ty] (hN : Types.length ≤ variant_npos)
    (tr : alt_traits Ty E val) (sw : alt_swap Ty E val) (dc : alt_default Ty E val) :
    (∀ v : variant val Types, v.wf →
      v.index = variant_npos ∨
        (v.index < Types.length ∧ ∃ x, (get v.index v : Except (Fault E) _) = Except.ok x)) ∧
    (∀ v : variant val Types, variant.default_ctor dc Types = some (Except.ok v) → v.wf) ∧
    (∀ (Args : Type) (Index : Nat), Index < Types.length →
      ∀ (construct : Args → Except E (alt_val val (get_type Index Types)) × Args)
        (args args1 : Args) (r : Except (Fault E) (variant val Types)),
        variant.in_place_index_ctor Index construct args = (r, args1) →
        defined_outcome r ∧ ∀ v, r = Except.ok v → v.wf) ∧
    (∀ (Args : Type) (T : Ty), count_of T Types = 1 →
      ∀ (construct : Args → Except E (alt_val val (get_type (find_first_v T Types) Types)) × Args)
        (args args1 : Args) (r : Except (Fault E) (variant val Types)),
        variant.in_place_type_ctor T construct args = (r, args1) →
        defined_outcome r ∧ ∀ v, r = Except.ok v → v.wf) ∧
    (∀ (From : Type) (cv : conversion Ty E val From) (f f1 : From)
      (r : Except (Fault E) (variant val Types)),
      variant.converting_ctor cv Types f = some (r, f1) →
      (defined_outcome r ∨ r = Except.error Fault.terminate) ∧ ∀ v, r = Except.ok v → v.wf) ∧
    (∀ other : variant val Types, other.wf → ∀ r v, variant.copy_ctor tr other = (r, v) →
      defined_outcome r ∧ v.wf) ∧
    (∀ other : variant val Types, other.wf →
      ∀ r v other1, variant.move_ctor tr other = (r, v, other1) →
      defined_outcome r ∧ v.wf ∧ other1.wf) ∧
    (∀ (Args : Type) (Index : Nat), Index < Types.length →
      ∀ (construct : Args → Except E (alt_val val (get_type Index Types)) × Args)
        (args args1 : Args) (self self1 : variant val Types)
        (r : Except (Fault E) (alt_val val (get_type Index Types))), self.wf →
        self.emplace tr Index construct args = (r, self1, args1) →
        defined_outcome r ∧ self1.wf) ∧
    (∀ (Args : Type) (T : Ty), count_of T Types = 1 →
      ∀ (construct : Args → Except E (alt_val val (get_type (find_first_v T Types) Types)) × Args)
        (args args1 : Args) (self self1 : variant val Types)
        (r : Except (Fault E) (alt_val val (get_type (find_first_v T Types) Types))), self.wf →
        self.emplace_by_type tr T construct args = (r, self1, args1) →
        defined_outcome r ∧ self1.wf) ∧
    (∀ (From : Type) (cv : conversion Ty E val From) (f f1 : From)
      (self self1 : variant val Types) (r : Except (Fault E) Unit), self.wf →
      self.converting_assign tr cv f = some (r, self1, f1) → defined_outcome r ∧ self1.wf) ∧
    (∀ self other : variant val Types, self.wf → other.wf →
      ∀ r self1, self.copy_assign tr other = (r, self1) →
      (other.valueless_by_exception = true ∧ self.valueless_by_exception = false ∧
        r = Except.error Fault.undefined_behaviour) ∨
      (¬(other.valueless_by_exception = true ∧ self.valueless_by_exception = false) ∧
        defined_outcome r ∧ self1.wf)) ∧
    (∀ self other : variant val Types, self.wf → other.wf →
      ∀ r self1 other1, self.move_assign tr other = (r, self1, other1) →
      defined_outcome r ∧ self1.wf ∧ other1.wf) ∧
    (∀ self other : variant val Types, self.wf → other.wf →
      ∀ r self1 other1, self.swap tr sw other = (r, self1, other1) →
      defined_outcome r ∧ self1.wf ∧ other1.wf) ∧
    (∀ self : variant val Types, self.wf →
      ∃ self1, self.make_valueless tr = some self1 ∧ self1.wf) := by
  refine ⟨?_, ?_, ?_, ?_, ?_, ?_, ?_, ?_, ?_, ?_, ?_, ?_, ?_, ?_⟩
  · intro v hwf
    rcases hwf with h | h
    · exact Or.inl h
    · exact Or.inr ⟨h.1, get_of_has_value v h⟩
  · intro v h
    exact Or.inr (default_ctor_has_value dc v h)
  · intro Args Index hI construct args args1 r h
    exact vstorage.in_place_wf Index hI construct args r args1 h
  · intro Args T hT construct args args1 r h
    exact vstorage.in_place_wf _ (find_first_v_lt_length T Types hT) construct args r args1 h
  · intro From cv f f1 r h
    exact converting_ctor_wf cv f f1 r h
  · intro other ho r v h
    exact copy_ctor_wf tr other ho r v h
  · intro other ho r v other1 h
    exact move_ctor_wf tr other ho r v other1 h
  · intro Args Index hI construct args args1 self self1 r hs h
    exact variant.emplace_wf tr self hs Index hI construct args r self1 args1 h
  · intro Args T hT construct args args1 self self1 r hs h
    exact variant.emplace_wf tr self hs _ (find_first_v_lt_length T Types hT) construct args r
      self1 args1 h
  · intro From cv f f1 self self1 r hs h
    exact converting_assign_wf tr cv f f1 self self1 hs hN r h
  · intro self other hs ho r self1 h
    exact copy_assign_wf tr self other hs ho hN r self1 h
  · intro self other hs ho r self1 other1 h
    exact move_assign_wf tr self other hs ho hN r self1 other1 h
  · intro self other hs ho r self1 other1 h
    exact swap_wf tr sw self other hs ho hN r self1 other1 h
  · intro self hs
    obtain ⟨s, hs1, hidx⟩ := variant.make_valueless_wf tr self hs
    exact ⟨s, hs1, Or.inl hidx⟩

end Theorems

/-! ## The claims at `variant<int, std::string>` -/

theorem Example.holds_int_wf : Example.holds_int.wf := Or.inr ⟨by decide, rfl⟩

theorem Example.holds_string_wf : Example.holds_string.wf := Or.inr ⟨by decide, rfl⟩

theorem Example.holds_long_string_wf : Example.holds_long_string.wf :=
  Or.inr ⟨by decide, rfl⟩

theorem Example.valueless_wf : Example.valueless.wf := Or.inl rfl

theorem Example.single_string_wf : Example.single_string.wf := Or.inr ⟨by decide, rfl⟩

theorem Example.length_le : Example.Types.length ≤ variant_npos := by decide

theorem Example.pack_with_values_wf : ∀ v ∈ Example.pack_with_values, v.2.wf := by
  intro v hv
  simp only [Example.pack_with_values, List.mem_cons, List.mem_singleton, List.mem_nil_iff,
    or_false] at hv
  rcases hv with rfl | rfl
  · exact Example.holds_int_wf
  · exact Example.single_string_wf

theorem Example.pack_with_values_have_value :
    ∀ v ∈ Example.pack_with_values, v.2.valueless_by_exception = false := by
  intro v hv
  simp only [Example.pack_with_values, List.mem_cons, List.mem_singleton, List.mem_nil_iff,
    or_false] at hv
  rcases hv with rfl | rfl <;> rfl

theorem Example.pack_two_values_wf : ∀ v ∈ Example.pack_two_values, v.2.wf := by
  intro v hv
  simp only [Example.pack_two_values, List.mem_cons, List.mem_singleton, List.mem_nil_iff,
    or_false] at hv
  rcases hv with rfl | rfl
  · exact Example.holds_int_wf
  · exact Example.holds_string_wf

theorem Example.pack_two_values_have_value :
    ∀ v ∈ Example.pack_two_values, v.2.valueless_by_exception = false := by
  intro v hv
  simp only [Example.pack_two_values, List.mem_cons, List.mem_singleton, List.mem_nil_iff,
    or_false] at hv
  rcases hv with rfl | rfl <;> rfl

theorem Example.pack_with_valueless_wf : ∀ v ∈ Example.pack_with_valueless, v.2.wf := by
  intro v hv
  simp only [Example.pack_with_valueless, List.mem_cons, List.mem_singleton, List.mem_nil_iff,
    or_false] at hv
  rcases hv with rfl | rfl
  · exact Example.holds_int_wf
  · exact Example.valueless_wf

/-- Witness of C1 on `variant<int, std::string>` holding the `int` 5: `get<0>` returns it,
`get<1>` throws, and `get<int>` is `get<0>`. -/
theorem get_returns_iff_active_witness :
    Example.holds_int.wf ∧ Example.Types.length ≤ variant_npos ∧ 0 < Example.Types.length ∧
    (∃ x, variadic_union.get Example.Types 0 Example.holds_int.storage = some x ∧
      (get 0 Example.holds_int : Except (Fault Example.Exn) _) = Except.ok x) ∧
    find_first_v Example.Ty.int Example.Types = 0 :=
  ⟨Example.holds_int_wf, Example.length_le, by decide,
    (get_returns_iff_active Example.holds_int Example.holds_int_wf Example.length_le 0
      (by decide)).1 rfl,
    ((get_returns_iff_active (E := Example.Exn) Example.holds_int Example.holds_int_wf
      Example.length_le 0 (by decide)).2.2.2 Example.Ty.int rfl rfl).1⟩

/-- Witness of C2 at `variant<int, std::string>`: visiting two such containers throws when one
is valueless and returns the result of the visitor when both hold a value; visiting one of them
together with a `variant<std::string>` is ill-formed. -/
theorem visit_iff_none_valueless_witness :
    (∀ v ∈ Example.pack_with_valueless, v.2.wf) ∧
    table_builds (Example.pack_with_valueless.map (fun v => v.1.length)) = true ∧
    (visit Example.count_args Example.pack_with_valueless : Except (Fault Example.Exn) Nat) =
      Except.error Fault.bad_variant_access ∧
    (∀ v ∈ Example.pack_two_values, v.2.wf) ∧
    table_builds (Example.pack_two_values.map (fun v => v.1.length)) = true ∧
    (∃ args, active_args (E := Example.Exn) Example.pack_two_values args ∧
      (visit Example.count_args Example.pack_two_values : Except (Fault Example.Exn) Nat) =
        Except.ok (Example.count_args args)) ∧
    (visit Example.count_args Example.pack_two_values : Except (Fault Example.Exn) Nat) =
      Except.ok 2 ∧
    (∀ v ∈ Example.pack_with_values, v.2.wf) ∧
    table_builds (Example.pack_with_values.map (fun v => v.1.length)) = false ∧
    (visit Example.count_args Example.pack_with_values : Except (Fault Example.Exn) Nat) =
      Except.error Fault.ill_formed :=
  ⟨Example.pack_with_valueless_wf, rfl,
    ((visit_iff_none_valueless Example.count_args Example.pack_with_valueless
      Example.pack_with_valueless_wf).1 rfl).1.mpr
      ⟨⟨Example.Types, Example.valueless⟩, by simp [Example.pack_with_valueless], rfl⟩,
    Example.pack_two_values_wf, rfl,
    ((visit_iff_none_valueless Example.count_args Example.pack_two_values
      Example.pack_two_values_wf).1 rfl).2 Example.pack_two_values_have_value,
    rfl,
    Example.pack_with_values_wf, rfl,
    (visit_iff_none_valueless Example.count_args Example.pack_with_values
      Example.pack_with_values_wf).2 rfl⟩

/-- Witness of C3 on `variant<int, std::string>` holding the `int` 5: `get_if<0>` is non-null. -/
theorem get_if_non_null_iff_active_witness :
    Example.holds_int.wf ∧ Example.Types.length ≤ variant_npos ∧ 0 < Example.Types.length ∧
    ∃ r, (get_if 0 (some Example.holds_int) : Except (Fault Example.Exn) _) = Except.ok r ∧
      r.isSome = true := by
  refine ⟨Example.holds_int_wf, Example.length_le, by decide, ?_⟩
  obtain ⟨⟨r, hr, hiff, _⟩, _⟩ := get_if_non_null_iff_active Example.Exn Example.holds_int
    Example.holds_int_wf Example.length_le 0 (by decide)
  exact ⟨r, hr, hiff.mpr rfl⟩

/-- Witness of C4: `emplace<1>("x")` on a `variant<int, std::string>` holding the `int` 5. -/
theorem emplace_holds_constructed_witness :
    Example.holds_int.wf ∧ Example.Types.length ≤ variant_npos ∧ 1 < Example.Types.length ∧
    Example.string_from_literal "x" = (Except.ok "x", "x") ∧
    ∃ C1, Example.holds_int.emplace Example.traits 1 Example.string_from_literal "x" =
        (Except.ok "x", C1, "x") ∧
      C1.index = 1 ∧ (get 1 C1 : Except (Fault Example.Exn) _) = Except.ok "x" ∧
      (get 0 C1 : Except (Fault Example.Exn) _) = Except.error Fault.bad_variant_access := by
  refine ⟨Example.holds_int_wf, Example.length_le, by decide, rfl, ?_⟩
  obtain ⟨C1, h1, h2, _, _, h3, h4⟩ := emplace_holds_constructed Example.traits
    Example.holds_int Example.holds_int_wf Example.length_le 1 (by decide)
    Example.string_from_literal "x" "x" "x" rfl
  exact ⟨C1, h1, h2, h3, h4 0 (by decide)⟩

/-- Witness of C5: `emplace<1>` of a text too long to allocate, on a `variant<int, std::string>`
holding the `int` 5, throws and leaves the container valueless. -/
theorem emplace_failure_leaves_valueless_witness :
    Example.holds_int.wf ∧
    Example.string_from_literal "long text" = (Except.error Example.Exn.bad_alloc, "long text") ∧
    ∃ C1, Example.holds_int.emplace Example.traits 1 Example.string_from_literal "long text" =
        (Except.error (Fault.alternative Example.Exn.bad_alloc), C1, "long text") ∧
      C1.index = variant_npos ∧ C1.valueless_by_exception = true := by
  refine ⟨Example.holds_int_wf, rfl, ?_⟩
  obtain ⟨C1, h1, h2, h3, _⟩ := emplace_failure_leaves_valueless Example.traits
    Example.holds_int Example.holds_int_wf 1 Example.string_from_literal "long text"
    Example.Exn.bad_alloc "long text" rfl
  exact ⟨C1, h1, h2, h3⟩

/-- Witness of C6: the copy of a `variant<int, std::string>` holding the text "x" holds "x" at
index 1. -/
theorem copy_ctor_round_trip_witness :
    Example.holds_string.wf ∧ Example.Types.length ≤ variant_npos ∧
    ∃ D, Example.holds_string.copy_ctor Example.traits = (Except.ok (), D) ∧
      D.index = 1 ∧ (get 1 D : Except (Fault Example.Exn) _) = Except.ok "x" := by
  refine ⟨Example.holds_string_wf, Example.length_le, ?_⟩
  obtain ⟨x, hx, h⟩ := (copy_ctor_round_trip Example.traits Example.holds_string
    Example.holds_string_wf Example.length_le).2 rfl
  have hxv : "x" = x := Except.ok.inj hx
  subst hxv
  obtain ⟨D, h1, h2, _, _, h3, _⟩ := h "x" rfl
  exact ⟨D, h1, h2, h3⟩

/-- Witness of C8: copy assignment of a container holding the text "x" to one holding the `int`
5 (through a temporary, as `std::string` copies may throw and moves may not). -/
theorem copy_assign_from_value_witness :
    Example.holds_int.wf ∧ Example.holds_string.wf ∧
    Example.holds_string.valueless_by_exception = false ∧
    ∃ s, Example.holds_int.copy_assign Example.traits Example.holds_string = (Except.ok (), s) ∧
      s.index = 1 ∧ (get 1 s : Except (Fault Example.Exn) _) = Except.ok "x" := by
  refine ⟨Example.holds_int_wf, Example.holds_string_wf, rfl, ?_⟩
  obtain ⟨x, hx, _, _, h⟩ := copy_assign_from_value Example.traits Example.holds_int
    Example.holds_string Example.holds_int_wf Example.holds_string_wf rfl
  have hxv : "x" = x := Except.ok.inj hx
  subst hxv
  obtain ⟨s, h1, h2, h3, _⟩ := h (by decide) rfl "x" "x" "" rfl rfl
  exact ⟨s, h1, h2, h3⟩

/-- Witness of C9: copying a text too long to allocate into a container holding the `int` 5
throws and leaves that container as it was. -/
theorem copy_assign_failure_keeps_self_witness :
    Example.holds_long_string.wf ∧
    Example.holds_long_string.valueless_by_exception = false ∧
    Example.holds_int.index ≠ Example.holds_long_string.index ∧
    Example.holds_int.copy_assign Example.traits Example.holds_long_string =
      (Except.error (Fault.alternative Example.Exn.bad_alloc), Example.holds_int) :=
  ⟨Example.holds_long_string_wf, rfl, by decide,
    copy_assign_failure_keeps_self Example.traits Example.holds_int Example.holds_long_string
      Example.holds_long_string_wf rfl (by decide) rfl rfl "long text" Example.Exn.bad_alloc
      rfl rfl⟩

/-- Witness of C10: move construction from a container holding the text "x". -/
theorem move_transfers_value_witness :
    Example.holds_string.wf ∧
    ∃ D C1, Example.holds_string.move_ctor Example.traits = (Except.ok (), D, C1) ∧
      D.index = 1 ∧ (get 1 D : Except (Fault Example.Exn) _) = Except.ok "x" ∧
      C1.index = 1 := by
  refine ⟨Example.holds_string_wf, ?_⟩
  obtain ⟨x, hx, h, _⟩ := (move_transfers_value Example.traits Example.holds_string
    Example.holds_string_wf).2 rfl
  have hxv : "x" = x := Except.ok.inj hx
  subst hxv
  exact (h "x" "" rfl).1

/-- C7, at the failing input: copy assignment of a valueless `variant<int, std::string>` to one
holding the `int` 5 makes the container valueless and then looks up the dispatch table of two
cells at the sentinel index, outside the table: the call has no defined behaviour.  Move
assignment of the same operands completes and leaves the target valueless. -/
theorem copy_assign_valueless_source_leaves_table :
    Example.holds_int.wf ∧ Example.valueless.wf ∧
    Example.valueless.valueless_by_exception = true ∧
    Example.holds_int.copy_assign Example.traits Example.valueless =
      (Except.error Fault.undefined_behaviour,
        { index_ := variant_npos, storage := union_members.dead }) ∧
    (∃ m : table_type × matrix ((List Nat → Option Unit) → Option Unit) 1,
      create_matrix_by_index [Example.Types.length] = some m ∧
      in_impl 1 m.2 [Example.valueless.index] = none) ∧
    Example.holds_int.move_assign Example.traits Example.valueless =
      (Except.ok (), { index_ := variant_npos, storage := union_members.dead },
        Example.valueless) :=
  ⟨Example.holds_int_wf, Example.valueless_wf, rfl, rfl, ⟨_, rfl, rfl⟩, rfl⟩

theorem Example.move_faithful :
    ∀ (T : Example.Ty) (x : Example.val T), (Example.traits.move_construct T x).1 = Except.ok x := by
  intro T x
  cases T <;> rfl

theorem Example.swap_faithful :
    ∀ (T : Example.Ty) (a b : Example.val T),
      Example.swaps.swap T a b = (Except.ok (), b, a) :=
  fun _ _ _ => rfl

/-- Witness of C11: a container holding the `int` 5 swapped with one holding the text "x". -/
theorem swap_exchanges_states_witness :
    Example.Types.length ≤ variant_npos ∧ Example.holds_int.wf ∧ Example.holds_string.wf ∧
    ∃ A1 B1, Example.holds_int.swap Example.traits Example.swaps Example.holds_string =
        (Except.ok (), A1, B1) ∧
      A1.index = 1 ∧ (get 1 A1 : Except (Fault Example.Exn) _) = Except.ok "x" ∧
      B1.index = 0 ∧ (get 0 B1 : Except (Fault Example.Exn) _) = Except.ok (5 : Int) := by
  refine ⟨Example.length_le, Example.holds_int_wf, Example.holds_string_wf, ?_⟩
  obtain ⟨A1, B1, h, hA, hB⟩ := (swap_exchanges_states Example.traits Example.swaps
    Example.move_faithful Example.swap_faithful Example.holds_int Example.holds_string
    Example.length_le Example.holds_int_wf Example.holds_string_wf).1
  exact ⟨A1, B1, h, hA.1, hA.2 1, hB.1, hB.2 0⟩

/-- Witness of C12: swapping a container holding the `int` 5 with a valueless one, twice. -/
theorem swap_involution_witness :
    Example.Types.length ≤ variant_npos ∧ Example.holds_int.wf ∧ Example.valueless.wf ∧
    ∃ A1 B1 A2 B2, Example.holds_int.swap Example.traits Example.swaps Example.valueless =
        (Except.ok (), A1, B1) ∧
      A1.swap Example.traits Example.swaps B1 = (Except.ok (), A2, B2) ∧
      A2.index = 0 ∧ (get 0 A2 : Except (Fault Example.Exn) _) = Except.ok (5 : Int) ∧
      B2.index = variant_npos := by
  refine ⟨Example.length_le, Example.holds_int_wf, Example.valueless_wf, ?_⟩
  obtain ⟨A1, B1, A2, B2, h1, h2, hA, hB⟩ := swap_involution Example.traits Example.swaps
    Example.move_faithful Example.swap_faithful Example.holds_int Example.valueless
    Example.length_le Example.holds_int_wf Example.valueless_wf
  exact ⟨A1, B1, A2, B2, h1, h2, hA.1, hA.2 0, hB.1⟩

theorem Example.relational_trichotomy :
    ∀ (T : Example.Ty) (x y : Example.val T),
      exactly_one (Example.relational.lt T x y) (Example.relational.eq T x y)
        (Example.relational.gt T x y) := by
  intro T x y
  cases T
  · rcases lt_trichotomy (x : Int) y with h | h | h
    · exact Or.inl ⟨decide_eq_true h, decide_eq_false (ne_of_lt h),
        decide_eq_false (not_lt_of_gt h)⟩
    · exact Or.inr (Or.inl ⟨decide_eq_false (by rw [h]; exact lt_irrefl _), decide_eq_true h,
        decide_eq_false (by rw [h]; exact lt_irrefl _)⟩)
    · exact Or.inr (Or.inr ⟨decide_eq_false (not_lt_of_gt h), decide_eq_false (ne_of_gt h),
        decide_eq_true h⟩)
  · rcases lt_trichotomy (x : String) y with h | h | h
    · exact Or.inl ⟨decide_eq_true h, decide_eq_false (ne_of_lt h),
        decide_eq_false (not_lt_of_gt h)⟩
    · exact Or.inr (Or.inl ⟨decide_eq_false (by rw [h]; exact lt_irrefl _), decide_eq_true h,
        decide_eq_false (by rw [h]; exact lt_irrefl _)⟩)
    · exact Or.inr (Or.inr ⟨decide_eq_false (not_lt_of_gt h), decide_eq_false (ne_of_gt h),
        decide_eq_true h⟩)

theorem Example.lt_irreflexive :
    ∀ (T : Example.Ty) (x : Example.val T), Example.relational.lt T x x = false := by
  intro T x
  cases T
  · exact decide_eq_false (lt_irrefl (x : Int))
  · exact decide_eq_false (lt_irrefl (x : String))

theorem Example.lt_transitive :
    ∀ (T : Example.Ty) (x y z : Example.val T), Example.relational.lt T x y = true →
      Example.relational.lt T y z = true → Example.relational.lt T x z = true := by
  intro T x y z h1 h2
  cases T
  · exact decide_eq_true (lt_trans (a := (x : Int)) (of_decide_eq_true h1) (of_decide_eq_true h2))
  · exact decide_eq_true
      (lt_trans (a := (x : String)) (of_decide_eq_true h1) (of_decide_eq_true h2))

theorem Example.holds_seven_wf : Example.holds_seven.wf := Or.inr ⟨by decide, rfl⟩

theorem Example.holds_second_of_three_wf : Example.holds_second_of_three.wf :=
  Or.inr ⟨by decide, rfl⟩

theorem Example.pack_two_and_three_wf : ∀ v ∈ Example.pack_two_and_three, v.2.wf := by
  intro v hv
  simp only [Example.pack_two_and_three, List.mem_cons, List.mem_singleton, List.mem_nil_iff,
    or_false] at hv
  rcases hv with rfl | rfl
  · exact Example.holds_int_wf
  · exact Example.holds_second_of_three_wf

theorem Example.pack_two_and_three_have_value :
    ∀ v ∈ Example.pack_two_and_three, v.2.valueless_by_exception = false := by
  intro v hv
  simp only [Example.pack_two_and_three, List.mem_cons, List.mem_singleton, List.mem_nil_iff,
    or_false] at hv
  rcases hv with rfl | rfl <;> rfl

/-- Witness of C13: a valueless container is below one holding the `int` 5 and not equal to
it. -/
theorem relational_lexicographic_witness :
    Example.valueless.wf ∧ Example.holds_int.wf ∧
    (operator_lt Example.relational Example.valueless Example.holds_int :
      Except (Fault Example.Exn) Bool) = Except.ok true ∧
    (operator_eq Example.relational Example.valueless Example.holds_int :
      Except (Fault Example.Exn) Bool) = Except.ok false :=
  ⟨Example.valueless_wf, Example.holds_int_wf,
    (relational_lexicographic Example.Exn Example.relational Example.valueless
      Example.holds_int Example.valueless_wf Example.holds_int_wf).2.2.1 rfl rfl⟩

/-- Witness of C14: containers holding the `int`s 5 and 7. -/
theorem ordering_trichotomy_witness :
    Example.holds_int.wf ∧ Example.holds_seven.wf ∧
    ∃ l e g, (operator_lt Example.relational Example.holds_int Example.holds_seven :
        Except (Fault Example.Exn) Bool) = Except.ok l ∧
      (operator_eq Example.relational Example.holds_int Example.holds_seven :
        Except (Fault Example.Exn) Bool) = Except.ok e ∧
      (operator_gt Example.relational Example.holds_int Example.holds_seven :
        Except (Fault Example.Exn) Bool) = Except.ok g ∧ exactly_one l e g :=
  ⟨Example.holds_int_wf, Example.holds_seven_wf,
    ordering_trichotomy Example.Exn Example.relational Example.relational_trichotomy
      Example.holds_int Example.holds_seven Example.holds_int_wf Example.holds_seven_wf⟩

theorem Example.lt_total :
    ∀ (T : Example.Ty) (x y : Example.val T), Example.relational.lt T x y = true ∨
      Example.relational.eq T x y = true ∨ Example.relational.lt T y x = true := by
  intro T x y
  cases T
  · rcases lt_trichotomy (x : Int) y with h | h | h
    · exact Or.inl (decide_eq_true h)
    · exact Or.inr (Or.inl (decide_eq_true h))
    · exact Or.inr (Or.inr (decide_eq_true h))
  · rcases lt_trichotomy (x : String) y with h | h | h
    · exact Or.inl (decide_eq_true h)
    · exact Or.inr (Or.inl (decide_eq_true h))
    · exact Or.inr (Or.inr (decide_eq_true h))

theorem Example.default_constructed_wf : Example.default_constructed.wf :=
  Or.inr ⟨by decide, rfl⟩

/-- Witness of C15 at `variant<int, std::string>`: the container holding 5 is not below itself;
the one holding 0 is below the one holding 5, which is below the one holding 7, so the first is
below the last, and so is the valueless container, which is below the one holding 5; of the
containers holding 5 and "x" one is below the other or they are equal. -/
theorem operator_lt_strict_order_witness :
    (∀ (T : Example.Ty) (x : Example.val T), Example.relational.lt T x x = false) ∧
    (∀ (T : Example.Ty) (x y z : Example.val T), Example.relational.lt T x y = true →
      Example.relational.lt T y z = true → Example.relational.lt T x z = true) ∧
    (operator_lt Example.relational Example.holds_int Example.holds_int :
      Except (Fault Example.Exn) Bool) = Except.ok false ∧
    (operator_lt Example.relational Example.default_constructed Example.holds_int :
      Except (Fault Example.Exn) Bool) = Except.ok true ∧
    (operator_lt Example.relational Example.holds_int Example.holds_seven :
      Except (Fault Example.Exn) Bool) = Except.ok true ∧
    (operator_lt Example.relational Example.default_constructed Example.holds_seven :
      Except (Fault Example.Exn) Bool) = Except.ok true ∧
    (operator_lt Example.relational Example.valueless Example.holds_int :
      Except (Fault Example.Exn) Bool) = Except.ok true ∧
    (operator_lt Example.relational Example.valueless Example.holds_seven :
      Except (Fault Example.Exn) Bool) = Except.ok true ∧
    ((operator_lt Example.relational Example.holds_int Example.holds_string :
        Except (Fault Example.Exn) Bool) = Except.ok true ∨
      (operator_eq Example.relational Example.holds_int Example.holds_string :
        Except (Fault Example.Exn) Bool) = Except.ok true ∨
      (operator_lt Example.relational Example.holds_string Example.holds_int :
        Except (Fault Example.Exn) Bool) = Except.ok true) :=
  ⟨Example.lt_irreflexive, Example.lt_transitive,
    (operator_lt_strict_order Example.Exn Example.relational Example.lt_irreflexive
      Example.lt_transitive).1 Example.holds_int Example.holds_int_wf,
    rfl, rfl,
    (operator_lt_strict_order Example.Exn Example.relational Example.lt_irreflexive
      Example.lt_transitive).2.1 Example.default_constructed Example.holds_int
      Example.holds_seven Example.default_constructed_wf Example.holds_int_wf
      Example.holds_seven_wf rfl rfl,
    rfl,
    (operator_lt_strict_order Example.Exn Example.relational Example.lt_irreflexive
      Example.lt_transitive).2.1 Example.valueless Example.holds_int
      Example.holds_seven Example.valueless_wf Example.holds_int_wf
      Example.holds_seven_wf rfl rfl,
    (operator_lt_strict_order Example.Exn Example.relational Example.lt_irreflexive
      Example.lt_transitive).2.2 Example.lt_total Example.holds_int Example.holds_string
      Example.holds_int_wf Example.holds_string_wf⟩

/-- Counterexample to C15 as stated, at `variant<double>`: `<` of `double` is irreflexive and
transitive, yet of the containers holding NaN and 1.0 neither is below the other and they are
not equal, so `<` on containers is not a total order. -/
theorem operator_lt_not_total :
    (∀ (T : Example.Flt) (x : Example.flt_val T), Example.flt_relational.lt T x x = false) ∧
    (∀ (T : Example.Flt) (x y z : Example.flt_val T), Example.flt_relational.lt T x y = true →
      Example.flt_relational.lt T y z = true → Example.flt_relational.lt T x z = true) ∧
    Example.holds_nan.wf ∧ Example.holds_one.wf ∧
    (operator_lt Example.flt_relational Example.holds_nan Example.holds_one :
      Except (Fault Example.Exn) Bool) = Except.ok false ∧
    (operator_lt Example.flt_relational Example.holds_one Example.holds_nan :
      Except (Fault Example.Exn) Bool) = Except.ok false ∧
    (operator_eq Example.flt_relational Example.holds_nan Example.holds_one :
      Except (Fault Example.Exn) Bool) = Except.ok false := by
  refine ⟨?_, ?_, Or.inr ⟨by decide, rfl⟩, Or.inr ⟨by decide, rfl⟩, rfl, rfl, rfl⟩
  · intro T x
    cases T
    cases x with
    | none => rfl
    | some a => exact decide_eq_false (lt_irrefl a)
  · intro T x y z h1 h2
    cases T
    cases x with
    | none => cases h1
    | some a =>
      cases y with
      | none => cases h1
      | some b =>
        cases z with
        | none => cases h2
        | some c => exact decide_eq_true (lt_trans (of_decide_eq_true h1) (of_decide_eq_true h2))

/-- Witness of C16: a container at index 0 of two alternatives and one at index 1 of three,
visited with an operation that returns its tags, give the tags 0 and 1; for a container of two
alternatives and one of a single alternative there is no table. -/
theorem visit_by_index_resolves_indices_witness :
    (∀ v ∈ Example.pack_two_and_three, v.2.wf) ∧
    (∀ v ∈ Example.pack_two_and_three, v.2.valueless_by_exception = false) ∧
    table_builds (Example.pack_two_and_three.map (fun v => v.1.length)) = true ∧
    (∃ m : table_type × matrix ((List Nat → Option (List Nat)) → Option (List Nat)) _,
      create_matrix_by_index (Example.pack_two_and_three.map (fun v => v.1.length)) = some m ∧
      in_impl _ m.2 (Example.pack_two_and_three.map (fun v => v.2.index)) =
        some (fun func : List Nat → Option (List Nat) =>
          func (Example.pack_two_and_three.map (fun v => v.2.index))) ∧
      visit_by_index Example.return_tags Example.pack_two_and_three =
        Example.return_tags (Example.pack_two_and_three.map (fun v => v.2.index))) ∧
    visit_by_index Example.return_tags Example.pack_two_and_three = some [0, 1] ∧
    table_builds (Example.pack_with_values.map (fun v => v.1.length)) = false ∧
    visit_by_index Example.return_tags Example.pack_with_values = none :=
  ⟨Example.pack_two_and_three_wf, Example.pack_two_and_three_have_value, rfl,
    (visit_by_index_resolves_indices Example.return_tags Example.pack_two_and_three
      Example.pack_two_and_three_wf Example.pack_two_and_three_have_value).1 rfl,
    rfl, rfl,
    ((visit_by_index_resolves_indices Example.return_tags Example.pack_with_values
      Example.pack_with_values_wf Example.pack_with_values_have_value).2 rfl).2⟩

/-- Witness of C17: a default-constructed `variant<int, std::string>` holds the `int` 0. -/
theorem default_ctor_holds_first_witness :
    Example.defaults.default_construct Example.Ty.int = some (Except.ok (0 : Int)) ∧
    ∃ v : variant Example.val Example.Types,
      variant.default_ctor Example.defaults Example.Types = some (Except.ok v) ∧
      v.index = 0 ∧ v.valueless_by_exception = false ∧
      (get 0 v : Except (Fault Example.Exn) _) = Except.ok (0 : Int) := by
  refine ⟨rfl, ?_⟩
  obtain ⟨v, h1, h2, h3, _, h4⟩ := default_ctor_holds_first Example.defaults Example.Ty.int
    [Example.Ty.string] (0 : Int) rfl
  exact ⟨v, h1, h2, h3, h4⟩

/-- Witness of C20: `holds_alternative<std::string>` on a `variant<int, std::string>` holding
the text "x". -/
theorem holds_alternative_iff_index_witness :
    Example.Types.length ≤ variant_npos ∧ count_of Example.Ty.string Example.Types = 1 ∧
    get_type 1 Example.Types = some Example.Ty.string ∧
    holds_alternative Example.Ty.string Example.holds_string = true ∧
    holds_alternative Example.Ty.string Example.valueless = false :=
  ⟨Example.length_le, rfl, rfl,
    (holds_alternative_iff_index Example.Ty.string Example.holds_string Example.length_le
      rfl 1 rfl).2.1.mpr rfl,
    (holds_alternative_iff_index Example.Ty.string Example.valueless Example.length_le
      rfl 1 rfl).2.2 rfl⟩

theorem Example.holds_string_reachable :
    reachable Example.traits Example.swaps Example.defaults Example.holds_string :=
  reachable.emplace 1 (by decide) Example.string_from_literal "x" "x" "x"
    Example.default_constructed Example.holds_string
    (reachable.default_ctor Example.default_constructed rfl) rfl

/-- C19 at `variant<int, std::string>`: the container that is default-constructed and then given
the text "x" by `emplace<1>` is not valueless. -/
theorem reachable_has_value_witness :
    reachable Example.traits Example.swaps Example.defaults Example.holds_string ∧
    (Example.holds_string.valueless_by_exception = false ∧ Example.holds_string.wf ∧
      Example.holds_string.index < Example.Types.length) :=
  ⟨Example.holds_string_reachable,
    reachable_has_value Example.length_le Example.traits Example.swaps Example.defaults
      Example.holds_string Example.holds_string_reachable⟩

/-- Counterexample to C19 as stated, at `variant<int, std::string>`: the default constructor
succeeds and gives a container with a value; the public member `make_valueless()` then returns
without any construction or assignment of an alternative failing, and the container is
valueless. -/
theorem make_valueless_reaches_valueless :
    variant.default_ctor Example.defaults Example.Types =
      some (Except.ok Example.default_constructed) ∧
    Example.default_constructed.valueless_by_exception = false ∧
    (Example.default_constructed.make_valueless Example.traits).map
      variant.valueless_by_exception = some true :=
  ⟨rfl, rfl, rfl⟩

theorem Example.gt_is_flipped_lt :
    ∀ (T : Example.Ty) (x y : Example.val T),
      Example.relational.gt T x y = Example.relational.lt T y x := by
  intro T x y
  cases T <;> rfl

theorem Example.le_is_not_gt :
    ∀ (T : Example.Ty) (x y : Example.val T),
      Example.relational.le T x y = !Example.relational.gt T x y := by
  intro T x y
  cases T
  · show decide ((x : Int) ≤ y) = !decide ((y : Int) < x)
    by_cases h : (y : Int) < x
    · simp [h, not_le_of_gt h]
    · simp [h, not_lt.mp h]
  · rfl

theorem Example.ge_is_not_lt :
    ∀ (T : Example.Ty) (x y : Example.val T),
      Example.relational.ge T x y = !Example.relational.lt T x y := by
  intro T x y
  cases T
  · show decide ((y : Int) ≤ x) = !decide ((x : Int) < y)
    by_cases h : (x : Int) < y
    · simp [h, not_le_of_gt h]
    · simp [h, not_lt.mp h]
  · rfl

/-- Witness of C24 at `variant<int, std::string>`: a container holding the `int` 5 and a
valueless one; `==` is false and `<` of the valueless one is true. -/
theorem relational_operators_total_witness :
    Example.holds_int.wf ∧ Example.valueless.wf ∧
    (operator_eq Example.relational Example.holds_int Example.valueless :
      Except (Fault Example.Exn) Bool) = Except.ok false ∧
    (operator_lt Example.relational Example.valueless Example.holds_int :
      Except (Fault Example.Exn) Bool) = Except.ok true ∧
    (operator_le Example.relational Example.holds_int Example.holds_seven :
      Except (Fault Example.Exn) Bool) = Except.ok true ∧
    (∃ r, (operator_ge Example.relational Example.holds_int Example.valueless :
      Except (Fault Example.Exn) Bool) = Except.ok r) :=
  ⟨Example.holds_int_wf, Example.valueless_wf, rfl, rfl, rfl,
    (relational_operators_total Example.Exn Example.relational Example.holds_int
      Example.valueless Example.holds_int_wf Example.valueless_wf).1.2.2.2.2.2⟩

/-- Witness of C26 at `variant<int, std::string>`: the containers holding the `int`s 5 and 7. -/
theorem operators_consistent_witness :
    Example.holds_int.wf ∧ Example.holds_seven.wf ∧
    (operator_gt Example.relational Example.holds_seven Example.holds_int :
      Except (Fault Example.Exn) Bool) = Except.ok true ∧
    ∃ e l g : Bool,
      (operator_eq Example.relational Example.holds_int Example.holds_seven :
        Except (Fault Example.Exn) Bool) = Except.ok e ∧
      (operator_ne Example.relational Example.holds_int Example.holds_seven :
        Except (Fault Example.Exn) Bool) = Except.ok (!e) ∧
      (operator_lt Example.relational Example.holds_int Example.holds_seven :
        Except (Fault Example.Exn) Bool) = Except.ok l ∧
      (operator_lt Example.relational Example.holds_seven Example.holds_int :
        Except (Fault Example.Exn) Bool) = Except.ok g ∧
      (operator_gt Example.relational Example.holds_int Example.holds_seven :
        Except (Fault Example.Exn) Bool) = Except.ok g ∧
      (operator_le Example.relational Example.holds_int Example.holds_seven :
        Except (Fault Example.Exn) Bool) = Except.ok (!g) ∧
      (operator_ge Example.relational Example.holds_int Example.holds_seven :
        Except (Fault Example.Exn) Bool) = Except.ok (!l) :=
  ⟨Example.holds_int_wf, Example.holds_seven_wf, rfl,
    operators_consistent Example.Exn Example.relational Example.gt_is_flipped_lt
      Example.le_is_not_gt Example.ge_is_not_lt Example.holds_int Example.holds_seven
      Example.holds_int_wf Example.holds_seven_wf⟩

/-- Witness of C21 at `variant<int, std::string>`: the container holding the text "x". -/
theorem make_valueless_idempotent_witness :
    Example.holds_string.wf ∧ Example.Types.length ≤ variant_npos ∧
    ((∃ s, Example.holds_string.make_valueless Example.traits = some s ∧
      s.index = variant_npos ∧ s.valueless_by_exception = true ∧ s.wf ∧
      s.make_valueless Example.traits = some s ∧
      ∀ i, i < Example.Types.length →
        (get i s : Except (Fault Example.Exn) _) = Except.error Fault.bad_variant_access) ∧
    (Example.holds_string.valueless_by_exception = true →
      Example.holds_string.make_valueless Example.traits = some Example.holds_string) ∧
    (Example.holds_string.valueless_by_exception = true ↔
      Example.holds_string.index = variant_npos)) :=
  ⟨Example.holds_string_wf, Example.length_le,
    make_valueless_idempotent Example.traits Example.holds_string Example.holds_string_wf
      Example.length_le⟩

/-- Witness of C22: the table for two containers with 2 and 3 alternatives has 6 cells, and the
index tuple (1, 2) addresses one of them; for 2 and 1 alternatives no table can be built. -/
theorem dispatch_table_shape_witness :
    table_builds [2, 3] = true ∧
    (∃ m : table_type × matrix ((List Nat → Option Unit) → Option Unit) _,
      create_matrix_by_index [2, 3] = some m ∧
      matrix.has_extents ((List Nat → Option Unit) → Option Unit) [2, 3] _ m.2 ∧
      matrix.cells ((List Nat → Option Unit) → Option Unit) _ m.2 = [2, 3].prod ∧
      ∀ idxs : List Nat, List.Forall₂ (fun i n => i < n) idxs [2, 3] →
        ∃ cell : (List Nat → Option Unit) → Option Unit, in_impl _ m.2 idxs = some cell) ∧
    table_builds [2, 1] = false ∧
    (create_matrix_by_index [2, 1] : Option (table_type ×
      matrix ((List Nat → Option Unit) → Option Unit) _)) = none :=
  ⟨rfl, ((dispatch_table_shape Example.Exn Example.val Unit [2, 3]).2.1 rfl).1, rfl,
    ((dispatch_table_shape Example.Exn Example.val Unit [2, 1]).2.2 rfl).1⟩

/-- Witness of C23 at the storage of `variant<int, std::string>`: the text "x" placed at
index 1. -/
theorem storage_round_trip_witness :
    (1 < Example.Types.length ∧ Example.string_from_literal "x" = (Except.ok "x", "x")) ∧
    ((∃ st, variadic_union.in_place Example.Types 1 Example.string_from_literal "x" =
        (Except.ok st, "x") ∧
      variadic_union.get Example.Types 1 st = some "x" ∧
      variadic_union.live_depth Example.Types st = some 1 ∧
      ∀ j, j ≠ 1 → variadic_union.get Example.Types j st = none) ∧
    (∀ u : variadic_union Example.val Example.Types,
      ∃ st, variadic_union.set Example.Types 1 Example.string_from_literal "x" u =
          ((Except.ok "x", "x"), st) ∧
        variadic_union.get Example.Types 1 st = some "x" ∧
        variadic_union.live_depth Example.Types st = some 1 ∧
        ∀ j, j ≠ 1 → variadic_union.get Example.Types j st = none)) :=
  ⟨⟨by decide, rfl⟩,
    storage_round_trip Example.Types 1 (by decide) Example.string_from_literal "x" "x" "x" rfl⟩

/-- Witness of C25 at `variant<int, std::string>`: `emplace<1>` of a text too long to allocate
into the container holding the `int` 5 lets `bad_alloc` through and leaves a container that
satisfies the invariant. -/
theorem index_range_invariant_witness :
    Example.Types.length ≤ variant_npos ∧ Example.holds_int.wf ∧
    (Example.holds_int.emplace Example.traits 1 Example.string_from_literal "long text").1 =
      Except.error (Fault.alternative Example.Exn.bad_alloc) ∧
    (defined_outcome
        (Example.holds_int.emplace Example.traits 1 Example.string_from_literal "long text").1 ∧
      (Example.holds_int.emplace Example.traits 1 Example.string_from_literal
        "long text").2.1.wf) :=
  ⟨Example.length_le, Example.holds_int_wf, rfl,
    (index_range_invariant Example.length_le Example.traits Example.swaps
      Example.defaults).2.2.2.2.2.2.2.1 String 1 (by decide) Example.string_from_literal
      "long text"
      (Example.holds_int.emplace Example.traits 1 Example.string_from_literal "long text").2.2
      Example.holds_int
      (Example.holds_int.emplace Example.traits 1 Example.string_from_literal "long text").2.1
      (Example.holds_int.emplace Example.traits 1 Example.string_from_literal "long text").1
      Example.holds_int_wf rfl⟩

end Variant
